import Mathlib

/-!
# OpenHoW terrain: a shallow embedding of `src/engine/terrain.cpp`

The development follows the source file function by function.

* Floating point values (`float`, `PLVector2`) are embedded as rationals, so every
  statement about heights and positions is a statement of exact arithmetic.
* `unsigned int` values are naturals reduced modulo `2 ^ 32`.
* A pointer into `chunks_` is embedded as the index it points at, a pointer to a tile
  as the pair of the chunk index and the tile index; `nullptr` is `none`.
* The grid macros (`TERRAIN_*`) live in `terrain.h`; they are parameters of the
  embedding, collected in `TerrainConsts`.
* The face format loader `Fac_LoadFile` of `src/shared/fac.c` and the encoder of the binary
  terrain format, which the sources do not hold, have sections of their own at the end of
  the definitions.
-/

namespace OpenHoW

/-! ## Data model -/

/-- The grid macros of `terrain.h` that `terrain.cpp` refers to.  Every function of the
embedding takes them as a parameter. -/
structure TerrainConsts where
  /-- Chunks per row of the map. -/
  TERRAIN_CHUNK_ROW : Nat
  /-- Number of chunks of the map, the size `chunks_` is given by the constructor. -/
  TERRAIN_CHUNKS : Nat
  /-- Tiles per row of a chunk. -/
  TERRAIN_CHUNK_ROW_TILES : Nat
  /-- Number of tiles of a chunk. -/
  TERRAIN_CHUNK_TILES : Nat
  /-- Width of a tile in world units. -/
  TERRAIN_TILE_PIXEL_WIDTH : Nat
  /-- Width of a chunk in world units. -/
  TERRAIN_CHUNK_PIXEL_WIDTH : Nat
  /-- Width of the whole map in world units. -/
  TERRAIN_PIXEL_WIDTH : Nat
  deriving DecidableEq

/-- The grid the source is written for, with the tile width `w` left open: 4 x 4 tiles per
chunk (`vertices[25]`, `chunk_indices[96]`), 16 x 16 chunks (the 65 samples per row of
`LoadHeightmap`), a chunk spanning its 4 tiles and the map its 16 chunks. -/
def grid (w : Nat) : TerrainConsts where
  TERRAIN_CHUNK_ROW := 16
  TERRAIN_CHUNKS := 256
  TERRAIN_CHUNK_ROW_TILES := 4
  TERRAIN_CHUNK_TILES := 16
  TERRAIN_TILE_PIXEL_WIDTH := w
  TERRAIN_CHUNK_PIXEL_WIDTH := 4 * w
  TERRAIN_PIXEL_WIDTH := 64 * w

/-- A two dimensional vector of floats, read as exact rationals. -/
structure PLVector2 where
  x : ℚ
  y : ℚ

/-- A terrain tile (`Terrain::Tile`).  The enumerations `Surface`, `Behaviour` and
`Rotation` are kept as their numeric values.  The corner shading is a brightness of 8 bits
(255 is its maximum, and it is what a colour channel of a mesh vertex is set to), so a
value assigned to it is reduced to its low byte; the other fields hold the value assigned
to them unchanged. -/
structure Tile where
  surface : Nat
  behaviour : Nat
  slip : Nat
  texture : Nat
  rotation : Nat
  /-- Corner heights, in the order NW, NE, SW, SE. -/
  height : Fin 4 → ℚ
  /-- Corner shading, in the order NW, NE, SW, SE. -/
  shading : Fin 4 → Nat

/-- A chunk (`Terrain::Chunk`): its array of tiles. -/
structure Chunk where
  tiles : Nat → Tile

/-- The state of a `Terrain` object that the functions below read and write.
`updates` counts the calls of `Update()`. -/
structure Terrain where
  chunks_ : Nat → Chunk
  min_height_ : ℚ
  max_height_ : ℚ
  updates : Nat

/-- Reduction of a natural number to an `unsigned int`. -/
def u32 (n : Nat) : Nat := n % 2 ^ 32

/-- The cast `(uint)(f)` of a float. -/
def toUint (f : ℚ) : Nat := u32 (Int.toNat ⌊f⌋)

/-! ## Lookup by world position -/

/-- The index computed by `Terrain::GetChunk` once the position passed the range test. -/
def chunkIdx (c : TerrainConsts) (pos : PLVector2) : Nat :=
  u32 (toUint pos.x / c.TERRAIN_CHUNK_PIXEL_WIDTH
    + u32 ((toUint pos.y / c.TERRAIN_CHUNK_PIXEL_WIDTH) * c.TERRAIN_CHUNK_ROW))

/-- The function `Terrain::GetChunk`: the index of the chunk pointed at, or `none`. -/
def GetChunk (c : TerrainConsts) (pos : PLVector2) : Option Nat :=
  if pos.x < 0 ∨ ⌊pos.x⌋ ≥ (c.TERRAIN_PIXEL_WIDTH : Int) ∨
      pos.y < 0 ∨ ⌊pos.y⌋ ≥ (c.TERRAIN_PIXEL_WIDTH : Int) then
    none
  else
    let idx := chunkIdx c pos
    if idx ≥ c.TERRAIN_CHUNKS then
      none
    else
      some idx

/-- The index computed by `Terrain::GetTile` once a chunk was found. -/
def tileIdx (c : TerrainConsts) (pos : PLVector2) : Nat :=
  u32 (((toUint pos.x / c.TERRAIN_TILE_PIXEL_WIDTH) % c.TERRAIN_CHUNK_ROW_TILES)
    + u32 (((toUint pos.y / c.TERRAIN_TILE_PIXEL_WIDTH) % c.TERRAIN_CHUNK_ROW_TILES)
        * c.TERRAIN_CHUNK_ROW_TILES))

/-- The function `Terrain::GetTile`: chunk index and tile index of the tile pointed at,
or `none`. -/
def GetTile (c : TerrainConsts) (pos : PLVector2) : Option (Nat × Nat) :=
  match GetChunk c pos with
  | none => none
  | some chunk =>
    let idx := tileIdx c pos
    if idx ≥ c.TERRAIN_CHUNK_TILES then
      none
    else
      some (chunk, idx)

/-- The tile a tile pointer points at. -/
def Terrain.tileAt (t : Terrain) (p : Nat × Nat) : Tile :=
  (t.chunks_ p.1).tiles p.2

/-- The function `Terrain::GetHeight`. -/
def GetHeight (c : TerrainConsts) (t : Terrain) (pos : PLVector2) : ℚ :=
  match GetTile c pos with
  | none => 0
  | some p =>
    let tile := t.tileAt p
    let tile_x := pos.x - ⌊pos.x⌋
    let tile_y := pos.y - ⌊pos.y⌋
    let x := tile.height 0 + ((tile.height 1 - tile.height 0) * tile_x)
    let y := tile.height 2 + ((tile.height 3 - tile.height 2) * tile_x)
    let z := x + ((y - x) * tile_y)
    z

/-- Bilinear interpolation of four corner values (NW, NE, SW, SE) at the weights `fx`,
`fy`: `top + (bottom - top) * fy` with `top = h0 + (h1 - h0) * fx` and
`bottom = h2 + (h3 - h2) * fx`. -/
def bilinear (h : Fin 4 → ℚ) (fx fy : ℚ) : ℚ :=
  let top := h 0 + ((h 1 - h 0) * fx)
  let bottom := h 2 + ((h 3 - h 2) * fx)
  top + ((bottom - top) * fy)

/-- Height at a position read off the specification: the bilinear interpolation of the
corner heights of the tile holding the position, weighted per axis by
`(coordinate - coordinate of the tile's NW corner) / tileWidth`. -/
def tileFractionHeight (c : TerrainConsts) (t : Terrain) (pos : PLVector2) : ℚ :=
  match GetTile c pos with
  | none => 0
  | some p =>
    let tw : ℚ := c.TERRAIN_TILE_PIXEL_WIDTH
    let nw_x : ℚ := tw * ⌊pos.x / tw⌋
    let nw_y : ℚ := tw * ⌊pos.y / tw⌋
    bilinear (t.tileAt p).height ((pos.x - nw_x) / tw) ((pos.y - nw_y) / tw)

/-! ## Reading a file

The file interface (`plReadFile`, `plReadInt8`, `plReadInt16`, `plReadInt32`,
`plFileSeek`) belongs to the platform library.  A file is the list of its bytes with a
read position; a read that finds fewer bytes than asked for fails, yields 0, clears
`status` and leaves the position at the end of the file. -/

/-- A byte. -/
abbrev Byte := Fin 256

/-- An open file: its content and the read position. -/
structure PLFile where
  data : List Byte
  pos : Nat

/-- The call `plReadFile( fh, dest, size, 1 )`: the bytes read when the element is
complete (the call returns 1), `none` otherwise (it returns 0). -/
def plReadFile (fh : PLFile) (size : Nat) : Option (List Byte) × PLFile :=
  if fh.pos + size ≤ fh.data.length then
    (some ((fh.data.drop fh.pos).take size), { fh with pos := fh.pos + size })
  else
    (none, { fh with pos := fh.data.length })

/-- The call `plFileSeek( fh, n, PL_SEEK_CUR )` for `n ≥ 0`; a seek past the end fails
and leaves the position where it was. -/
def plFileSeek (fh : PLFile) (n : Nat) : PLFile :=
  if fh.pos + n ≤ fh.data.length then { fh with pos := fh.pos + n } else fh

/-- Value of a little-endian byte string. -/
def leNat : List Byte → Nat
  | [] => 0
  | b :: bs => b.val + 256 * leNat bs

/-- The byte at offset `i` of a byte string, as a number (0 past the end). -/
def byteAt (data : List Byte) (i : Nat) : Nat := (data.getD i 0).val

/-- The little-endian integer of `n` bytes at offset `p` of a byte string. -/
def leAt (data : List Byte) (p : Nat) : Nat → Nat
  | 0 => 0
  | n + 1 => byteAt data p + 256 * leAt data (p + 1) n

/-- Two's complement reading of the low `bits` bits of `raw`. -/
def toSigned (bits : Nat) (raw : Nat) : Int :=
  if raw % 2 ^ bits < 2 ^ (bits - 1) then (raw % 2 ^ bits : Nat)
  else (raw % 2 ^ bits : Nat) - 2 ^ bits

/-- Conversion of a signed integer to an unsigned type of `bits` bits. -/
def toUnsigned (bits : Nat) (i : Int) : Nat := (i % 2 ^ bits).toNat

/-- Read of a little-endian integer of `size` bytes: value, `status`, file. -/
def readSizedInteger (fh : PLFile) (size : Nat) : Int × Bool × PLFile :=
  match plReadFile fh size with
  | (some bs, fh1) => (toSigned (8 * size) (leNat bs), true, fh1)
  | (none, fh1) => (0, false, fh1)

/-- The call `plReadInt8( fh, &status )`. -/
def plReadInt8 (fh : PLFile) : Int × Bool × PLFile := readSizedInteger fh 1

/-- The call `plReadInt16( fh, false, &status )`. -/
def plReadInt16 (fh : PLFile) : Int × Bool × PLFile := readSizedInteger fh 2

/-- The call `plReadInt32( fh, false, &status )`. -/
def plReadInt32 (fh : PLFile) : Int × Bool × PLFile := readSizedInteger fh 4

/-! ## Loading the binary terrain format -/

/-- A `for ( i = 0; i < n; ++i )` loop whose body may abort. -/
def forLoop {σ ε : Type} (body : Nat → σ → Except ε σ) : Nat → σ → Except ε σ
  | 0, s => .ok s
  | n + 1, s =>
    match forLoop body n s with
    | .ok s1 => body n s1
    | .error e => .error e

/-- The four fatal `Error( ... )` exits of `Terrain::LoadPmg`. -/
inductive PmgError where
  | chunkDescriptor
  | vertexDescriptor
  | unusedBytes
  | tileDescriptor
  deriving DecidableEq

/-- A vertex record of a chunk (`vertices[25]`). -/
structure Vertex where
  height : Int
  lighting : Nat
  deriving DecidableEq

/-- Assignment to `chunks_[ chunk ].tiles[ idx ]`. -/
def Terrain.setTile (t : Terrain) (chunk idx : Nat) (tile : Tile) : Terrain :=
  { t with
    chunks_ := Function.update t.chunks_ chunk
      (Chunk.mk (Function.update (t.chunks_ chunk).tiles idx tile)) }

/-- The function `Terrain::Update`: the overview and the chunk meshes are regenerated
from the tiles, none of which is written. -/
def Update (t : Terrain) : Terrain := { t with updates := t.updates + 1 }

/-- The two tests of the vertex loop of `Terrain::LoadPmg` that keep the maximum and
the minimum height. -/
def trackHeight (t : Terrain) (height : Int) : Terrain :=
  let t1 := if (height : ℚ) > t.max_height_ then { t with max_height_ := height } else t
  if (height : ℚ) < t1.min_height_ then { t1 with min_height_ := height } else t1

/-- Body of the vertex loop of `Terrain::LoadPmg`. -/
def readVertex (i : Nat) (s : PLFile × Terrain × (Nat → Vertex)) :
    Except (PmgError × Terrain) (PLFile × Terrain × (Nat → Vertex)) :=
  match s with
  | (fh, t, vertices) =>
    match plReadInt16 fh with
    | (height, _, fh1) =>
      match plReadInt16 fh1 with
      | (lighting, status, fh2) =>
        if !status then
          .error (.vertexDescriptor, t)
        else
          .ok (fh2, trackHeight t height,
            Function.update vertices i ⟨height, toUnsigned 16 lighting⟩)

/-- The surface held by the packed `type` byte of a tile record: `tile.type & 31U`. -/
def decodeSurface (type : Nat) : Nat := type &&& 31

/-- The behaviour flags held by the packed `type` byte of a tile record:
`tile.type & ~31U`, the complement taken in 32 bits. -/
def decodeBehaviour (type : Nat) : Nat := type &&& (2 ^ 32 - 1 - 31)

/-- Body of the tile loops of `Terrain::LoadPmg` for the chunk at index `chunk`. -/
def readTile (c : TerrainConsts) (chunk : Nat) (vertices : Nat → Vertex) (tile_y tile_x : Nat)
    (s : PLFile × Terrain) : Except (PmgError × Terrain) (PLFile × Terrain) :=
  match s with
  | (fh, t) =>
    match plReadFile fh 6 with
    | (none, _) => .error (.unusedBytes, t)
    | (some _, fh1) =>
      match plReadInt8 fh1 with
      | (type, _, fh2) =>
        match plReadInt8 fh2 with
        | (_, _, fh3) =>
          match plReadInt16 fh3 with
          | (_, _, fh4) =>
            match plReadInt8 fh4 with
            | (rotation, _, fh5) =>
              match plReadInt32 fh5 with
              | (texture, _, fh6) =>
                match plReadInt8 fh6 with
                | (_, status, fh7) =>
                  if !status then
                    .error (.tileDescriptor, t)
                  else
                    let current_tile : Tile :=
                      { surface := decodeSurface (toUnsigned 8 type)
                        behaviour := decodeBehaviour (toUnsigned 8 type)
                        rotation := toUnsigned 8 rotation
                        slip := 0
                        texture := toUnsigned 32 texture
                        height := ![((vertices (tile_y * 5 + tile_x)).height : ℚ),
                          ((vertices (tile_y * 5 + tile_x + 1)).height : ℚ),
                          ((vertices ((tile_y + 1) * 5 + tile_x)).height : ℚ),
                          ((vertices ((tile_y + 1) * 5 + tile_x + 1)).height : ℚ)]
                        shading := ![(vertices (tile_y * 5 + tile_x)).lighting % 256,
                          (vertices (tile_y * 5 + tile_x + 1)).lighting % 256,
                          (vertices ((tile_y + 1) * 5 + tile_x)).lighting % 256,
                          (vertices ((tile_y + 1) * 5 + tile_x + 1)).lighting % 256] }
                    .ok (fh7, t.setTile chunk (tile_x + tile_y * c.TERRAIN_CHUNK_ROW_TILES)
                      current_tile)

/-- Body of the chunk loops of `Terrain::LoadPmg`, for the chunk at index `chunk`. -/
def readChunk (c : TerrainConsts) (chunk : Nat) (s : PLFile × Terrain) :
    Except (PmgError × Terrain) (PLFile × Terrain) :=
  match s with
  | (fh, t) =>
    match plReadInt16 fh with
    | (_, _, fh1) =>
      match plReadInt16 fh1 with
      | (_, _, fh2) =>
        match plReadInt16 fh2 with
        | (_, _, fh3) =>
          match plReadInt16 fh3 with
          | (_, status, fh4) =>
            if !status then
              .error (.chunkDescriptor, t)
            else
              match forLoop readVertex 25 (fh4, t, fun _ => ⟨0, 0⟩) with
              | .error e => .error e
              | .ok (fh5, t1, vertices) =>
                forLoop (fun tile_y =>
                    forLoop (fun tile_x => readTile c chunk vertices tile_y tile_x)
                      c.TERRAIN_CHUNK_ROW_TILES)
                  c.TERRAIN_CHUNK_ROW_TILES (plFileSeek fh5 4, t1)

/-- How a call of `Terrain::LoadPmg` ends, with the terrain it leaves behind. -/
inductive PmgResult where
  /-- The file could not be opened: warning and return. -/
  | openFailed (t : Terrain)
  /-- One of the `Error( ... )` exits was taken. -/
  | fatal (e : PmgError) (t : Terrain)
  /-- All chunks were read and `Update()` was run. -/
  | loaded (t : Terrain)

/-- The function `Terrain::LoadPmg`; `file` is the content of the file at `path`, `none`
when `plOpenFile` fails. -/
def LoadPmg (c : TerrainConsts) (t : Terrain) (file : Option (List Byte)) : PmgResult :=
  match file with
  | none => .openFailed t
  | some data =>
    match forLoop (fun chunk_y =>
        forLoop (fun chunk_x => readChunk c (chunk_x + chunk_y * c.TERRAIN_CHUNK_ROW))
          c.TERRAIN_CHUNK_ROW)
      c.TERRAIN_CHUNK_ROW (⟨data, 0⟩, t) with
    | .error (e, t1) => .fatal e t1
    | .ok (_, t1) => .loaded (Update t1)

/-! ## The binary layout, in closed form

The values `Terrain::LoadPmg` leaves in the terrain, written as functions of the byte
offsets of the file.  The theorems of the second part prove that the loader computes
them. -/

/-- The vertex record number `i` of a vertex array that starts at offset `p`. -/
def pmgVertexAt (data : List Byte) (p i : Nat) : Vertex :=
  ⟨toSigned 16 (leAt data (p + 4 * i) 2), leAt data (p + 4 * i + 2) 2⟩

/-- The tile built from the tile record at offset `q` and the vertex array `vertices`. -/
def pmgTileAt (data : List Byte) (vertices : Nat → Vertex) (q tile_y tile_x : Nat) : Tile where
  surface := decodeSurface (byteAt data (q + 6))
  behaviour := decodeBehaviour (byteAt data (q + 6))
  rotation := byteAt data (q + 10)
  slip := 0
  texture := leAt data (q + 11) 4
  height := ![((vertices (tile_y * 5 + tile_x)).height : ℚ),
    ((vertices (tile_y * 5 + tile_x + 1)).height : ℚ),
    ((vertices ((tile_y + 1) * 5 + tile_x)).height : ℚ),
    ((vertices ((tile_y + 1) * 5 + tile_x + 1)).height : ℚ)]
  shading := ![(vertices (tile_y * 5 + tile_x)).lighting % 256,
    (vertices (tile_y * 5 + tile_x + 1)).lighting % 256,
    (vertices ((tile_y + 1) * 5 + tile_x)).lighting % 256,
    (vertices ((tile_y + 1) * 5 + tile_x + 1)).lighting % 256]

/-- Size in bytes of what the decoder reads for one chunk: the chunk offset record
(8 bytes), 25 vertex records of 4 bytes, 4 skipped bytes and 16 tile records of 16
bytes. -/
def pmgChunkSize : Nat := 8 + 25 * 4 + 4 + 16 * 16

/-- Offset of the tile record number `j` of the chunk record number `k` of the stream. -/
def pmgTileRecord (k j : Nat) : Nat := pmgChunkSize * k + 112 + 16 * j

/-- The vertex record number `i` of the chunk number `k` of the stream. -/
def pmgVertex (data : List Byte) (k i : Nat) : Vertex :=
  pmgVertexAt data (pmgChunkSize * k + 8) i

/-- The tile at row `tile_y` and column `tile_x` of the chunk number `k` of the stream. -/
def pmgTile (data : List Byte) (k tile_y tile_x : Nat) : Tile :=
  pmgTileAt data (pmgVertex data k) (pmgChunkSize * k + 112 + 16 * (tile_x + tile_y * 4))
    tile_y tile_x

/-- The terrain with the first `m` tiles of chunk `k` replaced by `F 0`, ..., `F (m - 1)`. -/
def setTilesUpTo (t : Terrain) (k : Nat) (F : Nat → Tile) (m : Nat) : Terrain :=
  { t with
    chunks_ := Function.update t.chunks_ k
      (Chunk.mk (fun j => if j < m then F j else (t.chunks_ k).tiles j)) }

/-- The terrain after the heights of the 25 vertex records at offset `p` were tracked. -/
def trackVertices (data : List Byte) (p : Nat) (t : Terrain) (n : Nat) : Terrain :=
  (List.range n).foldl (fun t i => trackHeight t (pmgVertexAt data p i).height) t

/-- The terrain after the heights of the vertex records of the first `K` chunks of the
stream were tracked, chunk after chunk. -/
def pmgTrack (data : List Byte) (t : Terrain) (K : Nat) : Terrain :=
  (List.range K).foldl (fun t k => trackVertices data (pmgChunkSize * k + 8) t 25) t

/-- The terrain after the first `K` chunks of the stream were decoded. -/
def pmgAfter (data : List Byte) (t : Terrain) (K : Nat) : Terrain :=
  { pmgTrack data t K with
    chunks_ := fun k =>
      if k < K then
        Chunk.mk (fun j => if j < 16 then pmgTile data k (j / 4) (j % 4) else (t.chunks_ k).tiles j)
      else t.chunks_ k }

/-! ## Overview palette and sample inputs -/

/-- The palette `colours` of `Terrain::GenerateOverview`, indexed by `tile->surface`. -/
def colours : List (Nat × Nat × Nat) :=
  [ (60, 50, 40),     -- Mud
    (40, 70, 40),     -- Grass
    (128, 128, 128),  -- Metal
    (153, 94, 34),    -- Wood
    (90, 90, 150),    -- Water
    (50, 50, 50),     -- Stone
    (50, 50, 50),     -- Rock
    (100, 80, 30),    -- Sand
    (180, 240, 240),  -- Ice
    (100, 100, 100),  -- Snow
    (60, 50, 40),     -- Quagmire
    (100, 240, 53) ]  -- Lava/Poison

/-- Offset of the vertex record `i` of chunk `k` in the layout the specification
describes: chunk records of 384 bytes, each starting with 16 unused header bytes that the
8 byte chunk offset record follows. -/
def specVertexOffset (k i : Nat) : Nat := 384 * k + 16 + 8 + 4 * i

/-- A terrain all of whose tiles rise from height 0 on their west edge to height 100 on
their east edge. -/
def rampTerrain : Terrain where
  chunks_ := fun _ => ⟨fun _ => ⟨0, 0, 0, 0, 0, ![0, 100, 0, 100], ![255, 255, 255, 255]⟩⟩
  min_height_ := 0
  max_height_ := 100
  updates := 0

/-- A stream of `pmgChunkSize * 256` zero bytes. -/
def zeroStream : List Byte := List.replicate (pmgChunkSize * 256) 0

/-- A stream of `384 * 256` bytes, all zero but the byte at offset 376, which is 1. -/
def probeStream : List Byte :=
  List.replicate 376 0 ++ [1] ++ List.replicate (384 * 256 - 377) 0

/-- A stream of `pmgChunkSize * 256` bytes, all zero but the byte at offset 118, the packed
type byte of the first tile record, which is 12. -/
def surfaceStream : List Byte :=
  List.replicate 118 0 ++ [12] ++ List.replicate (pmgChunkSize * 256 - 119) 0

/-- A stream of `pmgChunkSize * 256` bytes, all zero but the bytes at the offsets 10 and 11,
the lighting of the first vertex record of the first chunk, which are 44 and 1: the
lighting 300. -/
def lightStream : List Byte :=
  List.replicate 10 0 ++ [44, 1] ++ List.replicate (pmgChunkSize * 256 - 12) 0

/-! ## Running minimum and maximum -/

/-- The height of the vertex record number `v mod 25` of the chunk record number
`v div 25`: the vertex heights of the stream in the order they are read. -/
def pmgHeight (data : List Byte) (v : Nat) : ℚ := ((pmgVertex data (v / 25) (v % 25)).height : ℚ)

/-- The number `post` is the larger of `pre` and the maximum of `h 0`, ..., `h (n - 1)`. -/
def IsMaxWith (pre post : ℚ) (n : Nat) (h : Nat → ℚ) : Prop :=
  pre ≤ post ∧ (∀ i, i < n → h i ≤ post) ∧ (post = pre ∨ ∃ i, i < n ∧ post = h i)

/-- The number `post` is the smaller of `pre` and the minimum of `h 0`, ..., `h (n - 1)`. -/
def IsMinWith (pre post : ℚ) (n : Nat) (h : Nat → ℚ) : Prop :=
  post ≤ pre ∧ (∀ i, i < n → post ≤ h i) ∧ (post = pre ∨ ∃ i, i < n ∧ post = h i)

/-! ## Mesh generation -/

/-- A loop `for ( i = 0; i < n; ++i )` whose body cannot abort. -/
def forEach {σ : Type} (body : Nat → σ → σ) : Nat → σ → σ
  | 0, s => s
  | n + 1, s => body n (forEach body n s)

/-- The rotation flags `Tile::ROTATION_FLAG_X`, `Tile::ROTATION_FLAG_ROTATE_90` and
`Tile::ROTATION_FLAG_ROTATE_180` of `terrain.h`, parameters of the embedding. -/
structure RotationFlags where
  ROTATION_FLAG_X : Nat
  ROTATION_FLAG_ROTATE_90 : Nat
  ROTATION_FLAG_ROTATE_180 : Nat
  deriving DecidableEq

/-- The lambda `rot90` of `Terrain::GenerateModel`, assignment by assignment. -/
def rot90 (x : Fin 4 → ℚ) : Fin 4 → ℚ :=
  let c := x 0
  let x1 := Function.update x 0 (x 2)
  let x2 := Function.update x1 2 (x1 3)
  let x3 := Function.update x2 3 (x2 1)
  Function.update x3 1 c

/-- The texture rectangle `tx_x, tx_y, tx_w, tx_h` after the test of
`Tile::ROTATION_FLAG_X`. -/
def flipRect (f : RotationFlags) (rotation : Nat) (rect : ℚ × ℚ × ℚ × ℚ) : ℚ × ℚ × ℚ × ℚ :=
  match rect with
  | (tx_x, tx_y, tx_w, tx_h) =>
    if rotation &&& f.ROTATION_FLAG_X ≠ 0 then (tx_x + tx_w, tx_y, -tx_w, tx_h)
    else (tx_x, tx_y, tx_w, tx_h)

/-- The arrays `tx_Ax` and `tx_Ay` as they are initialised from a texture rectangle. -/
def cornerST (rect : ℚ × ℚ × ℚ × ℚ) : (Fin 4 → ℚ) × (Fin 4 → ℚ) :=
  match rect with
  | (tx_x, tx_y, tx_w, tx_h) =>
    (![tx_x, tx_x + tx_w, tx_x, tx_x + tx_w], ![tx_y, tx_y, tx_y + tx_h, tx_y + tx_h])

/-- The two rotation tests of `Terrain::GenerateModel` applied to `tx_Ax` and `tx_Ay`. -/
def rotateST (f : RotationFlags) (rotation : Nat) (st : (Fin 4 → ℚ) × (Fin 4 → ℚ)) :
    (Fin 4 → ℚ) × (Fin 4 → ℚ) :=
  let st1 := if rotation &&& f.ROTATION_FLAG_ROTATE_90 ≠ 0 then (rot90 st.1, rot90 st.2) else st
  if rotation &&& f.ROTATION_FLAG_ROTATE_180 ≠ 0 then
    (rot90 (rot90 st1.1), rot90 (rot90 st1.2))
  else st1

/-- The arrays `tx_Ax` and `tx_Ay` of a tile when its vertices are written. -/
def tileST (f : RotationFlags) (rotation : Nat) (rect : ℚ × ℚ × ℚ × ℚ) :
    (Fin 4 → ℚ) × (Fin 4 → ℚ) :=
  rotateST f rotation (cornerST (flipRect f rotation rect))

/-- A vertex of a chunk mesh: position, texture coordinates and colour. -/
structure MeshVertex where
  position : ℚ × ℚ × ℚ
  st : ℚ × ℚ
  colour : Nat × Nat × Nat

/-- The vertex that the innermost loop of `Terrain::GenerateModel` writes for the corner
`i` of the tile at `tile_x`, `tile_y`; `atlas` stands for `atlas_->GetTextureCoords`. -/
def meshVertex (c : TerrainConsts) (f : RotationFlags) (atlas : Nat → ℚ × ℚ × ℚ × ℚ)
    (chunk : Chunk) (offset : PLVector2) (tile_y tile_x i : Nat) : MeshVertex :=
  let current_tile := chunk.tiles (tile_x + tile_y * c.TERRAIN_CHUNK_ROW_TILES)
  let st := tileST f current_tile.rotation (atlas current_tile.texture)
  let x : ℚ := offset.x * c.TERRAIN_CHUNK_PIXEL_WIDTH
    + (u32 (u32 (tile_x + i % 2) * c.TERRAIN_TILE_PIXEL_WIDTH) : ℚ)
  let z : ℚ := offset.y * c.TERRAIN_CHUNK_PIXEL_WIDTH
    + (u32 (u32 (tile_y + i / 2) * c.TERRAIN_TILE_PIXEL_WIDTH) : ℚ)
  { position := (x, current_tile.height (Fin.ofNat i), z)
    st := (st.1 (Fin.ofNat i), st.2 (Fin.ofNat i))
    colour := (current_tile.shading (Fin.ofNat i) % 256,
      current_tile.shading (Fin.ofNat i) % 256, current_tile.shading (Fin.ofNat i) % 256) }

/-- The vertices `Terrain::GenerateModel` writes into the mesh of a chunk, by their index
`cm_idx`. -/
def GenerateModel (c : TerrainConsts) (f : RotationFlags) (atlas : Nat → ℚ × ℚ × ℚ × ℚ)
    (chunk : Chunk) (offset : PLVector2) : Nat → Option MeshVertex :=
  (forEach (fun tile_y =>
      forEach (fun tile_x =>
          forEach (fun i (s : Nat × (Nat → Option MeshVertex)) =>
              (s.1 + 1,
                Function.update s.2 s.1
                  (some (meshVertex c f atlas chunk offset tile_y tile_x i))))
            4)
        c.TERRAIN_CHUNK_ROW_TILES)
    c.TERRAIN_CHUNK_ROW_TILES (0, fun _ => none)).2

/-- The quarter turn of four corner values in the words of the specification:
`[a0, a1, a2, a3]` becomes `[a2, a0, a3, a1]`. -/
def quarterTurn (a : Fin 4 → ℚ) : Fin 4 → ℚ := ![a 2, a 0, a 3, a 1]

/-- Sample rotation flags: one bit each. -/
def sampleFlags : RotationFlags := ⟨1, 2, 4⟩

/-- A tile with all three rotation flags of `sampleFlags` set. -/
def sampleTile : Tile where
  surface := 1
  behaviour := 0
  slip := 0
  texture := 5
  rotation := 7
  height := ![0, 100, 0, 100]
  shading := ![255, 255, 255, 255]

/-- A chunk all of whose tiles are `sampleTile`. -/
def sampleChunk : Chunk := ⟨fun _ => sampleTile⟩

/-- An atlas that gives every texture the rectangle at `(1/4, 1/2)` of width `1/8` and
height `1/16`. -/
def sampleAtlas : Nat → ℚ × ℚ × ℚ × ℚ := fun _ => (1 / 4, 1 / 2, 1 / 8, 1 / 16)

/-! ## Loading a heightmap image -/

/-- An image as `plLoadImage` delivers it: its size and the bytes of `image.data[ 0 ]`, four
bytes (red, green, blue, alpha) for each pixel, row after row. -/
structure PLImage where
  width : Nat
  height : Nat
  data : List Byte

/-- The red channel of the pixel number `i` of the buffer. -/
def imageRed (image : PLImage) (i : Nat) : Nat := byteAt image.data (4 * i)

/-- The green channel of the pixel number `i` of the buffer. -/
def imageGreen (image : PLImage) (i : Nat) : Nat := byteAt image.data (4 * i + 1)

/-- The red channel of the pixel at column `col` and row `row` of the image. -/
def pixelRed (image : PLImage) (col row : Nat) : Nat := imageRed image (row * image.width + col)

/-- The green channel of the pixel at column `col` and row `row` of the image. -/
def pixelGreen (image : PLImage) (col row : Nat) : Nat :=
  imageGreen image (row * image.width + col)

/-- The product of two `int` values, reduced to 32 bits. -/
def mulInt (a b : Int) : Int := toSigned 32 (toUnsigned 32 (a * b))

/-- The power of two `s` for which `n / s` has 24 bits, for a number `n` of at least 24
bits (1 for a smaller number); `fuel` bounds the number of halvings. -/
def floatScale : Nat → Nat → Nat
  | 0, _ => 1
  | fuel + 1, n => if n < 2 ^ 24 then 1 else 2 * floatScale fuel (n / 2)

/-- The magnitude of a float made of the natural number `n`: a number below `2 ^ 24` is
kept, a larger one is rounded to the nearest number with 24 significant bits, a tie going
to the one whose last bit is even. -/
def roundNat (n : Nat) : Nat :=
  if n < 2 ^ 24 then n
  else
    let s := floatScale 128 n
    let q := n / s
    let r := n % s
    let m := if 2 * r < s then q else if s < 2 * r then q + 1 else if q % 2 = 0 then q else q + 1
    m * s

/-- The conversion of an `int` to a `float`. -/
def floatOfInt (z : Int) : ℚ :=
  if 0 ≤ z then ((roundNat z.natAbs : Nat) : ℚ) else -((roundNat z.natAbs : Nat) : ℚ)

/-- The array `rchan` of `Terrain::LoadHeightmap`, an array of floats: the red channel
times the multiplier, an `int` product stored as a float, for the
`image.width * image.height` pixels of the buffer (0 outside the array). -/
def heightmapRchan (image : PLImage) (multiplier : Int) (i : Nat) : ℚ :=
  if i < u32 (image.width * image.height) then
    floatOfInt (mulInt (imageRed image i) multiplier)
  else 0

/-- The array `gchan` of `Terrain::LoadHeightmap`: the green channel of the
`image.width * image.height` pixels of the buffer (0 outside the array). -/
def heightmapGchan (image : PLImage) (i : Nat) : Nat :=
  if i < u32 (image.width * image.height) then imageGreen image i else 0

/-- The two tests of the last loop of `Terrain::LoadHeightmap` that keep the maximum and
the minimum height. -/
def trackFloat (t : Terrain) (i : ℚ) : Terrain :=
  let t1 := if i > t.max_height_ then { t with max_height_ := i } else t
  if i < t1.min_height_ then { t1 with min_height_ := i } else t1

/-- The tile that the tile loops of `Terrain::LoadHeightmap` make of the tile `old`. -/
def heightmapTile (rchan : Nat → ℚ) (gchan : Nat → Nat) (chunk_y chunk_x tile_y tile_x : Nat)
    (old : Tile) : Tile :=
  let aaa := u32 (chunk_y * 4 * 65 + chunk_x * 4)
  { old with
    height := ![rchan (u32 (aaa + tile_y * 65 + tile_x)),
      rchan (u32 (aaa + tile_y * 65 + tile_x + 1)),
      rchan (u32 (aaa + (tile_y + 1) * 65 + tile_x)),
      rchan (u32 (aaa + (tile_y + 1) * 65 + tile_x + 1))]
    texture := gchan (u32 (aaa + tile_y * 65 + tile_x))
    shading := ![255, 255, 255, 255] }

/-- Body of the tile loops of `Terrain::LoadHeightmap`. -/
def heightmapTileBody (c : TerrainConsts) (rchan : Nat → ℚ) (gchan : Nat → Nat)
    (chunk_y chunk_x tile_y tile_x : Nat) (t : Terrain) : Terrain :=
  let chunk := chunk_x + chunk_y * c.TERRAIN_CHUNK_ROW
  let idx := tile_x + tile_y * c.TERRAIN_CHUNK_ROW_TILES
  t.setTile chunk idx
    (heightmapTile rchan gchan chunk_y chunk_x tile_y tile_x ((t.chunks_ chunk).tiles idx))

/-- The end of the body of the chunk loops of `Terrain::LoadHeightmap`: the minimum and the
maximum are set to the first corner height of the chunk, then every corner height of
every tile of the chunk is tracked. -/
def heightmapMinMax (c : TerrainConsts) (chunk : Nat) (t : Terrain) : Terrain :=
  let first := ((t.chunks_ chunk).tiles 0).height 0
  forEach (fun tile =>
      forEach (fun i s => trackFloat s (((s.chunks_ chunk).tiles tile).height (Fin.ofNat i))) 4)
    c.TERRAIN_CHUNK_TILES { t with max_height_ := first, min_height_ := first }

/-- Body of the chunk loops of `Terrain::LoadHeightmap`. -/
def heightmapChunkBody (c : TerrainConsts) (rchan : Nat → ℚ) (gchan : Nat → Nat)
    (chunk_y chunk_x : Nat) (t : Terrain) : Terrain :=
  heightmapMinMax c (chunk_x + chunk_y * c.TERRAIN_CHUNK_ROW)
    (forEach (fun tile_y =>
        forEach (fun tile_x => heightmapTileBody c rchan gchan chunk_y chunk_x tile_y tile_x)
          c.TERRAIN_CHUNK_ROW_TILES)
      c.TERRAIN_CHUNK_ROW_TILES t)

/-- The chunk loops of `Terrain::LoadHeightmap`. -/
def heightmapLoops (c : TerrainConsts) (rchan : Nat → ℚ) (gchan : Nat → Nat) (t : Terrain) :
    Terrain :=
  forEach (fun chunk_y =>
      forEach (fun chunk_x => heightmapChunkBody c rchan gchan chunk_y chunk_x)
        c.TERRAIN_CHUNK_ROW)
    c.TERRAIN_CHUNK_ROW t

/-- How a call of `Terrain::LoadHeightmap` ends, with the terrain it leaves behind. -/
inductive HeightmapResult where
  /-- The image could not be loaded: warning and return. -/
  | loadFailed (t : Terrain)
  /-- The image is narrower or lower than 65 pixels: warning and return. -/
  | invalidSize (t : Terrain)
  /-- The tiles were written and `Update()` was run. -/
  | loaded (t : Terrain)

/-- The function `Terrain::LoadHeightmap`; `file` is the image at `path`, `none` when
`plLoadImage` fails. -/
def LoadHeightmap (c : TerrainConsts) (t : Terrain) (file : Option PLImage) (multiplier : Int) :
    HeightmapResult :=
  match file with
  | none => .loadFailed t
  | some image =>
    if image.width < 65 ∨ image.height < 65 then
      .invalidSize t
    else
      .loaded (Update (heightmapLoops c (heightmapRchan image multiplier)
        (heightmapGchan image) t))

/-- The corner height number `v mod 4` of the tile number `v div 4` of a chunk: the corner
heights of the chunk in the order the last loop of `Terrain::LoadHeightmap` visits them. -/
def chunkCorner (t : Terrain) (chunk v : Nat) : ℚ :=
  ((t.chunks_ chunk).tiles (v / 4)).height (Fin.ofNat (v % 4))

/-- The step number `v` of the last loop of `Terrain::LoadHeightmap`, the two loops over
the tiles of the chunk and over their corners taken as one. -/
def minMaxStep (chunk v : Nat) (s : Terrain) : Terrain :=
  trackFloat s (((s.chunks_ chunk).tiles (v / 4)).height (Fin.ofNat (v % 4)))

/-- The minimum and the maximum height of the terrain are the minimum and the maximum of
the corner heights of the 16 tiles of the chunk at index `chunk`. -/
def ChunkMinMax (t : Terrain) (chunk : Nat) : Prop :=
  (∀ j, j < 16 → ∀ corner : Fin 4,
      t.min_height_ ≤ ((t.chunks_ chunk).tiles j).height corner
        ∧ ((t.chunks_ chunk).tiles j).height corner ≤ t.max_height_)
    ∧ (∃ j, j < 16 ∧ ∃ corner : Fin 4, t.max_height_ = ((t.chunks_ chunk).tiles j).height corner)
    ∧ (∃ j, j < 16 ∧ ∃ corner : Fin 4, t.min_height_ = ((t.chunks_ chunk).tiles j).height corner)

/-- What the chunk loops of `Terrain::LoadHeightmap` have made of the terrain `t` after
`K` chunks: the tiles of the chunks done are rewritten, the other chunks and the count of
updates are untouched, and the minimum and maximum are those of the last chunk done. -/
def HeightmapDone (rchan : Nat → ℚ) (gchan : Nat → Nat) (t : Terrain) (K : Nat) (s : Terrain) :
    Prop :=
  s.updates = t.updates
    ∧ (∀ k, K ≤ k → s.chunks_ k = t.chunks_ k)
    ∧ (∀ k, k < K → ∀ j,
        (s.chunks_ k).tiles j
          = if j < 16 then
              heightmapTile rchan gchan (k / 16) (k % 16) (j / 4) (j % 4) ((t.chunks_ k).tiles j)
            else (t.chunks_ k).tiles j)
    ∧ (0 < K → ChunkMinMax s (K - 1))

/-- A 66 x 65 image, all zero but the red channel of the pixel at column 0 and row 1 (the
pixel number 66 of the buffer), which is 1. -/
def wideImage : PLImage where
  width := 66
  height := 65
  data := List.replicate (4 * 66) 0 ++ [1] ++ List.replicate (4 * 66 * 65 - 4 * 66 - 1) 0

/-- A 65 x 65 image, all zero but the red channel of the pixel at column 0 and row 0, which
is 255. -/
def peakImage : PLImage where
  width := 65
  height := 65
  data := (255 : Byte) :: List.replicate (4 * 65 * 65 - 1) 0

/-- A 65 x 65 image of zero bytes. -/
def zeroImage : PLImage where
  width := 65
  height := 65
  data := List.replicate (4 * 65 * 65) 0


/-- The table `chunk_indices` of `terrain.cpp`, the index buffer `Terrain::GenerateModel`
hands to `plCreateMeshInit` together with the counts of 32 triangles and 64 vertices. -/
def chunk_indices : List Nat :=
  [ 0, 2, 1, 1, 2, 3,
    4, 6, 5, 5, 6, 7,
    8, 10, 9, 9, 10, 11,
    12, 14, 13, 13, 14, 15,
    16, 18, 17, 17, 18, 19,
    20, 22, 21, 21, 22, 23,
    24, 26, 25, 25, 26, 27,
    28, 30, 29, 29, 30, 31,
    32, 34, 33, 33, 34, 35,
    36, 38, 37, 37, 38, 39,
    40, 42, 41, 41, 42, 43,
    44, 46, 45, 45, 46, 47,
    48, 50, 49, 49, 50, 51,
    52, 54, 53, 53, 54, 55,
    56, 58, 57, 57, 58, 59,
    60, 62, 61, 61, 62, 63 ]

/-- The number of vertices `Terrain::GenerateModel` asks `plCreateMeshInit` for. -/
def chunkMeshVertices : Nat := 64

/-- The number of triangles `Terrain::GenerateModel` asks `plCreateMeshInit` for. -/
def chunkMeshTriangles : Nat := 32

/-! ## The chunk loops of `Update` -/

/-- The chunk loops of `Terrain::Update`: the call of `GenerateModel` for the chunk at
`chunk_x`, `chunk_y` gets the offset `{ chunk_x, chunk_y }` and its mesh replaces the model
of that chunk.  The result maps a chunk index to the vertices of its mesh. -/
def UpdateModels (c : TerrainConsts) (f : RotationFlags) (atlas : Nat → ℚ × ℚ × ℚ × ℚ)
    (t : Terrain) : Nat → Option (Nat → Option MeshVertex) :=
  forEach (fun chunk_y =>
      forEach (fun chunk_x (models : Nat → Option (Nat → Option MeshVertex)) =>
          Function.update models (chunk_x + chunk_y * c.TERRAIN_CHUNK_ROW)
            (some (GenerateModel c f atlas (t.chunks_ (chunk_x + chunk_y * c.TERRAIN_CHUNK_ROW))
              ⟨(chunk_x : ℚ), (chunk_y : ℚ)⟩)))
        c.TERRAIN_CHUNK_ROW)
    c.TERRAIN_CHUNK_ROW (fun _ => none)

/-- The models after the first `n` steps of the chunk loops of `Terrain::Update`, the two
loops taken as one over `j = chunk_x + chunk_y * 16`. -/
def modelsUpTo (w : Nat) (f : RotationFlags) (atlas : Nat → ℚ × ℚ × ℚ × ℚ) (t : Terrain)
    (n : Nat) : Nat → Option (Nat → Option MeshVertex) :=
  fun k =>
    if k < n then
      some (GenerateModel (grid w) f atlas (t.chunks_ k) ⟨((k % 16 : Nat) : ℚ), ((k / 16 : Nat) : ℚ)⟩)
    else none

/-- The position of the map node at column `gx` and row `gy` of the tile grid, for tiles of
width `w`. -/
def nodePosition (w gx gy : Nat) : PLVector2 := ⟨((gx * w : Nat) : ℚ), ((gy * w : Nat) : ℚ)⟩

/-! ## The overview image -/

/-- The conversion `static_cast<int>( f )` of a float: the fraction is dropped. -/
def truncInt (q : ℚ) : Int := if 0 ≤ q then ⌊q⌋ else ⌈q⌉

/-- The position `Terrain::GenerateOverview` samples for the pixel at column `x` and row
`y`: `x * ( TERRAIN_PIXEL_WIDTH / 64 )` and `y * ( TERRAIN_PIXEL_WIDTH / 64 )`, products of
`int` values converted to floats. -/
def overviewPosition (c : TerrainConsts) (x y : Nat) : PLVector2 :=
  ⟨((mulInt (x : Int) ((c.TERRAIN_PIXEL_WIDTH / 64 : Nat) : Int) : Int) : ℚ),
    ((mulInt (y : Int) ((c.TERRAIN_PIXEL_WIDTH / 64 : Nat) : Int) : Int) : ℚ)⟩

/-- The brightness factor `mod` of `Terrain::GenerateOverview` at a position. -/
def overviewMod (c : TerrainConsts) (t : Terrain) (position : PLVector2) : Int :=
  truncInt ((GetHeight c t position + ((t.max_height_ + t.min_height_) / 2)) / 255)

/-- One colour channel as `Terrain::GenerateOverview` computes it, an `int`:
`std::min( ( colours[ surface ].r / 9 ) * mod, 255 )`. -/
def overviewChannel (base : Nat) (mod : Int) : Int :=
  min (mulInt ((base / 9 : Nat) : Int) mod) 255

/-- The three bytes `Terrain::GenerateOverview` writes for the pixel at column `x` and row
`y`; `none` when the code has no defined result there: the tile pointer is null, or
`tile->surface` lies outside the table `colours`.  A channel value is stored in a
`uint8_t`.  `BEHAVIOUR_MINE` is the flag `Tile::BEHAVIOUR_MINE` of `terrain.h`. -/
def overviewPixel (c : TerrainConsts) (BEHAVIOUR_MINE : Nat) (t : Terrain) (x y : Nat) :
    Option (Nat × Nat × Nat) :=
  let position := overviewPosition c x y
  match GetTile c position with
  | none => none
  | some p =>
    let tile := t.tileAt p
    let mod := overviewMod c t position
    match colours.get? tile.surface with
    | none => none
    | some (r, g, b) =>
      let rgb : Nat × Nat × Nat :=
        (toUnsigned 8 (overviewChannel r mod), toUnsigned 8 (overviewChannel g mod),
          toUnsigned 8 (overviewChannel b mod))
      some (if tile.behaviour &&& BEHAVIOUR_MINE ≠ 0 then (255, 0, 0) else rgb)

/-- The image buffer `Terrain::GenerateOverview` fills, pixel by pixel: the loops over `y`
and `x` advance `buf` by one pixel of three bytes each time. -/
def GenerateOverview (c : TerrainConsts) (BEHAVIOUR_MINE : Nat) (t : Terrain) :
    Nat → Option (Nat × Nat × Nat) :=
  (forEach (fun y =>
      forEach (fun x (s : Nat × (Nat → Option (Nat × Nat × Nat))) =>
          (s.1 + 1, Function.update s.2 s.1 (overviewPixel c BEHAVIOUR_MINE t x y)))
        64)
    64 (0, fun _ => none)).2

/-- A terrain below sea level: every tile is mud, without behaviour flags, with the height
-300 at its four corners; the minimum height is -300 and the maximum height 0. -/
def deepTerrain : Terrain where
  chunks_ := fun _ => ⟨fun _ => ⟨0, 0, 0, 0, 0, ![-300, -300, -300, -300], ![255, 255, 255, 255]⟩⟩
  min_height_ := -300
  max_height_ := 0
  updates := 0

/-- A terrain all of whose tiles are lava with the behaviour flag 64 set, rising from
height 0 on their west edge to height 100 on their east edge. -/
def mineTerrain : Terrain where
  chunks_ := fun _ => ⟨fun _ => ⟨11, 64, 0, 0, 0, ![0, 100, 0, 100], ![255, 255, 255, 255]⟩⟩
  min_height_ := 0
  max_height_ := 100
  updates := 0

/-! ## The face format: `Fac_LoadFile` of `src/shared/fac.c`

A file opened with `fopen` is again the list of its bytes with a read position; `fseek`
may move the position past the end.  The records are read into packed structures on a
little-endian machine.  `FAC_MAX_TRIANGLES` and `FacTriangle` are declared in `fac.h`, and
`u_alloc` in `util.h`: the bound and the content of freshly allocated memory are
parameters. -/

/-- The call `fread( dest, size, count, file )`: the number of complete elements read and
the file afterwards.  The elements read start at the old position. -/
def fread (fh : PLFile) (size count : Nat) : Nat × PLFile :=
  let avail := fh.data.length - fh.pos
  if size * count ≤ avail then
    (if size = 0 then 0 else count, { fh with pos := fh.pos + size * count })
  else
    (avail / size, { fh with pos := fh.pos + avail })

/-- A triangle of a `FacHandle` (`FacTriangle`), without its texture coordinates, which
`Fac_LoadFile` does not write. -/
structure FacTriangle where
  vertex_indices : Fin 3 → Nat
  normal_indices : Fin 3 → Nat
  texture_index : Nat

/-- A `FacHandle`: the number of triangles and the array of triangles.  The texture table
is left out; reading it takes place after the last record was read and writes no
triangle. -/
structure FacHandle where
  num_triangles : Nat
  triangles : Nat → FacTriangle

/-- The field `vertex_indices[ j ]` of the triangle record `i` of an array at `base`. -/
def facTriangleVertex (data : List Byte) (base i j : Nat) : Nat :=
  leAt data (base + 32 * i + 6 + 2 * j) 2

/-- The field `normal_indices[ j ]` of the triangle record `i` of an array at `base`. -/
def facTriangleNormal (data : List Byte) (base i j : Nat) : Nat :=
  leAt data (base + 32 * i + 12 + 2 * j) 2

/-- The field `texture_index` of the triangle record `i` of an array at `base`. -/
def facTriangleTexture (data : List Byte) (base i : Nat) : Nat :=
  leAt data (base + 32 * i + 20) 4

/-- The field `vertex_indices[ j ]` of the quad record `i` of an array at `base`. -/
def facQuadVertex (data : List Byte) (base i j : Nat) : Nat :=
  leAt data (base + 36 * i + 8 + 2 * j) 2

/-- The field `normal_indices[ j ]` of the quad record `i` of an array at `base`. -/
def facQuadNormal (data : List Byte) (base i j : Nat) : Nat :=
  leAt data (base + 36 * i + 16 + 2 * j) 2

/-- The field `texture_index` of the quad record `i` of an array at `base`. -/
def facQuadTexture (data : List Byte) (base i : Nat) : Nat :=
  leAt data (base + 36 * i + 24) 4

/-- A loop `for ( j = 0; j < 3; j++ )` of `Fac_LoadFile` that copies the vertex and normal
indices `vertex j` and `normal j` into the places `j` of a triangle. -/
def facCopyIndices (vertex normal : Nat → Nat) (tri : FacTriangle) : FacTriangle :=
  forEach (fun j (t : FacTriangle) =>
      { t with
        vertex_indices := Function.update t.vertex_indices (Fin.ofNat j) (vertex j)
        normal_indices := Function.update t.normal_indices (Fin.ofNat j) (normal j) })
    3 tri

/-- Body of the loop of `Fac_LoadFile` over the triangle records. -/
def facTriangleBody (data : List Byte) (base i : Nat) (tris : Nat → FacTriangle) :
    Nat → FacTriangle :=
  Function.update tris i
    (facCopyIndices (facTriangleVertex data base i) (facTriangleNormal data base i)
      { tris i with texture_index := facTriangleTexture data base i })

/-- The array `order` of the loop of `Fac_LoadFile` over the quad records. -/
def facOrder (j : Nat) : Nat := [3, 0, 2].getD j 0

/-- Body of the loop of `Fac_LoadFile` over the quad records; the state is the counter
`tri` and the array of triangles. -/
def facQuadBody (data : List Byte) (base i : Nat) (s : Nat × (Nat → FacTriangle)) :
    Nat × (Nat → FacTriangle) :=
  let tri := s.1
  let tris1 := Function.update s.2 tri
    (facCopyIndices (facQuadVertex data base i) (facQuadNormal data base i)
      { s.2 tri with texture_index := facQuadTexture data base i })
  let tri1 := u32 (tri + 1)
  let tris2 := Function.update tris1 tri1
    (facCopyIndices (fun j => facQuadVertex data base i (facOrder j))
      (fun j => facQuadNormal data base i (facOrder j)) (tris1 tri1))
  (u32 (tri1 + 1), tris2)

/-- The function `Fac_LoadFile`; `file` is the content of the file at `path`, `none` when
`fopen` fails.  `uninit` is the value an uninitialised `num_triangles` holds when the
first read fails, `fresh` the content of the memory `u_alloc` returns for the triangles. -/
def Fac_LoadFile (FAC_MAX_TRIANGLES : Nat) (fresh : Nat → FacTriangle) (uninit : Nat)
    (file : Option (List Byte)) : Option FacHandle :=
  match file with
  | none => none
  | some data =>
    let fh0 : PLFile := ⟨data, 16⟩
    let r1 := fread fh0 4 1
    let num_triangles := if r1.1 = 1 then leAt data fh0.pos 4 else uninit
    if num_triangles ≥ FAC_MAX_TRIANGLES then none
    else
      let r2 := fread r1.2 32 num_triangles
      if r2.1 ≠ num_triangles then none
      else
        let r3 := fread r2.2 4 1
        if r3.1 ≠ 1 then none
        else
          let num_quads := leAt data r2.2.pos 4
          if num_quads ≥ FAC_MAX_TRIANGLES then none
          else
            let r4 := fread r3.2 36 num_quads
            if r4.1 ≠ num_quads then none
            else
              let total_triangles := u32 (num_triangles + u32 (num_quads * 2))
              if total_triangles = 0 ∨ total_triangles ≥ FAC_MAX_TRIANGLES then none
              else
                let tris := forEach (facTriangleBody data r1.2.pos) num_triangles fresh
                some
                  { num_triangles := total_triangles
                    triangles :=
                      (forEach (facQuadBody data r3.2.pos) num_quads (num_triangles, tris)).2 }

/-- The triangle `Fac_LoadFile` makes of the triangle record `i` of an array at `base`. -/
def facTriangleOf (data : List Byte) (base i : Nat) : FacTriangle where
  vertex_indices := ![facTriangleVertex data base i 0, facTriangleVertex data base i 1,
    facTriangleVertex data base i 2]
  normal_indices := ![facTriangleNormal data base i 0, facTriangleNormal data base i 1,
    facTriangleNormal data base i 2]
  texture_index := facTriangleTexture data base i

/-- The first triangle `Fac_LoadFile` makes of the quad record `i` of an array at `base`. -/
def facQuadFirst (data : List Byte) (base i : Nat) : FacTriangle where
  vertex_indices := ![facQuadVertex data base i 0, facQuadVertex data base i 1,
    facQuadVertex data base i 2]
  normal_indices := ![facQuadNormal data base i 0, facQuadNormal data base i 1,
    facQuadNormal data base i 2]
  texture_index := facQuadTexture data base i

/-- The second triangle `Fac_LoadFile` makes of the quad record `i` of an array at `base`,
written over the triangle `old`: the texture index is the one `old` has. -/
def facQuadSecond (data : List Byte) (base i : Nat) (old : FacTriangle) : FacTriangle where
  vertex_indices := ![facQuadVertex data base i 3, facQuadVertex data base i 0,
    facQuadVertex data base i 2]
  normal_indices := ![facQuadNormal data base i 3, facQuadNormal data base i 0,
    facQuadNormal data base i 2]
  texture_index := old.texture_index

/-- The array of triangles after the first `n` quad records were handled, starting from
the array `tris` with `T` triangles in place. -/
def facQuadsUpTo (data : List Byte) (base T : Nat) (tris : Nat → FacTriangle) (n : Nat) :
    Nat → FacTriangle :=
  fun k =>
    if T ≤ k ∧ k < T + 2 * n then
      if (k - T) % 2 = 0 then facQuadFirst data base ((k - T) / 2)
      else facQuadSecond data base ((k - T) / 2) (tris k)
    else tris k

/-- The array of triangles after the first `n` triangle records were handled. -/
def facTrianglesUpTo (data : List Byte) (base : Nat) (tris : Nat → FacTriangle) (n : Nat) :
    Nat → FacTriangle :=
  fun k => if k < n then facTriangleOf data base k else tris k

/-- Freshly allocated memory that holds zeros. -/
def zeroTriangles : Nat → FacTriangle := fun _ => ⟨fun _ => 0, fun _ => 0, 0⟩

/-- A face file without triangle records and with one quad record: 16 header bytes, the
count 0, the count 1, and a quad with the vertex indices 10, 11, 12, 13, the normal
indices 20, 21, 22, 23 and the texture index 5. -/
def quadFile : List Byte :=
  List.replicate 16 0 ++ [0, 0, 0, 0] ++ [1, 0, 0, 0]
    ++ List.replicate 8 0
    ++ [10, 0, 11, 0, 12, 0, 13, 0]
    ++ [20, 0, 21, 0, 22, 0, 23, 0]
    ++ [5, 0, 0, 0]
    ++ List.replicate 8 0

/-! ## A stream that ends early -/

/-- A stream that ends after the record of the first chunk: `pmgChunkSize` bytes, all zero
but the bytes at the offsets 8 and 9, the height of the first vertex record, which are 232
and 3: the height 1000. -/
def shortStream : List Byte :=
  List.replicate 8 0 ++ [232, 3] ++ List.replicate (pmgChunkSize - 10) 0

/-- The number of vertex records `Terrain::LoadPmg` has read completely, and tracked in
the minimum and maximum height, when a stream of `len` bytes ends: 25 for each complete
chunk record and those of the chunk record at which the stream ends. -/
def pmgVerticesRead (len : Nat) : Nat :=
  25 * (len / pmgChunkSize)
    + (if len % pmgChunkSize < 8 then 0 else min 25 ((len % pmgChunkSize - 8) / 4))

/-- The number of tile records of the chunk record at which a stream of `len` bytes ends
that `Terrain::LoadPmg` has read completely and written to the chunk. -/
def pmgTilesRead (len : Nat) : Nat :=
  if len % pmgChunkSize < 112 then 0 else (len % pmgChunkSize - 112) / 16

/-! ## The encoder of the binary terrain format

`terrain.cpp` has a decoder only.  The specification describes the encoder as the inverse
of the binary decode, in the byte layout it gives for the decode: for each chunk 16 unused
bytes, the chunk offset record, 25 vertex records, 4 bytes of padding and 16 tile records;
numeric fields that the decode does not keep are written as zero. -/

/-- Modelled from the spec: the `n` little-endian bytes of a numeric field holding `v`. -/
def leBytes : Nat → Nat → List Byte
  | 0, _ => []
  | n + 1, v => (Fin.ofNat v : Byte) :: leBytes n (v / 256)

/-- Modelled from the spec: the blocks `f 0`, ..., `f (n - 1)` written one after the
other. -/
def concatBlocks (f : Nat → List Byte) : Nat → List Byte
  | 0 => []
  | n + 1 => concatBlocks f n ++ f n

/-- Modelled from the spec: the tile and the corner of the tile that hold the vertex
number `v` of the 5 x 5 vertex grid of a chunk; the vertex at row `r` and column `c` is
the corner of the tile at row `min r 3` and column `min c 3` that lies at that vertex. -/
def vertexCorner (v : Nat) : Nat × Fin 4 :=
  (min (v % 5) 3 + min (v / 5) 3 * 4,
    Fin.ofNat (2 * (v / 5 - min (v / 5) 3) + (v % 5 - min (v % 5) 3)))

/-- Modelled from the spec: the vertex record number `v` of a chunk as the encoder writes
it, the inverse of the decode of a vertex record: the 16-bit signed height and the 16-bit
lighting of the corner that lies at the vertex. -/
def encodeVertex (chunk : Chunk) (v : Nat) : List Byte :=
  leBytes 2 (toUnsigned 16 (truncInt ((chunk.tiles (vertexCorner v).1).height (vertexCorner v).2)))
    ++ leBytes 2 ((chunk.tiles (vertexCorner v).1).shading (vertexCorner v).2)

/-- Modelled from the spec: the packed byte of a surface and behaviour flags, the inverse
of `surface = byte & 31`, `behaviour = byte & ~31`. -/
def encodeType (surface behaviour : Nat) : Nat := surface ||| behaviour

/-- Modelled from the spec: a tile record as the encoder writes it, the inverse of the
decode of a tile record: 6 unused bytes, the packed surface and behaviour, the slip
(written as zero), 2 unused bytes, the rotation flags, the 4 bytes of the texture index and
1 unused byte. -/
def encodeTile (tile : Tile) : List Byte :=
  List.replicate 6 0 ++ [(Fin.ofNat (encodeType tile.surface tile.behaviour) : Byte)] ++ [0]
    ++ [0, 0] ++ [(Fin.ofNat tile.rotation : Byte)] ++ leBytes 4 tile.texture ++ [0]

/-- Modelled from the spec: what the encoder writes for a chunk after the 16 unused bytes:
the chunk offset record (8 bytes, zero), the 25 vertex records, 4 bytes of padding and the
16 tile records. -/
def encodeRecords (chunk : Chunk) : List Byte :=
  List.replicate 8 0 ++ concatBlocks (encodeVertex chunk) 25 ++ List.replicate 4 0
    ++ concatBlocks (fun j => encodeTile (chunk.tiles j)) 16

/-- Modelled from the spec: a chunk record as the encoder writes it, in the layout of the
specification: the 16 unused bytes, then the chunk offset record, the vertex records, the
padding and the tile records. -/
def encodeChunk (chunk : Chunk) : List Byte :=
  List.replicate 16 0 ++ encodeRecords chunk

/-- Modelled from the spec: the terrain encoder, missing from the sources: the chunk
records of the terrain, in the layout of the specification, in the order of the chunk
index. -/
def encodePmg (c : TerrainConsts) (t : Terrain) : List Byte :=
  concatBlocks (fun k => encodeChunk (t.chunks_ k)) c.TERRAIN_CHUNKS

/-- Modelled from the spec: the terrain encoder with the 16 unused bytes of each chunk
record left out, so that a chunk record has the `pmgChunkSize` bytes that
`Terrain::LoadPmg` reads for a chunk. -/
def encodePmgBare (c : TerrainConsts) (t : Terrain) : List Byte :=
  concatBlocks (fun k => encodeRecords (t.chunks_ k)) c.TERRAIN_CHUNKS

/-- A stream of `pmgChunkSize * 256` bytes, all zero but the byte at offset 123, the low
byte of the texture index of the first tile record of the first chunk, which is 7. -/
def textureStream : List Byte :=
  List.replicate 123 0 ++ [7] ++ List.replicate (pmgChunkSize * 256 - 124) 0


/-! # Theorems

## Lookup by world position -/

theorem u32_of_lt {n : Nat} (h : n < 2 ^ 32) : u32 n = n := Nat.mod_eq_of_lt h

theorem toUint_of_inrange {f : ℚ} {W : Nat} (h0 : 0 ≤ f) (h1 : f < W) (hW : W ≤ 2 ^ 32) :
    toUint f = ⌊f⌋₊ := by
  unfold toUint
  rw [Int.floor_toNat]
  apply u32_of_lt
  have : ⌊f⌋₊ < W := (Nat.floor_lt h0).2 h1
  omega

theorem rangeTest_iff (W : Nat) (pos : PLVector2) :
    (pos.x < 0 ∨ ⌊pos.x⌋ ≥ (W : Int) ∨ pos.y < 0 ∨ ⌊pos.y⌋ ≥ (W : Int)) ↔
      (pos.x < 0 ∨ pos.y < 0 ∨ pos.x ≥ W ∨ pos.y ≥ W) := by
  have hx : ⌊pos.x⌋ ≥ (W : Int) ↔ pos.x ≥ W := by
    rw [ge_iff_le, Int.le_floor]; simp
  have hy : ⌊pos.y⌋ ≥ (W : Int) ↔ pos.y ≥ W := by
    rw [ge_iff_le, Int.le_floor]; simp
  rw [hx, hy]
  tauto

theorem idx_lt_sq {a b r : Nat} (ha : a < r) (hb : b < r) : a + b * r < r ^ 2 := by
  have h1 : b + 1 ≤ r := hb
  have h2 : (b + 1) * r ≤ r * r := Nat.mul_le_mul_right r h1
  have h3 : (b + 1) * r = b * r + r := by ring
  have h4 : r ^ 2 = r * r := by ring
  omega

theorem floor_div_lt {f : ℚ} {r p : Nat} (h0 : 0 ≤ f) (h1 : f < ((r * p : Nat) : ℚ)) :
    ⌊f⌋₊ / p < r := by
  have h : ⌊f⌋₊ < r * p := (Nat.floor_lt h0).2 h1
  have hp : 0 < p := by
    rcases Nat.eq_zero_or_pos p with hp0 | hp0
    · subst hp0; simp at h
    · exact hp0
  exact (Nat.div_lt_iff_lt_mul hp).2 h

theorem chunkIdx_eq (c : TerrainConsts) (pos : PLVector2)
    (hW : c.TERRAIN_PIXEL_WIDTH = c.TERRAIN_CHUNK_ROW * c.TERRAIN_CHUNK_PIXEL_WIDTH)
    (hfit : c.TERRAIN_PIXEL_WIDTH ≤ 2 ^ 32) (hfit2 : c.TERRAIN_CHUNK_ROW ^ 2 ≤ 2 ^ 32)
    (hx0 : 0 ≤ pos.x) (hx1 : pos.x < c.TERRAIN_PIXEL_WIDTH)
    (hy0 : 0 ≤ pos.y) (hy1 : pos.y < c.TERRAIN_PIXEL_WIDTH) :
    chunkIdx c pos = ⌊pos.x⌋₊ / c.TERRAIN_CHUNK_PIXEL_WIDTH
        + ⌊pos.y⌋₊ / c.TERRAIN_CHUNK_PIXEL_WIDTH * c.TERRAIN_CHUNK_ROW
      ∧ chunkIdx c pos < c.TERRAIN_CHUNK_ROW ^ 2 := by
  unfold chunkIdx
  rw [toUint_of_inrange hx0 hx1 hfit, toUint_of_inrange hy0 hy1 hfit]
  have ha : ⌊pos.x⌋₊ / c.TERRAIN_CHUNK_PIXEL_WIDTH < c.TERRAIN_CHUNK_ROW :=
    floor_div_lt hx0 (by rw [← hW]; exact hx1)
  have hb : ⌊pos.y⌋₊ / c.TERRAIN_CHUNK_PIXEL_WIDTH < c.TERRAIN_CHUNK_ROW :=
    floor_div_lt hy0 (by rw [← hW]; exact hy1)
  have hlt := idx_lt_sq ha hb
  have hlt2 := lt_of_lt_of_le hlt hfit2
  have hb2 : ⌊pos.y⌋₊ / c.TERRAIN_CHUNK_PIXEL_WIDTH * c.TERRAIN_CHUNK_ROW < 2 ^ 32 :=
    lt_of_le_of_lt (Nat.le_add_left _ _) hlt2
  rw [u32_of_lt hb2, u32_of_lt hlt2]
  exact ⟨rfl, hlt⟩


theorem not_rangeTest {W : Nat} {pos : PLVector2}
    (hx0 : 0 ≤ pos.x) (hx1 : pos.x < W) (hy0 : 0 ≤ pos.y) (hy1 : pos.y < W) :
    ¬ (pos.x < 0 ∨ ⌊pos.x⌋ ≥ (W : Int) ∨ pos.y < 0 ∨ ⌊pos.y⌋ ≥ (W : Int)) := by
  rw [rangeTest_iff]
  rintro (h | h | h | h) <;> linarith

theorem GetChunk_eq (c : TerrainConsts) (pos : PLVector2)
    (hW : c.TERRAIN_PIXEL_WIDTH = c.TERRAIN_CHUNK_ROW * c.TERRAIN_CHUNK_PIXEL_WIDTH)
    (hN : c.TERRAIN_CHUNKS = c.TERRAIN_CHUNK_ROW ^ 2)
    (hfit : c.TERRAIN_PIXEL_WIDTH ≤ 2 ^ 32) (hfitN : c.TERRAIN_CHUNKS ≤ 2 ^ 32)
    (hx0 : 0 ≤ pos.x) (hx1 : pos.x < c.TERRAIN_PIXEL_WIDTH)
    (hy0 : 0 ≤ pos.y) (hy1 : pos.y < c.TERRAIN_PIXEL_WIDTH) :
    GetChunk c pos = some (⌊pos.x⌋₊ / c.TERRAIN_CHUNK_PIXEL_WIDTH
        + ⌊pos.y⌋₊ / c.TERRAIN_CHUNK_PIXEL_WIDTH * c.TERRAIN_CHUNK_ROW) := by
  obtain ⟨h1, h2⟩ := chunkIdx_eq c pos hW hfit (hN ▸ hfitN) hx0 hx1 hy0 hy1
  unfold GetChunk
  rw [if_neg (not_rangeTest hx0 hx1 hy0 hy1)]
  simp only []
  rw [if_neg (by rw [hN]; exact not_le.2 h2), h1]

/-- C1: for every world position with `0 <= x < worldWidth` and `0 <= y < worldWidth`,
`GetChunk` returns the chunk at index `floor(x / chunkPixelWidth) + floor(y /
chunkPixelWidth) * chunksPerRow`; that index is below the number of chunks,
`chunksPerRow^2`, so the test for an out of bounds chunk index never succeeds.  The grid
constants satisfy `worldWidth = chunksPerRow * chunkPixelWidth`, and both the world width
and the number of chunks fit an `unsigned int`. -/
theorem GetChunk_inrange (c : TerrainConsts) (pos : PLVector2)
    (hW : c.TERRAIN_PIXEL_WIDTH = c.TERRAIN_CHUNK_ROW * c.TERRAIN_CHUNK_PIXEL_WIDTH)
    (hN : c.TERRAIN_CHUNKS = c.TERRAIN_CHUNK_ROW ^ 2)
    (hfit : c.TERRAIN_PIXEL_WIDTH ≤ 2 ^ 32) (hfitN : c.TERRAIN_CHUNKS ≤ 2 ^ 32)
    (hx0 : 0 ≤ pos.x) (hx1 : pos.x < c.TERRAIN_PIXEL_WIDTH)
    (hy0 : 0 ≤ pos.y) (hy1 : pos.y < c.TERRAIN_PIXEL_WIDTH) :
    GetChunk c pos = some (⌊pos.x / c.TERRAIN_CHUNK_PIXEL_WIDTH⌋₊
        + ⌊pos.y / c.TERRAIN_CHUNK_PIXEL_WIDTH⌋₊ * c.TERRAIN_CHUNK_ROW)
      ∧ chunkIdx c pos = ⌊pos.x / c.TERRAIN_CHUNK_PIXEL_WIDTH⌋₊
        + ⌊pos.y / c.TERRAIN_CHUNK_PIXEL_WIDTH⌋₊ * c.TERRAIN_CHUNK_ROW
      ∧ chunkIdx c pos < c.TERRAIN_CHUNK_ROW ^ 2
      ∧ ¬ (chunkIdx c pos ≥ c.TERRAIN_CHUNKS) := by
  obtain ⟨h1, h2⟩ := chunkIdx_eq c pos hW hfit (hN ▸ hfitN) hx0 hx1 hy0 hy1
  rw [Nat.floor_div_nat, Nat.floor_div_nat]
  exact ⟨GetChunk_eq c pos hW hN hfit hfitN hx0 hx1 hy0 hy1, h1, h2, not_le.2 (hN ▸ h2)⟩

theorem GetChunk_inrange_witness :
    GetChunk (grid 512) ⟨700, 5000⟩
        = some (⌊(700 : ℚ) / (grid 512).TERRAIN_CHUNK_PIXEL_WIDTH⌋₊
          + ⌊(5000 : ℚ) / (grid 512).TERRAIN_CHUNK_PIXEL_WIDTH⌋₊ * (grid 512).TERRAIN_CHUNK_ROW)
      ∧ chunkIdx (grid 512) ⟨700, 5000⟩
        = ⌊(700 : ℚ) / (grid 512).TERRAIN_CHUNK_PIXEL_WIDTH⌋₊
          + ⌊(5000 : ℚ) / (grid 512).TERRAIN_CHUNK_PIXEL_WIDTH⌋₊ * (grid 512).TERRAIN_CHUNK_ROW
      ∧ chunkIdx (grid 512) ⟨700, 5000⟩ < (grid 512).TERRAIN_CHUNK_ROW ^ 2
      ∧ ¬ (chunkIdx (grid 512) ⟨700, 5000⟩ ≥ (grid 512).TERRAIN_CHUNKS) :=
  GetChunk_inrange (grid 512) ⟨700, 5000⟩ (by decide) (by decide) (by decide)
    (by decide) (by norm_num) (by norm_num [grid]) (by norm_num) (by norm_num [grid])

theorem grid_inrange {w : Nat} {pos : PLVector2} (hfit : 64 * w ≤ 2 ^ 32)
    (hx0 : 0 ≤ pos.x) (hx1 : pos.x < ((grid w).TERRAIN_PIXEL_WIDTH : ℚ))
    (hy0 : 0 ≤ pos.y) (hy1 : pos.y < ((grid w).TERRAIN_PIXEL_WIDTH : ℚ)) :
    GetChunk (grid w) pos = some (⌊pos.x⌋₊ / (4 * w) + ⌊pos.y⌋₊ / (4 * w) * 16) :=
  GetChunk_eq (grid w) pos (by simp only [grid]; ring) (by simp [grid]) hfit
    (by simp [grid]) hx0 hx1 hy0 hy1

theorem tileIdx_grid {w : Nat} {pos : PLVector2} (hfit : 64 * w ≤ 2 ^ 32)
    (hx0 : 0 ≤ pos.x) (hx1 : pos.x < ((grid w).TERRAIN_PIXEL_WIDTH : ℚ))
    (hy0 : 0 ≤ pos.y) (hy1 : pos.y < ((grid w).TERRAIN_PIXEL_WIDTH : ℚ)) :
    tileIdx (grid w) pos = ⌊pos.x⌋₊ / w % 4 + ⌊pos.y⌋₊ / w % 4 * 4
      ∧ tileIdx (grid w) pos < 16 := by
  unfold tileIdx
  rw [toUint_of_inrange hx0 hx1 hfit, toUint_of_inrange hy0 hy1 hfit]
  simp only [grid, u32]
  generalize ⌊pos.x⌋₊ / w = a
  generalize ⌊pos.y⌋₊ / w = b
  omega

theorem GetTile_grid {w : Nat} {pos : PLVector2} (hfit : 64 * w ≤ 2 ^ 32)
    (hx0 : 0 ≤ pos.x) (hx1 : pos.x < ((grid w).TERRAIN_PIXEL_WIDTH : ℚ))
    (hy0 : 0 ≤ pos.y) (hy1 : pos.y < ((grid w).TERRAIN_PIXEL_WIDTH : ℚ)) :
    GetTile (grid w) pos = some (⌊pos.x⌋₊ / (4 * w) + ⌊pos.y⌋₊ / (4 * w) * 16,
      ⌊pos.x⌋₊ / w % 4 + ⌊pos.y⌋₊ / w % 4 * 4) := by
  obtain ⟨h1, h2⟩ := tileIdx_grid hfit hx0 hx1 hy0 hy1
  unfold GetTile
  rw [grid_inrange hfit hx0 hx1 hy0 hy1]
  simp only []
  rw [if_neg (by simpa [grid] using h2), h1]

theorem GetChunk_out {c : TerrainConsts} {pos : PLVector2}
    (h : pos.x < 0 ∨ pos.y < 0 ∨ pos.x ≥ c.TERRAIN_PIXEL_WIDTH ∨ pos.y ≥ c.TERRAIN_PIXEL_WIDTH) :
    GetChunk c pos = none := by
  unfold GetChunk
  rw [if_pos ((rangeTest_iff _ _).2 h)]

/-- C2: for every in-range world position, `GetTile` returns the tile at index
`(floor(x / tileWidth) mod 4) + (floor(y / tileWidth) mod 4) * 4` of the chunk that
`GetChunk` returns for the same position; the index is below 16, the number of tiles of a
chunk, so the test for an out of bounds tile index never succeeds.  The tile width `w` is
any width whose world width `64 * w` fits an `unsigned int`. -/
theorem GetTile_inrange (w : Nat) (pos : PLVector2) (hfit : 64 * w ≤ 2 ^ 32)
    (hx0 : 0 ≤ pos.x) (hx1 : pos.x < ((grid w).TERRAIN_PIXEL_WIDTH : ℚ))
    (hy0 : 0 ≤ pos.y) (hy1 : pos.y < ((grid w).TERRAIN_PIXEL_WIDTH : ℚ)) :
    ∃ chunk, GetChunk (grid w) pos = some chunk
      ∧ GetTile (grid w) pos
          = some (chunk, ⌊pos.x / w⌋₊ % 4 + ⌊pos.y / w⌋₊ % 4 * 4)
      ∧ tileIdx (grid w) pos = ⌊pos.x / w⌋₊ % 4 + ⌊pos.y / w⌋₊ % 4 * 4
      ∧ tileIdx (grid w) pos < 16
      ∧ ¬ (tileIdx (grid w) pos ≥ (grid w).TERRAIN_CHUNK_TILES) := by
  obtain ⟨h1, h2⟩ := tileIdx_grid hfit hx0 hx1 hy0 hy1
  rw [Nat.floor_div_nat, Nat.floor_div_nat]
  exact ⟨_, grid_inrange hfit hx0 hx1 hy0 hy1, GetTile_grid hfit hx0 hx1 hy0 hy1, h1, h2,
    not_le.2 h2⟩

theorem GetTile_inrange_witness :
    ∃ chunk, GetChunk (grid 512) ⟨700, 5000⟩ = some chunk
      ∧ GetTile (grid 512) ⟨700, 5000⟩
          = some (chunk, ⌊(700 : ℚ) / (512 : Nat)⌋₊ % 4 + ⌊(5000 : ℚ) / (512 : Nat)⌋₊ % 4 * 4)
      ∧ tileIdx (grid 512) ⟨700, 5000⟩
          = ⌊(700 : ℚ) / (512 : Nat)⌋₊ % 4 + ⌊(5000 : ℚ) / (512 : Nat)⌋₊ % 4 * 4
      ∧ tileIdx (grid 512) ⟨700, 5000⟩ < 16
      ∧ ¬ (tileIdx (grid 512) ⟨700, 5000⟩ ≥ (grid 512).TERRAIN_CHUNK_TILES) :=
  GetTile_inrange 512 ⟨700, 5000⟩ (by decide) (by norm_num) (by norm_num [grid])
    (by norm_num) (by norm_num [grid])

/-- C3: `GetChunk` and `GetTile` return `none` exactly when `x < 0`, `y < 0`,
`x >= worldWidth` or `y >= worldWidth`, and in each of these cases `GetHeight` returns 0.
The tile width `w` is any width whose world width `64 * w` fits an `unsigned int`. -/
theorem lookup_none_iff (w : Nat) (t : Terrain) (pos : PLVector2) (hfit : 64 * w ≤ 2 ^ 32) :
    (GetChunk (grid w) pos = none ↔
        (pos.x < 0 ∨ pos.y < 0 ∨ pos.x ≥ (grid w).TERRAIN_PIXEL_WIDTH
          ∨ pos.y ≥ (grid w).TERRAIN_PIXEL_WIDTH))
      ∧ (GetTile (grid w) pos = none ↔
        (pos.x < 0 ∨ pos.y < 0 ∨ pos.x ≥ (grid w).TERRAIN_PIXEL_WIDTH
          ∨ pos.y ≥ (grid w).TERRAIN_PIXEL_WIDTH))
      ∧ ((pos.x < 0 ∨ pos.y < 0 ∨ pos.x ≥ (grid w).TERRAIN_PIXEL_WIDTH
          ∨ pos.y ≥ (grid w).TERRAIN_PIXEL_WIDTH) → GetHeight (grid w) t pos = 0) := by
  by_cases h : pos.x < 0 ∨ pos.y < 0 ∨ pos.x ≥ (grid w).TERRAIN_PIXEL_WIDTH
      ∨ pos.y ≥ (grid w).TERRAIN_PIXEL_WIDTH
  · have hc := GetChunk_out h
    have ht : GetTile (grid w) pos = none := by unfold GetTile; rw [hc]
    have hh : GetHeight (grid w) t pos = 0 := by unfold GetHeight; rw [ht]
    exact ⟨⟨fun _ => h, fun _ => hc⟩, ⟨fun _ => h, fun _ => ht⟩, fun _ => hh⟩
  · have h' := h
    simp only [not_or, not_lt, ge_iff_le, not_le] at h'
    obtain ⟨hx0, hy0, hx1, hy1⟩ := h'
    have hc := grid_inrange hfit hx0 hx1 hy0 hy1
    have ht := GetTile_grid hfit hx0 hx1 hy0 hy1
    refine ⟨⟨fun hn => ?_, fun hn => absurd hn h⟩, ⟨fun hn => ?_, fun hn => absurd hn h⟩,
      fun hn => absurd hn h⟩
    · rw [hc] at hn; cases hn
    · rw [ht] at hn; cases hn

theorem lookup_none_iff_witness :
    GetChunk (grid 512) ⟨-1, 0⟩ = none ∧ GetTile (grid 512) ⟨-1, 0⟩ = none
      ∧ GetHeight (grid 512) rampTerrain ⟨-1, 0⟩ = 0 :=
  have h := lookup_none_iff 512 rampTerrain ⟨-1, 0⟩ (by decide)
  ⟨h.1.2 (Or.inl (by norm_num)), h.2.1.2 (Or.inl (by norm_num)),
    h.2.2 (Or.inl (by norm_num))⟩

/-- C4: for every in-range position, whose tile has the corner heights `h0 .. h3`,
`GetHeight` returns `top + (bottom - top) * fy` with `top = h0 + (h1 - h0) * fx` and
`bottom = h2 + (h3 - h2) * fx`, where `fx = x - floor(x)` and `fy = y - floor(y)`, in exact
rational arithmetic (`bilinear` is that formula).  The tile width `w` is any width whose
world width `64 * w` fits an `unsigned int`. -/
theorem GetHeight_inrange (w : Nat) (t : Terrain) (pos : PLVector2) (hfit : 64 * w ≤ 2 ^ 32)
    (hx0 : 0 ≤ pos.x) (hx1 : pos.x < ((grid w).TERRAIN_PIXEL_WIDTH : ℚ))
    (hy0 : 0 ≤ pos.y) (hy1 : pos.y < ((grid w).TERRAIN_PIXEL_WIDTH : ℚ)) :
    ∃ p, GetTile (grid w) pos = some p ∧
      GetHeight (grid w) t pos = bilinear (t.tileAt p).height (pos.x - ⌊pos.x⌋) (pos.y - ⌊pos.y⌋) := by
  refine ⟨_, GetTile_grid hfit hx0 hx1 hy0 hy1, ?_⟩
  unfold GetHeight
  rw [GetTile_grid hfit hx0 hx1 hy0 hy1]
  rfl

theorem GetHeight_inrange_witness :
    ∃ p, GetTile (grid 512) ⟨700, 5000⟩ = some p ∧
      GetHeight (grid 512) rampTerrain ⟨700, 5000⟩
        = bilinear (rampTerrain.tileAt p).height ((700 : ℚ) - ⌊(700 : ℚ)⌋) ((5000 : ℚ) - ⌊(5000 : ℚ)⌋) :=
  GetHeight_inrange 512 rampTerrain ⟨700, 5000⟩ (by decide) (by norm_num) (by norm_num [grid])
    (by norm_num) (by norm_num [grid])

theorem GetTile_one (n : Nat) : GetTile (grid (n + 2)) ⟨1, 0⟩ = some (0, 0) := by
  have h1 : (1 : Nat) / (4 * (n + 2)) = 0 := Nat.div_eq_of_lt (by omega)
  have h2 : (1 : Nat) / (n + 2) = 0 := Nat.div_eq_of_lt (by omega)
  have h3 : ¬ ((64 : Int) * ((n : Int) + 2) ≤ 1) := by omega
  have h4 : ¬ ((64 : Int) * ((n : Int) + 2) ≤ 0) := by omega
  have h5 : ¬ ((1 : ℚ) < 0) := by norm_num
  simp [GetTile, GetChunk, chunkIdx, tileIdx, toUint, u32, grid, h1, h2, h3, h4, h5]

theorem GetHeight_one (n : Nat) : GetHeight (grid (n + 2)) rampTerrain ⟨1, 0⟩ = 0 := by
  unfold GetHeight
  rw [GetTile_one]
  simp [bilinear, rampTerrain, Terrain.tileAt]

theorem tileFractionHeight_one (n : Nat) :
    tileFractionHeight (grid (n + 2)) rampTerrain ⟨1, 0⟩ = 100 / ((n : ℚ) + 2) := by
  unfold tileFractionHeight
  rw [GetTile_one]
  have hpos : (0 : ℚ) < (n : ℚ) + 2 := by positivity
  have hf : ⌊(1 : ℚ) / ((n : ℚ) + 2)⌋ = 0 := by
    rw [Int.floor_eq_zero_iff]
    constructor
    · positivity
    · rw [div_lt_one hpos]; linarith [(Nat.cast_nonneg n : (0 : ℚ) ≤ n)]
  simp only [bilinear, rampTerrain, Terrain.tileAt, grid, Nat.cast_add, Nat.cast_ofNat, hf]
  simp
  rw [div_eq_mul_inv]


/-- C5: the code does not interpolate at the position's offset within its tile.  With a
tile width of 512, on a terrain whose tiles rise from 0 on the west edge to 100 on the east
edge, `GetHeight` at `(256, 0)`, the middle of the north edge of the first tile, is 0, the
height of the west corner, where the interpolation weighted by `(coordinate - NW corner
coordinate) / tileWidth` gives 50; and for every tile width of 2 or more `GetHeight` at
`(1, 0)` is 0 where that interpolation gives `100 / tileWidth`. -/
theorem GetHeight_ignores_tile_width :
    (GetTile (grid 512) ⟨256, 0⟩ = some (0, 0)
      ∧ (rampTerrain.tileAt (0, 0)).height = ![0, 100, 0, 100]
      ∧ GetHeight (grid 512) rampTerrain ⟨256, 0⟩ = 0
      ∧ tileFractionHeight (grid 512) rampTerrain ⟨256, 0⟩ = 50)
    ∧ ∀ n : Nat, GetHeight (grid (n + 2)) rampTerrain ⟨1, 0⟩ = 0
        ∧ tileFractionHeight (grid (n + 2)) rampTerrain ⟨1, 0⟩ = 100 / ((n : ℚ) + 2) := by
  have ht : GetTile (grid 512) ⟨256, 0⟩ = some (0, 0) := by decide
  refine ⟨⟨ht, rfl, ?_, ?_⟩, fun n => ⟨GetHeight_one n, tileFractionHeight_one n⟩⟩
  · unfold GetHeight
    rw [ht]
    simp [bilinear, rampTerrain, Terrain.tileAt]
  · unfold tileFractionHeight
    rw [ht]
    have hf : ⌊(256 : ℚ) / 512⌋ = 0 := by
      rw [Int.floor_eq_zero_iff]; constructor <;> norm_num
    simp [bilinear, rampTerrain, Terrain.tileAt, grid, hf]
    norm_num

/-! ## Loops -/

theorem forLoop_eq {σ ε : Type} (body : Nat → σ → Except ε σ) (f : Nat → σ) (n : Nat)
    (hstep : ∀ i, i < n → body i (f i) = .ok (f (i + 1))) :
    forLoop body n (f 0) = .ok (f n) := by
  induction n with
  | zero => rfl
  | succ n ih =>
    have h := ih (fun i hi => hstep i (Nat.lt_succ_of_lt hi))
    show (match forLoop body n (f 0) with
      | .ok s1 => body n s1
      | .error e => .error e) = _
    rw [h]
    exact hstep n (Nat.lt_succ_self n)

theorem forLoop_congr {σ ε : Type} (body body2 : Nat → σ → Except ε σ) (n : Nat)
    (h : ∀ i, i < n → body i = body2 i) (s : σ) :
    forLoop body n s = forLoop body2 n s := by
  induction n with
  | zero => rfl
  | succ n ih =>
    show (match forLoop body n s with
      | .ok s1 => body n s1
      | .error e => .error e) = (match forLoop body2 n s with
      | .ok s1 => body2 n s1
      | .error e => .error e)
    rw [ih (fun i hi => h i (Nat.lt_succ_of_lt hi)), h n (Nat.lt_succ_self n)]

theorem forLoop_add {σ ε : Type} (body : Nat → σ → Except ε σ) (a b : Nat) (s : σ) :
    forLoop body (a + b) s =
      match forLoop body a s with
      | .ok s1 => forLoop (fun i => body (a + i)) b s1
      | .error e => .error e := by
  induction b with
  | zero =>
    show forLoop body a s = _
    cases forLoop body a s <;> rfl
  | succ b ih =>
    show (match forLoop body (a + b) s with
      | .ok s1 => body (a + b) s1
      | .error e => .error e) = _
    rw [ih]
    cases forLoop body a s <;> rfl

theorem forLoop_nested {σ ε : Type} (body : Nat → Nat → σ → Except ε σ) (m n : Nat)
    (hm : 0 < m) (s : σ) :
    forLoop (fun y => forLoop (fun x => body y x) m) n s =
      forLoop (fun j => body (j / m) (j % m)) (m * n) s := by
  induction n with
  | zero => rfl
  | succ n ih =>
    rw [Nat.mul_succ, forLoop_add (fun j => body (j / m) (j % m)) (m * n) m, ← ih]
    show (match forLoop (fun y => forLoop (fun x => body y x) m) n s with
      | .ok s1 => forLoop (fun x => body n x) m s1
      | .error e => .error e) = _
    have hc : ∀ s1, forLoop (fun x => body n x) m s1
        = forLoop (fun i => body ((m * n + i) / m) ((m * n + i) % m)) m s1 := by
      intro s1
      apply forLoop_congr
      intro i hi
      have h1 : (m * n + i) / m = n := by
        rw [Nat.mul_add_div hm, Nat.div_eq_of_lt hi, Nat.add_zero]
      have h2 : (m * n + i) % m = i := by
        rw [Nat.mul_add_mod, Nat.mod_eq_of_lt hi]
      rw [h1, h2]
    cases forLoop (fun y => forLoop (fun x => body y x) m) n s with
    | ok s1 => exact hc s1
    | error e => rfl

/-! ## File reads -/

theorem byteAt_lt (data : List Byte) (i : Nat) : byteAt data i < 256 := (data.getD i 0).isLt

theorem leAt_lt (data : List Byte) (n p : Nat) : leAt data p n < 256 ^ n := by
  induction n generalizing p with
  | zero => simp [leAt]
  | succ n ih =>
    have h1 := byteAt_lt data p
    have h2 := ih (p + 1)
    have h3 : 256 ^ (n + 1) = 256 * 256 ^ n := by ring
    simp only [leAt]
    omega

theorem leNat_take_drop (data : List Byte) (n p : Nat) (h : p + n ≤ data.length) :
    leNat ((data.drop p).take n) = leAt data p n := by
  induction n generalizing p with
  | zero => simp [leNat, leAt]
  | succ n ih =>
    have hp : p < data.length := by omega
    rw [List.drop_eq_getElem_cons hp, List.take_succ_cons]
    simp only [leNat, leAt]
    rw [ih (p + 1) (by omega)]
    simp [byteAt, List.getElem?_eq_getElem hp]

theorem plReadFile_ok (data : List Byte) (p n : Nat) (h : p + n ≤ data.length) :
    plReadFile ⟨data, p⟩ n = (some ((data.drop p).take n), ⟨data, p + n⟩) := by
  simp [plReadFile, h]

theorem readSizedInteger_ok (data : List Byte) (p n : Nat) (h : p + n ≤ data.length) :
    readSizedInteger ⟨data, p⟩ n = (toSigned (8 * n) (leAt data p n), true, ⟨data, p + n⟩) := by
  simp [readSizedInteger, plReadFile_ok data p n h, leNat_take_drop data n p h]

theorem plFileSeek_ok (data : List Byte) (p n : Nat) (h : p + n ≤ data.length) :
    plFileSeek ⟨data, p⟩ n = ⟨data, p + n⟩ := by
  simp [plFileSeek, h]

theorem toUnsigned_toSigned (bits raw : Nat) (h : raw < 2 ^ bits) :
    toUnsigned bits (toSigned bits raw) = raw := by
  unfold toUnsigned toSigned
  rw [Nat.mod_eq_of_lt h]
  have hpos : (0 : Int) < 2 ^ bits := by positivity
  have hr : (raw : Int) < 2 ^ bits := by exact_mod_cast h
  split
  · rw [Int.emod_eq_of_lt (by positivity) hr]; simp
  · rw [Int.sub_emod, Int.emod_self, sub_zero, Int.emod_emod_of_dvd _ (dvd_refl _),
      Int.emod_eq_of_lt (by positivity) hr]
    simp

theorem toUnsigned_read8 (data : List Byte) (p : Nat) :
    toUnsigned 8 (toSigned (8 * 1) (leAt data p 1)) = byteAt data p := by
  have h := leAt_lt data 1 p
  rw [show 8 * 1 = 8 from rfl, toUnsigned_toSigned 8 _ (by simpa using h)]
  simp [leAt]

theorem toUnsigned_read16 (data : List Byte) (p : Nat) :
    toUnsigned 16 (toSigned (8 * 2) (leAt data p 2)) = leAt data p 2 := by
  have h := leAt_lt data 2 p
  rw [show 8 * 2 = 16 from rfl, toUnsigned_toSigned 16 _ (by simpa using h)]

theorem toUnsigned_read32 (data : List Byte) (p : Nat) :
    toUnsigned 32 (toSigned (8 * 4) (leAt data p 4)) = leAt data p 4 := by
  have h := leAt_lt data 4 p
  rw [show 8 * 4 = 32 from rfl, toUnsigned_toSigned 32 _ (by simpa using h)]


/-! ## The decoder, record by record -/

theorem readVertex_ok (data : List Byte) (p i : Nat) (t : Terrain) (V : Nat → Vertex)
    (h : p + 4 ≤ data.length) :
    readVertex i (⟨data, p⟩, t, V) =
      .ok (⟨data, p + 4⟩, trackHeight t (toSigned 16 (leAt data p 2)),
        Function.update V i ⟨toSigned 16 (leAt data p 2), leAt data (p + 2) 2⟩) := by
  simp only [readVertex, plReadInt16, readSizedInteger_ok data p 2 (by omega),
    readSizedInteger_ok data (p + 2) 2 (by omega), toUnsigned_read16]
  simp

theorem update_ite_lt {α : Type} (F G : Nat → α) (m : Nat) :
    Function.update (fun j => if j < m then F j else G j) m (F m)
      = fun j => if j < m + 1 then F j else G j := by
  funext j
  by_cases h : j = m
  · subst h; simp
  · rw [Function.update_noteq h]
    by_cases h2 : j < m
    · simp [h2, Nat.lt_succ_of_lt h2]
    · have : ¬ j < m + 1 := by omega
      simp [h2, this]

theorem readVertices_ok (data : List Byte) (p : Nat) (t : Terrain) (V : Nat → Vertex)
    (h : p + 100 ≤ data.length) :
    forLoop readVertex 25 (⟨data, p⟩, t, V) =
      .ok (⟨data, p + 100⟩, trackVertices data p t 25,
        fun i => if i < 25 then pmgVertexAt data p i else V i) := by
  have key := forLoop_eq readVertex
    (fun n => ((⟨data, p + 4 * n⟩ : PLFile), trackVertices data p t n,
      fun i => if i < n then pmgVertexAt data p i else V i)) 25
    (by
      intro i hi
      simp only []
      rw [readVertex_ok data (p + 4 * i) i _ _ (by omega)]
      have e1 : p + 4 * i + 4 = p + 4 * (i + 1) := by ring
      have e2 : trackHeight (trackVertices data p t i) (toSigned 16 (leAt data (p + 4 * i) 2))
          = trackVertices data p t (i + 1) := by
        simp [trackVertices, List.range_succ, pmgVertexAt]
      have e3 := update_ite_lt (pmgVertexAt data p) V i
      rw [e1, e2]
      simp only [pmgVertexAt] at e3 ⊢
      rw [e3])
  simpa [trackVertices] using key

theorem readTile_ok (c : TerrainConsts) (data : List Byte) (q k tile_y tile_x : Nat)
    (t : Terrain) (V : Nat → Vertex) (h : q + 16 ≤ data.length) :
    readTile c k V tile_y tile_x (⟨data, q⟩, t) =
      .ok (⟨data, q + 16⟩,
        t.setTile k (tile_x + tile_y * c.TERRAIN_CHUNK_ROW_TILES)
          (pmgTileAt data V q tile_y tile_x)) := by
  simp only [readTile, plReadInt8, plReadInt16, plReadInt32, plReadFile_ok data q 6 (by omega),
    readSizedInteger_ok data (q + 6) 1 (by omega),
    readSizedInteger_ok data (q + 6 + 1) 1 (by omega),
    readSizedInteger_ok data (q + 6 + 1 + 1) 2 (by omega),
    readSizedInteger_ok data (q + 6 + 1 + 1 + 2) 1 (by omega),
    readSizedInteger_ok data (q + 6 + 1 + 1 + 2 + 1) 4 (by omega),
    readSizedInteger_ok data (q + 6 + 1 + 1 + 2 + 1 + 4) 1 (by omega),
    toUnsigned_read8, toUnsigned_read32]
  simp [pmgTileAt]

theorem setTilesUpTo_zero (t : Terrain) (k : Nat) (F : Nat → Tile) :
    setTilesUpTo t k F 0 = t := by
  cases t
  simp [setTilesUpTo]

theorem setTilesUpTo_succ (t : Terrain) (k : Nat) (F : Nat → Tile) (m : Nat) :
    (setTilesUpTo t k F m).setTile k m (F m) = setTilesUpTo t k F (m + 1) := by
  simp only [Terrain.setTile, setTilesUpTo, Function.update_same, Function.update_idem]
  rw [update_ite_lt F (t.chunks_ k).tiles m]

theorem setTilesUpTo_congr (t : Terrain) (k : Nat) (F G : Nat → Tile) (m : Nat)
    (h : ∀ j, j < m → F j = G j) : setTilesUpTo t k F m = setTilesUpTo t k G m := by
  have e : (fun j => if j < m then F j else (t.chunks_ k).tiles j)
      = fun j => if j < m then G j else (t.chunks_ k).tiles j := by
    funext j
    by_cases hj : j < m
    · simp [hj, h j hj]
    · simp [hj]
  simp only [setTilesUpTo, e]

theorem readTiles_ok (w : Nat) (data : List Byte) (q k : Nat) (t : Terrain) (V : Nat → Vertex)
    (h : q + 256 ≤ data.length) :
    forLoop (fun tile_y => forLoop (fun tile_x => readTile (grid w) k V tile_y tile_x)
        (grid w).TERRAIN_CHUNK_ROW_TILES) (grid w).TERRAIN_CHUNK_ROW_TILES (⟨data, q⟩, t) =
      .ok (⟨data, q + 256⟩,
        setTilesUpTo t k (fun j => pmgTileAt data V (q + 16 * j) (j / 4) (j % 4)) 16) := by
  show forLoop (fun tile_y => forLoop (fun tile_x => readTile (grid w) k V tile_y tile_x) 4) 4
    (⟨data, q⟩, t) = _
  rw [forLoop_nested (fun tile_y tile_x => readTile (grid w) k V tile_y tile_x) 4 4 (by decide)]
  have key := forLoop_eq (fun j => readTile (grid w) k V (j / 4) (j % 4))
    (fun n => ((⟨data, q + 16 * n⟩ : PLFile),
      setTilesUpTo t k (fun j => pmgTileAt data V (q + 16 * j) (j / 4) (j % 4)) n)) 16
    (by
      intro i hi
      simp only []
      rw [readTile_ok (grid w) data (q + 16 * i) k (i / 4) (i % 4) _ V (by omega)]
      have e1 : q + 16 * i + 16 = q + 16 * (i + 1) := by ring
      have e2 : i % 4 + i / 4 * (grid w).TERRAIN_CHUNK_ROW_TILES = i := by
        show i % 4 + i / 4 * 4 = i
        omega
      rw [e1, e2]
      rw [setTilesUpTo_succ t k (fun j => pmgTileAt data V (q + 16 * j) (j / 4) (j % 4)) i])
  simpa [setTilesUpTo_zero] using key

theorem pmgTileAt_congr (data : List Byte) (V V2 : Nat → Vertex) (q tile_y tile_x : Nat)
    (h : ∀ i, i < 25 → V i = V2 i) (hy : tile_y < 4) (hx : tile_x < 4) :
    pmgTileAt data V q tile_y tile_x = pmgTileAt data V2 q tile_y tile_x := by
  have h0 : tile_y * 5 + tile_x < 25 := by omega
  have h1 : tile_y * 5 + tile_x + 1 < 25 := by omega
  have h2 : (tile_y + 1) * 5 + tile_x < 25 := by omega
  have h3 : (tile_y + 1) * 5 + tile_x + 1 < 25 := by omega
  simp only [pmgTileAt, h _ h0, h _ h1, h _ h2, h _ h3]

theorem readChunk_ok (w : Nat) (data : List Byte) (p k : Nat) (t : Terrain)
    (h : p + pmgChunkSize ≤ data.length) :
    readChunk (grid w) k (⟨data, p⟩, t) =
      .ok (⟨data, p + pmgChunkSize⟩,
        setTilesUpTo (trackVertices data (p + 8) t 25) k
          (fun j => pmgTileAt data (pmgVertexAt data (p + 8)) (p + 112 + 16 * j) (j / 4) (j % 4))
          16) := by
  have hs : pmgChunkSize = 368 := rfl
  rw [hs] at h ⊢
  simp only [readChunk, plReadInt16, readSizedInteger_ok data p 2 (by omega),
    readSizedInteger_ok data (p + 2) 2 (by omega),
    readSizedInteger_ok data (p + 2 + 2) 2 (by omega),
    readSizedInteger_ok data (p + 2 + 2 + 2) 2 (by omega)]
  have e8 : p + 2 + 2 + 2 + 2 = p + 8 := by ring
  rw [e8]
  simp only [Bool.not_true, Bool.false_eq_true, if_false]
  rw [readVertices_ok data (p + 8) t _ (by omega)]
  simp only []
  rw [plFileSeek_ok data (p + 8 + 100) 4 (by omega)]
  rw [readTiles_ok w data (p + 8 + 100 + 4) k _ _ (by omega)]
  have e1 : p + 8 + 100 + 4 + 256 = p + 368 := by ring
  have e2 : p + 8 + 100 + 4 = p + 112 := by ring
  rw [e1, e2]
  rw [setTilesUpTo_congr _ k _
    (fun j => pmgTileAt data (pmgVertexAt data (p + 8)) (p + 112 + 16 * j) (j / 4) (j % 4)) 16]
  intro j hj
  apply pmgTileAt_congr
  · intro i hi
    simp [hi]
  · omega
  · omega

theorem trackHeight_chunks (t : Terrain) (h : Int) (C : Nat → Chunk) :
    trackHeight { t with chunks_ := C } h = { trackHeight t h with chunks_ := C } := by
  unfold trackHeight
  simp only []
  split_ifs <;> rfl

theorem trackVertices_chunks (data : List Byte) (p : Nat) (t : Terrain) (C : Nat → Chunk)
    (n : Nat) :
    trackVertices data p { t with chunks_ := C } n
      = { trackVertices data p t n with chunks_ := C } := by
  induction n with
  | zero => rfl
  | succ n ih =>
    simp only [trackVertices, List.range_succ, List.foldl_append, List.foldl_cons,
      List.foldl_nil] at ih ⊢
    rw [ih, trackHeight_chunks]

theorem trackHeight_chunks_eq (t : Terrain) (h : Int) :
    (trackHeight t h).chunks_ = t.chunks_ := by
  unfold trackHeight
  simp only []
  split_ifs <;> rfl

theorem trackVertices_chunks_eq (data : List Byte) (p : Nat) (t : Terrain) (n : Nat) :
    (trackVertices data p t n).chunks_ = t.chunks_ := by
  induction n with
  | zero => rfl
  | succ n ih =>
    simp only [trackVertices, List.range_succ, List.foldl_append, List.foldl_cons,
      List.foldl_nil] at ih ⊢
    rw [trackHeight_chunks_eq, ih]

theorem pmgTrack_succ (data : List Byte) (t : Terrain) (K : Nat) :
    pmgTrack data t (K + 1)
      = trackVertices data (pmgChunkSize * K + 8) (pmgTrack data t K) 25 := by
  simp [pmgTrack, List.range_succ]

theorem pmgAfter_zero (data : List Byte) (t : Terrain) : pmgAfter data t 0 = t := by
  cases t
  simp [pmgAfter, pmgTrack]

theorem pmgAfter_succ (data : List Byte) (t : Terrain) (K : Nat) :
    setTilesUpTo (trackVertices data (pmgChunkSize * K + 8) (pmgAfter data t K) 25) K
        (fun j => pmgTileAt data (pmgVertexAt data (pmgChunkSize * K + 8))
          (pmgChunkSize * K + 112 + 16 * j) (j / 4) (j % 4)) 16
      = pmgAfter data t (K + 1) := by
  have eF : (fun j => pmgTileAt data (pmgVertexAt data (pmgChunkSize * K + 8))
        (pmgChunkSize * K + 112 + 16 * j) (j / 4) (j % 4))
      = fun j => pmgTile data K (j / 4) (j % 4) := by
    funext j
    have : j % 4 + j / 4 * 4 = j := by omega
    simp only [pmgTile, this]
    rfl
  rw [eF]
  unfold pmgAfter
  rw [trackVertices_chunks, ← pmgTrack_succ]
  simp only [setTilesUpTo, lt_self_iff_false, if_false]
  rw [update_ite_lt (fun k => Chunk.mk (fun j =>
    if j < 16 then pmgTile data k (j / 4) (j % 4) else (t.chunks_ k).tiles j)) t.chunks_ K]

theorem readChunks_ok (w : Nat) (data : List Byte) (t : Terrain)
    (h : pmgChunkSize * 256 ≤ data.length) :
    forLoop (fun chunk_y => forLoop
        (fun chunk_x => readChunk (grid w) (chunk_x + chunk_y * (grid w).TERRAIN_CHUNK_ROW))
        (grid w).TERRAIN_CHUNK_ROW) (grid w).TERRAIN_CHUNK_ROW (⟨data, 0⟩, t) =
      .ok (⟨data, pmgChunkSize * 256⟩, pmgAfter data t 256) := by
  show forLoop (fun chunk_y => forLoop
    (fun chunk_x => readChunk (grid w) (chunk_x + chunk_y * 16)) 16) 16 (⟨data, 0⟩, t) = _
  rw [forLoop_nested (fun chunk_y chunk_x => readChunk (grid w) (chunk_x + chunk_y * 16)) 16 16
    (by decide)]
  have key := forLoop_eq (fun j => readChunk (grid w) (j % 16 + j / 16 * 16))
    (fun K => ((⟨data, pmgChunkSize * K⟩ : PLFile), pmgAfter data t K)) 256
    (by
      intro K hK
      have e0 : K % 16 + K / 16 * 16 = K := by omega
      have hlen : pmgChunkSize * K + pmgChunkSize ≤ data.length := by
        have : pmgChunkSize * K + pmgChunkSize ≤ pmgChunkSize * 256 := by
          simp only [pmgChunkSize]; omega
        omega
      simp only [e0]
      rw [readChunk_ok w data (pmgChunkSize * K) K _ hlen, pmgAfter_succ]
      rfl)
  simpa [pmgAfter_zero] using key

theorem LoadPmg_ok (w : Nat) (data : List Byte) (t : Terrain)
    (h : pmgChunkSize * 256 ≤ data.length) :
    LoadPmg (grid w) t (some data) = .loaded (Update (pmgAfter data t 256)) := by
  unfold LoadPmg
  simp only []
  rw [readChunks_ok w data t h]

/-! ## The loaded terrain -/

theorem loaded_tile (data : List Byte) (t : Terrain) (k tile_y tile_x : Nat)
    (hk : k < 256) (hy : tile_y < 4) (hx : tile_x < 4) :
    ((Update (pmgAfter data t 256)).chunks_ k).tiles (tile_x + tile_y * 4)
      = pmgTile data k tile_y tile_x := by
  have h16 : tile_x + tile_y * 4 < 16 := by omega
  have e1 : (tile_x + tile_y * 4) / 4 = tile_y := by omega
  have e2 : (tile_x + tile_y * 4) % 4 = tile_x := by omega
  simp only [Update, pmgAfter, hk, h16, if_true, e1, e2]

theorem leAt_two (data : List Byte) (p : Nat) :
    leAt data p 2 = byteAt data p + 256 * byteAt data (p + 1) := by
  simp [leAt]

theorem leAt_four (data : List Byte) (p : Nat) :
    leAt data p 4 = byteAt data p + 256 * byteAt data (p + 1) + 65536 * byteAt data (p + 2)
      + 16777216 * byteAt data (p + 3) := by
  simp only [leAt]
  ring

theorem zeroStream_length : pmgChunkSize * 256 ≤ zeroStream.length := by
  simp [zeroStream]

theorem lightStream_length : pmgChunkSize * 256 ≤ lightStream.length := by
  simp only [lightStream, List.length_append, List.length_replicate, List.length_cons,
    List.length_nil]
  decide

theorem lightStream_bytes : byteAt lightStream 10 = 44 ∧ byteAt lightStream 11 = 1 := by
  decide

/-- C6, as stated, fails: on a stream whose first vertex record has the lighting 300 the
load succeeds and the first corner of the first tile of the first chunk, which takes its
shading from that vertex record, has the shading 44, the low byte of 300. -/
theorem LoadPmg_lighting_low_byte :
    ∃ t1, LoadPmg (grid 512) rampTerrain (some lightStream) = .loaded t1
      ∧ (pmgVertex lightStream 0 (0 * 5 + 0)).lighting = 300
      ∧ ((t1.chunks_ 0).tiles (0 + 0 * 4)).shading 0 = 44 := by
  have hs : ((Update (pmgAfter lightStream rampTerrain 256)).chunks_ 0).tiles (0 + 0 * 4)
      = pmgTile lightStream 0 0 0 :=
    loaded_tile lightStream rampTerrain 0 0 0 (by decide) (by decide) (by decide)
  have hl : (pmgVertex lightStream 0 (0 * 5 + 0)).lighting = 300 := by
    show leAt lightStream 10 2 = 300
    rw [leAt_two, lightStream_bytes.1, lightStream_bytes.2]
  refine ⟨_, LoadPmg_ok 512 lightStream rampTerrain lightStream_length, hl, ?_⟩
  rw [hs]
  show (pmgVertex lightStream 0 (0 * 5 + 0)).lighting % 256 = 44
  rw [hl]

/-- C6, amended: after a binary load every tile at row `tileRow` and column `tileCol` of
every chunk takes its corner heights 0, 1, 2, 3 from the heights, and its corner shadings
from the low byte of the lighting (the lighting modulo 256), of the vertex records number
`tileRow*5+tileCol`, `tileRow*5+tileCol+1`, `(tileRow+1)*5+tileCol` and
`(tileRow+1)*5+tileCol+1` of its chunk, all of them below 25; the height of a vertex record
is the little-endian signed 16-bit number at its start and the lighting the little-endian
16-bit number after it. -/
theorem LoadPmg_corners (w : Nat) (t : Terrain) (data : List Byte)
    (hlen : pmgChunkSize * 256 ≤ data.length) :
    ∃ t1, LoadPmg (grid w) t (some data) = .loaded t1 ∧
      ∀ k, k < 256 → ∀ tileRow, tileRow < 4 → ∀ tileCol, tileCol < 4 →
        (((t1.chunks_ k).tiles (tileCol + tileRow * 4)).height 0
              = (pmgVertex data k (tileRow * 5 + tileCol)).height
          ∧ ((t1.chunks_ k).tiles (tileCol + tileRow * 4)).height 1
              = (pmgVertex data k (tileRow * 5 + tileCol + 1)).height
          ∧ ((t1.chunks_ k).tiles (tileCol + tileRow * 4)).height 2
              = (pmgVertex data k ((tileRow + 1) * 5 + tileCol)).height
          ∧ ((t1.chunks_ k).tiles (tileCol + tileRow * 4)).height 3
              = (pmgVertex data k ((tileRow + 1) * 5 + tileCol + 1)).height)
        ∧ (((t1.chunks_ k).tiles (tileCol + tileRow * 4)).shading 0
              = (pmgVertex data k (tileRow * 5 + tileCol)).lighting % 256
          ∧ ((t1.chunks_ k).tiles (tileCol + tileRow * 4)).shading 1
              = (pmgVertex data k (tileRow * 5 + tileCol + 1)).lighting % 256
          ∧ ((t1.chunks_ k).tiles (tileCol + tileRow * 4)).shading 2
              = (pmgVertex data k ((tileRow + 1) * 5 + tileCol)).lighting % 256
          ∧ ((t1.chunks_ k).tiles (tileCol + tileRow * 4)).shading 3
              = (pmgVertex data k ((tileRow + 1) * 5 + tileCol + 1)).lighting % 256)
        ∧ (tileRow * 5 + tileCol < 25 ∧ tileRow * 5 + tileCol + 1 < 25
          ∧ (tileRow + 1) * 5 + tileCol < 25 ∧ (tileRow + 1) * 5 + tileCol + 1 < 25)
        ∧ ∀ i, i < 25 →
          (pmgVertex data k i).height
              = toSigned 16 (byteAt data (pmgChunkSize * k + 8 + 4 * i)
                  + 256 * byteAt data (pmgChunkSize * k + 8 + 4 * i + 1))
            ∧ (pmgVertex data k i).lighting
              = byteAt data (pmgChunkSize * k + 8 + 4 * i + 2)
                  + 256 * byteAt data (pmgChunkSize * k + 8 + 4 * i + 3) := by
  refine ⟨_, LoadPmg_ok w data t hlen, ?_⟩
  intro k hk tileRow hr tileCol hc
  rw [loaded_tile data t k tileRow tileCol hk hr hc]
  refine ⟨⟨rfl, rfl, rfl, rfl⟩, ⟨rfl, rfl, rfl, rfl⟩, ⟨by omega, by omega, by omega, by omega⟩,
    ?_⟩
  intro i _
  constructor <;> simp [pmgVertex, pmgVertexAt, leAt_two, Nat.add_assoc]

theorem LoadPmg_corners_witness :
    ∃ t1, LoadPmg (grid 512) rampTerrain (some lightStream) = .loaded t1 ∧
      ((t1.chunks_ 0).tiles (0 + 0 * 4)).height 0
        = (pmgVertex lightStream 0 (0 * 5 + 0)).height ∧
      ((t1.chunks_ 0).tiles (0 + 0 * 4)).shading 0
        = (pmgVertex lightStream 0 (0 * 5 + 0)).lighting % 256 :=
  match LoadPmg_corners 512 rampTerrain lightStream lightStream_length with
  | ⟨t1, h1, h2⟩ =>
    ⟨t1, h1, (h2 0 (by decide) 0 (by decide) 0 (by decide)).1.1,
      (h2 0 (by decide) 0 (by decide) 0 (by decide)).2.1.1⟩

/-- C7: the binary decode reads the chunk records in chunk index order and the tile records
of a chunk in row-major order: the tile `tile_x + tile_y*4` of the chunk `chunk_x +
chunk_y*16` comes from the tile record of that number of the chunk record of that number;
its rotation is the rotation byte of the record, its texture the little-endian 32-bit
texture index, and its slip is 0. -/
theorem LoadPmg_records (w : Nat) (t : Terrain) (data : List Byte)
    (hlen : pmgChunkSize * 256 ≤ data.length) :
    ∃ t1, LoadPmg (grid w) t (some data) = .loaded t1 ∧
      ∀ chunk_x, chunk_x < 16 → ∀ chunk_y, chunk_y < 16 →
      ∀ tile_x, tile_x < 4 → ∀ tile_y, tile_y < 4 →
        ((t1.chunks_ (chunk_x + chunk_y * 16)).tiles (tile_x + tile_y * 4)).rotation
            = byteAt data (pmgTileRecord (chunk_x + chunk_y * 16) (tile_x + tile_y * 4) + 10)
          ∧ ((t1.chunks_ (chunk_x + chunk_y * 16)).tiles (tile_x + tile_y * 4)).texture
            = byteAt data (pmgTileRecord (chunk_x + chunk_y * 16) (tile_x + tile_y * 4) + 11)
              + 256 * byteAt data
                  (pmgTileRecord (chunk_x + chunk_y * 16) (tile_x + tile_y * 4) + 12)
              + 65536 * byteAt data
                  (pmgTileRecord (chunk_x + chunk_y * 16) (tile_x + tile_y * 4) + 13)
              + 16777216 * byteAt data
                  (pmgTileRecord (chunk_x + chunk_y * 16) (tile_x + tile_y * 4) + 14)
          ∧ ((t1.chunks_ (chunk_x + chunk_y * 16)).tiles (tile_x + tile_y * 4)).slip = 0
          ∧ ((t1.chunks_ (chunk_x + chunk_y * 16)).tiles (tile_x + tile_y * 4)).surface
            = decodeSurface (byteAt data
                (pmgTileRecord (chunk_x + chunk_y * 16) (tile_x + tile_y * 4) + 6))
          ∧ ((t1.chunks_ (chunk_x + chunk_y * 16)).tiles (tile_x + tile_y * 4)).behaviour
            = decodeBehaviour (byteAt data
                (pmgTileRecord (chunk_x + chunk_y * 16) (tile_x + tile_y * 4) + 6)) := by
  refine ⟨_, LoadPmg_ok w data t hlen, ?_⟩
  intro chunk_x hcx chunk_y hcy tile_x htx tile_y hty
  rw [loaded_tile data t (chunk_x + chunk_y * 16) tile_y tile_x (by omega) hty htx]
  refine ⟨?_, ?_, ?_, ?_, ?_⟩ <;> simp [pmgTile, pmgTileAt, pmgTileRecord, leAt_four, Nat.add_assoc]

theorem LoadPmg_records_witness :
    ∃ t1, LoadPmg (grid 512) rampTerrain (some zeroStream) = .loaded t1 ∧
      ((t1.chunks_ (5 + 2 * 16)).tiles (3 + 1 * 4)).rotation
        = byteAt zeroStream (pmgTileRecord (5 + 2 * 16) (3 + 1 * 4) + 10) ∧
      ((t1.chunks_ (5 + 2 * 16)).tiles (3 + 1 * 4)).slip = 0 :=
  match LoadPmg_records 512 rampTerrain zeroStream zeroStream_length with
  | ⟨t1, h1, h2⟩ =>
    ⟨t1, h1, (h2 5 (by decide) 2 (by decide) 3 (by decide) 1 (by decide)).1,
      (h2 5 (by decide) 2 (by decide) 3 (by decide) 1 (by decide)).2.2.1⟩

set_option maxRecDepth 100000 in
/-- C9: for every packed type byte the decoded surface (`byte & 31`) and behaviour
(`byte & ~31`) have no bit in common and their union is the byte. -/
theorem decodeType_lossless (b : Byte) :
    decodeSurface b.val &&& decodeBehaviour b.val = 0
      ∧ decodeSurface b.val ||| decodeBehaviour b.val = b.val := by
  revert b
  decide

theorem probeStream_length : pmgChunkSize * 256 ≤ probeStream.length := by
  simp only [probeStream, List.length_append, List.length_replicate, List.length_cons,
    List.length_nil]
  decide

theorem surfaceStream_length : pmgChunkSize * 256 ≤ surfaceStream.length := by
  simp only [surfaceStream, List.length_append, List.length_replicate, List.length_cons,
    List.length_nil]
  decide

set_option maxRecDepth 100000 in
theorem probeStream_bytes :
    byteAt probeStream 376 = 1 ∧ byteAt probeStream 377 = 0
      ∧ byteAt probeStream 408 = 0 ∧ byteAt probeStream 409 = 0 := by
  decide

set_option maxRecDepth 100000 in
theorem surfaceStream_byte : byteAt surfaceStream 118 = 12 := by
  decide

/-- C8, as stated, fails: on a stream whose only non-zero byte is the one at offset 376 the
decoder gives the first corner of the first tile of chunk 1 the height 1, the number at
offset `368 + 8`, whereas the vertex record that a layout with 16 header bytes per chunk
and chunk records of 384 bytes places there, at offset `384 + 16 + 8`, holds 0. -/
theorem LoadPmg_no_chunk_header :
    ∃ t1, LoadPmg (grid 512) rampTerrain (some probeStream) = .loaded t1
      ∧ ((t1.chunks_ 1).tiles 0).height 0 = 1
      ∧ ((toSigned 16 (leAt probeStream (specVertexOffset 1 0) 2) : Int) : ℚ) = 0 := by
  refine ⟨_, LoadPmg_ok 512 probeStream rampTerrain probeStream_length, ?_, ?_⟩
  · have h := loaded_tile probeStream rampTerrain 1 0 0 (by decide) (by decide) (by decide)
    simp only [Nat.zero_mul, Nat.add_zero] at h
    rw [h]
    simp [pmgTile, pmgTileAt, pmgVertex, pmgVertexAt, pmgChunkSize, leAt_two,
      probeStream_bytes.1, probeStream_bytes.2.1, toSigned]
  · simp [specVertexOffset, leAt_two, probeStream_bytes.2.2.1, probeStream_bytes.2.2.2, toSigned]

/-- C8, amended: the decoder consumes each chunk record as, in order, the 8 byte chunk
offset record, 25 vertex records of 4 bytes (height, lighting), 4 padding bytes and 16 tile
records of 16 bytes (6 unused, the packed type at 6, slip at 7, 2 unused, rotation at 10,
texture at 11 to 14, 1 unused); no header precedes the chunk offset record, a chunk record
has 368 bytes and the record of chunk `k` starts at offset `368 * k` of the stream. -/
theorem readChunk_layout (w : Nat) (data : List Byte)
    (hlen : pmgChunkSize * 256 ≤ data.length) :
    pmgChunkSize = 8 + 25 * 4 + 4 + 16 * 16 ∧ pmgChunkSize = 368
      ∧ (∀ p i t V, p + 4 ≤ data.length →
          readVertex i (⟨data, p⟩, t, V) =
            .ok (⟨data, p + 4⟩, trackHeight t (pmgVertexAt data p 0).height,
              Function.update V i (pmgVertexAt data p 0)))
      ∧ (∀ q k V tile_y tile_x t, q + 16 ≤ data.length →
          readTile (grid w) k V tile_y tile_x (⟨data, q⟩, t) =
            .ok (⟨data, q + 16⟩,
              t.setTile k (tile_x + tile_y * 4) (pmgTileAt data V q tile_y tile_x)))
      ∧ (∀ p k t, p + pmgChunkSize ≤ data.length →
          ∃ t1, readChunk (grid w) k (⟨data, p⟩, t) = .ok (⟨data, p + pmgChunkSize⟩, t1)
            ∧ ∀ tile_y, tile_y < 4 → ∀ tile_x, tile_x < 4 →
              (t1.chunks_ k).tiles (tile_x + tile_y * 4)
                = pmgTileAt data (pmgVertexAt data (p + 8))
                    (p + 8 + 25 * 4 + 4 + 16 * (tile_x + tile_y * 4)) tile_y tile_x)
      ∧ (∀ t, ∃ t1, LoadPmg (grid w) t (some data) = .loaded t1
            ∧ ∀ k, k < 256 → ∀ tile_y, tile_y < 4 → ∀ tile_x, tile_x < 4 →
              (t1.chunks_ k).tiles (tile_x + tile_y * 4)
                = pmgTileAt data (pmgVertexAt data (368 * k + 8))
                    (368 * k + 8 + 25 * 4 + 4 + 16 * (tile_x + tile_y * 4)) tile_y tile_x) := by
  refine ⟨rfl, rfl, ?_, ?_, ?_, ?_⟩
  · intro p i t V h
    rw [readVertex_ok data p i t V h]
    simp [pmgVertexAt]
  · intro q k V tile_y tile_x t h
    exact readTile_ok (grid w) data q k tile_y tile_x t V h
  · intro p k t h
    refine ⟨_, readChunk_ok w data p k t h, ?_⟩
    intro tile_y hy tile_x hx
    have h16 : tile_x + tile_y * 4 < 16 := by omega
    have e1 : (tile_x + tile_y * 4) / 4 = tile_y := by omega
    have e2 : (tile_x + tile_y * 4) % 4 = tile_x := by omega
    simp only [setTilesUpTo, Function.update_same, h16, if_true, e1, e2]
  · intro t
    refine ⟨_, LoadPmg_ok w data t hlen, ?_⟩
    intro k hk tile_y hy tile_x hx
    rw [loaded_tile data t k tile_y tile_x hk hy hx]
    rfl

theorem readChunk_layout_witness :
    ∃ t1, LoadPmg (grid 512) rampTerrain (some zeroStream) = .loaded t1
      ∧ (t1.chunks_ 1).tiles (2 + 3 * 4)
        = pmgTileAt zeroStream (pmgVertexAt zeroStream (368 * 1 + 8))
            (368 * 1 + 8 + 25 * 4 + 4 + 16 * (2 + 3 * 4)) 3 2 :=
  match (readChunk_layout 512 zeroStream zeroStream_length).2.2.2.2.2 rampTerrain with
  | ⟨t1, h1, h2⟩ => ⟨t1, h1, h2 1 (by decide) 3 (by decide) 2 (by decide)⟩

/-- C10: the code does not keep the surface below 12.  On a stream whose first tile record
has the packed type byte 12 the load succeeds and leaves the surface 12 in the first tile,
an index outside the 12 entries of the palette `colours` of the overview. -/
theorem LoadPmg_surface_outside_palette :
    ∃ t1, LoadPmg (grid 512) rampTerrain (some surfaceStream) = .loaded t1
      ∧ ((t1.chunks_ 0).tiles 0).surface = 12
      ∧ colours.length = 12
      ∧ colours[((t1.chunks_ 0).tiles 0).surface]? = none := by
  have hs : ((Update (pmgAfter surfaceStream rampTerrain 256)).chunks_ 0).tiles 0
      = pmgTile surfaceStream 0 0 0 :=
    loaded_tile surfaceStream rampTerrain 0 0 0 (by decide) (by decide) (by decide)
  have h12 : (pmgTile surfaceStream 0 0 0).surface = 12 := by
    show decodeSurface (byteAt surfaceStream 118) = 12
    rw [surfaceStream_byte]
    decide
  refine ⟨_, LoadPmg_ok 512 surfaceStream rampTerrain surfaceStream_length, ?_, rfl, ?_⟩
  · rw [hs, h12]
  · rw [hs, h12]; rfl


/-! ## Seams and height bounds after a binary load -/

theorem pmgTile_height (data : List Byte) (k tile_y tile_x : Nat) :
    (pmgTile data k tile_y tile_x).height
      = ![((pmgVertex data k (tile_y * 5 + tile_x)).height : ℚ),
          ((pmgVertex data k (tile_y * 5 + tile_x + 1)).height : ℚ),
          ((pmgVertex data k ((tile_y + 1) * 5 + tile_x)).height : ℚ),
          ((pmgVertex data k ((tile_y + 1) * 5 + tile_x + 1)).height : ℚ)] := rfl

/-- C11, as stated, fails: on a stream whose only non-zero byte is the low byte of the
height of the first vertex record of chunk 1, the load succeeds, the east-most tile of the
first row of chunk 0 has the height 0 at its NE corner and its east neighbour, the first
tile of chunk 1, the height 1 at its NW corner. -/
theorem LoadPmg_seam_across_chunks :
    ∃ t1, LoadPmg (grid 512) rampTerrain (some probeStream) = .loaded t1
      ∧ ((t1.chunks_ 0).tiles 3).height 1 = 0
      ∧ ((t1.chunks_ 1).tiles 0).height 0 = 1 := by
  refine ⟨_, LoadPmg_ok 512 probeStream rampTerrain probeStream_length, ?_, ?_⟩
  · have h := loaded_tile probeStream rampTerrain 0 0 3 (by decide) (by decide) (by decide)
    simp only [Nat.zero_mul, Nat.add_zero] at h
    rw [h]
    have hb : byteAt probeStream 24 = 0 ∧ byteAt probeStream 25 = 0 := by decide
    simp [pmgTile, pmgTileAt, pmgVertex, pmgVertexAt, pmgChunkSize, leAt_two, hb.1, hb.2,
      toSigned]
  · have h := loaded_tile probeStream rampTerrain 1 0 0 (by decide) (by decide) (by decide)
    simp only [Nat.zero_mul, Nat.add_zero] at h
    rw [h]
    simp [pmgTile, pmgTileAt, pmgVertex, pmgVertexAt, pmgChunkSize, leAt_two,
      probeStream_bytes.1, probeStream_bytes.2.1, toSigned]

/-- C11, amended: after any successful binary load, every two tiles of the same chunk that
share an edge report identical heights at their shared corners: a tile and its east
neighbour in the chunk agree on `height[1] = height[0]` and `height[3] = height[2]`, a
tile and its south neighbour in the chunk on `height[2] = height[0]` and
`height[3] = height[1]`. -/
theorem LoadPmg_seam_in_chunk (w : Nat) (t : Terrain) (data : List Byte)
    (hlen : pmgChunkSize * 256 ≤ data.length) :
    ∃ t1, LoadPmg (grid w) t (some data) = .loaded t1 ∧
      ∀ k, k < 256 →
        (∀ tile_x tile_y, tile_x + 1 < 4 → tile_y < 4 →
          ((t1.chunks_ k).tiles (tile_x + tile_y * 4)).height 1
              = ((t1.chunks_ k).tiles (tile_x + 1 + tile_y * 4)).height 0
            ∧ ((t1.chunks_ k).tiles (tile_x + tile_y * 4)).height 3
              = ((t1.chunks_ k).tiles (tile_x + 1 + tile_y * 4)).height 2)
        ∧ (∀ tile_x tile_y, tile_x < 4 → tile_y + 1 < 4 →
          ((t1.chunks_ k).tiles (tile_x + tile_y * 4)).height 2
              = ((t1.chunks_ k).tiles (tile_x + (tile_y + 1) * 4)).height 0
            ∧ ((t1.chunks_ k).tiles (tile_x + tile_y * 4)).height 3
              = ((t1.chunks_ k).tiles (tile_x + (tile_y + 1) * 4)).height 1) := by
  refine ⟨_, LoadPmg_ok w data t hlen, ?_⟩
  intro k hk
  constructor
  · intro tile_x tile_y hx hy
    rw [loaded_tile data t k tile_y tile_x hk hy (by omega),
      loaded_tile data t k tile_y (tile_x + 1) hk hy hx]
    simp [pmgTile_height, Nat.add_assoc]
  · intro tile_x tile_y hx hy
    rw [loaded_tile data t k tile_y tile_x hk (by omega) hx,
      loaded_tile data t k (tile_y + 1) tile_x hk hy hx]
    simp [pmgTile_height]

theorem LoadPmg_seam_in_chunk_witness :
    ∃ t1, LoadPmg (grid 512) rampTerrain (some zeroStream) = .loaded t1 ∧
      ((t1.chunks_ 7).tiles (2 + 1 * 4)).height 1
        = ((t1.chunks_ 7).tiles (2 + 1 + 1 * 4)).height 0 :=
  match LoadPmg_seam_in_chunk 512 rampTerrain zeroStream zeroStream_length with
  | ⟨t1, h1, h2⟩ => ⟨t1, h1, ((h2 7 (by decide)).1 2 1 (by decide) (by decide)).1⟩

theorem trackHeight_max (t : Terrain) (h : Int) :
    (trackHeight t h).max_height_ = max t.max_height_ (h : ℚ) := by
  unfold trackHeight
  simp only []
  by_cases h1 : (h : ℚ) > t.max_height_
  · rw [if_pos h1, max_eq_right (le_of_lt h1)]
    split_ifs <;> rfl
  · rw [if_neg h1, max_eq_left (not_lt.1 h1)]
    split_ifs <;> rfl

theorem trackHeight_min (t : Terrain) (h : Int) :
    (trackHeight t h).min_height_ = min t.min_height_ (h : ℚ) := by
  unfold trackHeight
  simp only []
  by_cases h1 : (h : ℚ) > t.max_height_
  · rw [if_pos h1]
    by_cases h2 : (h : ℚ) < t.min_height_
    · rw [if_pos h2, min_eq_right (le_of_lt h2)]
    · rw [if_neg h2, min_eq_left (not_lt.1 h2)]
  · rw [if_neg h1]
    by_cases h2 : (h : ℚ) < t.min_height_
    · rw [if_pos h2, min_eq_right (le_of_lt h2)]
    · rw [if_neg h2, min_eq_left (not_lt.1 h2)]

theorem IsMaxWith_zero (pre : ℚ) (h : Nat → ℚ) : IsMaxWith pre pre 0 h :=
  ⟨le_refl _, fun _ hi => absurd hi (Nat.not_lt_zero _), Or.inl rfl⟩

theorem IsMinWith_zero (pre : ℚ) (h : Nat → ℚ) : IsMinWith pre pre 0 h :=
  ⟨le_refl _, fun _ hi => absurd hi (Nat.not_lt_zero _), Or.inl rfl⟩

theorem IsMaxWith_succ {pre post : ℚ} {n : Nat} {h : Nat → ℚ} (hm : IsMaxWith pre post n h) :
    IsMaxWith pre (max post (h n)) (n + 1) h := by
  obtain ⟨h1, h2, h3⟩ := hm
  refine ⟨le_trans h1 (le_max_left _ _), ?_, ?_⟩
  · intro i hi
    rcases Nat.lt_succ_iff_lt_or_eq.1 hi with hlt | heq
    · exact le_trans (h2 i hlt) (le_max_left _ _)
    · subst heq; exact le_max_right _ _
  · rcases le_total post (h n) with hle | hle
    · rw [max_eq_right hle]
      exact Or.inr ⟨n, Nat.lt_succ_self n, rfl⟩
    · rw [max_eq_left hle]
      rcases h3 with h3 | ⟨i, hi, h3⟩
      · exact Or.inl h3
      · exact Or.inr ⟨i, Nat.lt_succ_of_lt hi, h3⟩

theorem IsMinWith_succ {pre post : ℚ} {n : Nat} {h : Nat → ℚ} (hm : IsMinWith pre post n h) :
    IsMinWith pre (min post (h n)) (n + 1) h := by
  obtain ⟨h1, h2, h3⟩ := hm
  refine ⟨le_trans (min_le_left _ _) h1, ?_, ?_⟩
  · intro i hi
    rcases Nat.lt_succ_iff_lt_or_eq.1 hi with hlt | heq
    · exact le_trans (min_le_left _ _) (h2 i hlt)
    · subst heq; exact min_le_right _ _
  · rcases le_total post (h n) with hle | hle
    · rw [min_eq_left hle]
      rcases h3 with h3 | ⟨i, hi, h3⟩
      · exact Or.inl h3
      · exact Or.inr ⟨i, Nat.lt_succ_of_lt hi, h3⟩
    · rw [min_eq_right hle]
      exact Or.inr ⟨n, Nat.lt_succ_self n, rfl⟩

theorem trackVertices_succ (data : List Byte) (p : Nat) (t : Terrain) (n : Nat) :
    trackVertices data p t (n + 1)
      = trackHeight (trackVertices data p t n) (pmgVertexAt data p n).height := by
  simp [trackVertices, List.range_succ]

theorem pmgHeight_chunk (data : List Byte) (K i : Nat) (hi : i < 25) :
    pmgHeight data (25 * K + i) = ((pmgVertexAt data (pmgChunkSize * K + 8) i).height : ℚ) := by
  have h1 : (25 * K + i) / 25 = K := by omega
  have h2 : (25 * K + i) % 25 = i := by omega
  simp only [pmgHeight, pmgVertex, h1, h2]

theorem trackVertices_max (data : List Byte) (t t0 : Terrain) (K n : Nat) (hn : n ≤ 25)
    (hm : IsMaxWith t0.max_height_ t.max_height_ (25 * K) (pmgHeight data)) :
    IsMaxWith t0.max_height_ (trackVertices data (pmgChunkSize * K + 8) t n).max_height_
      (25 * K + n) (pmgHeight data) := by
  induction n with
  | zero => exact hm
  | succ n ih =>
    have h := IsMaxWith_succ (ih (Nat.le_of_succ_le hn))
    rw [pmgHeight_chunk data K n (by omega)] at h
    rw [trackVertices_succ, trackHeight_max]
    exact h

theorem trackVertices_min (data : List Byte) (t t0 : Terrain) (K n : Nat) (hn : n ≤ 25)
    (hm : IsMinWith t0.min_height_ t.min_height_ (25 * K) (pmgHeight data)) :
    IsMinWith t0.min_height_ (trackVertices data (pmgChunkSize * K + 8) t n).min_height_
      (25 * K + n) (pmgHeight data) := by
  induction n with
  | zero => exact hm
  | succ n ih =>
    have h := IsMinWith_succ (ih (Nat.le_of_succ_le hn))
    rw [pmgHeight_chunk data K n (by omega)] at h
    rw [trackVertices_succ, trackHeight_min]
    exact h

theorem pmgTrack_max (data : List Byte) (t : Terrain) (K : Nat) :
    IsMaxWith t.max_height_ (pmgTrack data t K).max_height_ (25 * K) (pmgHeight data) := by
  induction K with
  | zero => exact IsMaxWith_zero _ _
  | succ K ih =>
    rw [pmgTrack_succ]
    exact trackVertices_max data _ t K 25 (le_refl _) ih

theorem pmgTrack_min (data : List Byte) (t : Terrain) (K : Nat) :
    IsMinWith t.min_height_ (pmgTrack data t K).min_height_ (25 * K) (pmgHeight data) := by
  induction K with
  | zero => exact IsMinWith_zero _ _
  | succ K ih =>
    rw [pmgTrack_succ]
    exact trackVertices_min data _ t K 25 (le_refl _) ih

theorem loaded_max (data : List Byte) (t : Terrain) :
    (Update (pmgAfter data t 256)).max_height_ = (pmgTrack data t 256).max_height_ := rfl

theorem loaded_min (data : List Byte) (t : Terrain) :
    (Update (pmgAfter data t 256)).min_height_ = (pmgTrack data t 256).min_height_ := rfl

theorem pmgTile_corner (data : List Byte) (k tile_y tile_x : Nat) (hk : k < 256)
    (hy : tile_y < 4) (hx : tile_x < 4) (corner : Fin 4) :
    ∃ v, v < 25 * 256 ∧ (pmgTile data k tile_y tile_x).height corner = pmgHeight data v := by
  have e : ∀ i, i < 25 → ((pmgVertex data k i).height : ℚ) = pmgHeight data (25 * k + i) := by
    intro i hi
    rw [pmgHeight_chunk data k i hi]
    rfl
  rw [pmgTile_height]
  fin_cases corner
  · exact ⟨25 * k + (tile_y * 5 + tile_x), by omega, e _ (by omega)⟩
  · exact ⟨25 * k + (tile_y * 5 + tile_x + 1), by omega, e _ (by omega)⟩
  · exact ⟨25 * k + ((tile_y + 1) * 5 + tile_x), by omega, e _ (by omega)⟩
  · exact ⟨25 * k + ((tile_y + 1) * 5 + tile_x + 1), by omega, e _ (by omega)⟩

/-- C16: after a successful binary load `minHeight <= h <= maxHeight` holds for every
corner height `h` of every tile of the grid, and `maxHeight` (`minHeight`) is the larger
(smaller) of its value before the load and the maximum (minimum) of the `256 * 25` vertex
heights read. -/
theorem LoadPmg_height_bounds (w : Nat) (t : Terrain) (data : List Byte)
    (hlen : pmgChunkSize * 256 ≤ data.length) :
    ∃ t1, LoadPmg (grid w) t (some data) = .loaded t1
      ∧ (∀ k, k < 256 → ∀ tile_y, tile_y < 4 → ∀ tile_x, tile_x < 4 → ∀ corner : Fin 4,
          t1.min_height_ ≤ ((t1.chunks_ k).tiles (tile_x + tile_y * 4)).height corner
            ∧ ((t1.chunks_ k).tiles (tile_x + tile_y * 4)).height corner ≤ t1.max_height_)
      ∧ IsMaxWith t.max_height_ t1.max_height_ (256 * 25) (pmgHeight data)
      ∧ IsMinWith t.min_height_ t1.min_height_ (256 * 25) (pmgHeight data) := by
  have hmax := pmgTrack_max data t 256
  have hmin := pmgTrack_min data t 256
  refine ⟨_, LoadPmg_ok w data t hlen, ?_, ?_, ?_⟩
  · intro k hk tile_y hy tile_x hx corner
    rw [loaded_tile data t k tile_y tile_x hk hy hx, loaded_max, loaded_min]
    obtain ⟨v, hv, e⟩ := pmgTile_corner data k tile_y tile_x hk hy hx corner
    rw [e]
    exact ⟨hmin.2.1 v hv, hmax.2.1 v hv⟩
  · rw [loaded_max]; exact hmax
  · rw [loaded_min]; exact hmin

theorem LoadPmg_height_bounds_witness :
    ∃ t1, LoadPmg (grid 512) rampTerrain (some zeroStream) = .loaded t1
      ∧ (t1.min_height_ ≤ ((t1.chunks_ 9).tiles (1 + 2 * 4)).height 3
        ∧ ((t1.chunks_ 9).tiles (1 + 2 * 4)).height 3 ≤ t1.max_height_)
      ∧ IsMaxWith rampTerrain.max_height_ t1.max_height_ (256 * 25) (pmgHeight zeroStream)
      ∧ IsMinWith rampTerrain.min_height_ t1.min_height_ (256 * 25) (pmgHeight zeroStream) :=
  match LoadPmg_height_bounds 512 rampTerrain zeroStream zeroStream_length with
  | ⟨t1, h1, h2, h3, h4⟩ => ⟨t1, h1, h2 9 (by decide) 2 (by decide) 1 (by decide) 3, h3, h4⟩

/-! ## Mesh generation -/

theorem rot90_eq (x : Fin 4 → ℚ) : rot90 x = quarterTurn x := by
  funext i
  fin_cases i <;> simp [rot90, quarterTurn, Function.update]

theorem GenerateModel_vertex (w : Nat) (f : RotationFlags) (atlas : Nat → ℚ × ℚ × ℚ × ℚ)
    (chunk : Chunk) (offset : PLVector2) (tile_y tile_x i : Nat)
    (hy : tile_y < 4) (hx : tile_x < 4) (hi : i < 4) :
    GenerateModel (grid w) f atlas chunk offset (4 * (tile_x + tile_y * 4) + i)
      = some (meshVertex (grid w) f atlas chunk offset tile_y tile_x i) := by
  interval_cases tile_y <;> interval_cases tile_x <;> interval_cases i <;> rfl

theorem GenerateModel_st (w : Nat) (f : RotationFlags) (atlas : Nat → ℚ × ℚ × ℚ × ℚ)
    (chunk : Chunk) (offset : PLVector2) (tile_y tile_x : Nat) (tile : Tile)
    (hy : tile_y < 4) (hx : tile_x < 4) (htile : chunk.tiles (tile_x + tile_y * 4) = tile)
    (i : Fin 4) :
    ∃ v, GenerateModel (grid w) f atlas chunk offset (4 * (tile_x + tile_y * 4) + i.val) = some v
      ∧ v.st = ((tileST f tile.rotation (atlas tile.texture)).1 i,
          (tileST f tile.rotation (atlas tile.texture)).2 i) := by
  refine ⟨_, GenerateModel_vertex w f atlas chunk offset tile_y tile_x i.val hy hx i.isLt, ?_⟩
  have e : chunk.tiles (tile_x + tile_y * (grid w).TERRAIN_CHUNK_ROW_TILES) = tile := htile
  have hi : (Fin.ofNat i.val : Fin 4) = i := by
    fin_cases i <;> rfl
  simp only [meshVertex, e, hi]

theorem rotateST_cases (f : RotationFlags) (rotation : Nat) (st : (Fin 4 → ℚ) × (Fin 4 → ℚ)) :
    rotateST f rotation st
      = (quarterTurn^[(if rotation &&& f.ROTATION_FLAG_ROTATE_90 ≠ 0 then 1 else 0)
            + 2 * (if rotation &&& f.ROTATION_FLAG_ROTATE_180 ≠ 0 then 1 else 0)] st.1,
          quarterTurn^[(if rotation &&& f.ROTATION_FLAG_ROTATE_90 ≠ 0 then 1 else 0)
            + 2 * (if rotation &&& f.ROTATION_FLAG_ROTATE_180 ≠ 0 then 1 else 0)] st.2) := by
  unfold rotateST
  simp only [rot90_eq]
  by_cases h1 : rotation &&& f.ROTATION_FLAG_ROTATE_90 ≠ 0
  · by_cases h2 : rotation &&& f.ROTATION_FLAG_ROTATE_180 ≠ 0
    · simp only [if_pos h1, if_pos h2]; rfl
    · simp only [if_pos h1, if_neg h2]; rfl
  · by_cases h2 : rotation &&& f.ROTATION_FLAG_ROTATE_180 ≠ 0
    · simp only [if_neg h1, if_pos h2]; rfl
    · simp only [if_neg h1, if_neg h2]; rfl

/-- C19: for every tile with both the rotate-90 and the rotate-180 flag set, the U and V
corner arrays that mesh generation emits are the unrotated corner arrays with the quarter
turn `[a0, a1, a2, a3] -> [a2, a0, a3, a1]` applied three times, to U and V alike; with only
rotate-90 set it is applied once and with only rotate-180 twice.  The lambda `rot90` of the
code is that quarter turn. -/
theorem GenerateModel_rotation (w : Nat) (f : RotationFlags) (atlas : Nat → ℚ × ℚ × ℚ × ℚ)
    (chunk : Chunk) (offset : PLVector2) (tile_y tile_x : Nat) (tile : Tile)
    (hy : tile_y < 4) (hx : tile_x < 4) (htile : chunk.tiles (tile_x + tile_y * 4) = tile) :
    (∀ i : Fin 4, ∃ v,
        GenerateModel (grid w) f atlas chunk offset (4 * (tile_x + tile_y * 4) + i.val) = some v
          ∧ v.st = ((tileST f tile.rotation (atlas tile.texture)).1 i,
              (tileST f tile.rotation (atlas tile.texture)).2 i))
      ∧ (∀ a : Fin 4 → ℚ, rot90 a = ![a 2, a 0, a 3, a 1] ∧ quarterTurn a = ![a 2, a 0, a 3, a 1])
      ∧ (tile.rotation &&& f.ROTATION_FLAG_ROTATE_90 ≠ 0 →
          tile.rotation &&& f.ROTATION_FLAG_ROTATE_180 ≠ 0 →
          tileST f tile.rotation (atlas tile.texture)
            = (quarterTurn (quarterTurn (quarterTurn
                  (cornerST (flipRect f tile.rotation (atlas tile.texture))).1)),
                quarterTurn (quarterTurn (quarterTurn
                  (cornerST (flipRect f tile.rotation (atlas tile.texture))).2))))
      ∧ (tile.rotation &&& f.ROTATION_FLAG_ROTATE_90 ≠ 0 →
          ¬ (tile.rotation &&& f.ROTATION_FLAG_ROTATE_180 ≠ 0) →
          tileST f tile.rotation (atlas tile.texture)
            = (quarterTurn (cornerST (flipRect f tile.rotation (atlas tile.texture))).1,
                quarterTurn (cornerST (flipRect f tile.rotation (atlas tile.texture))).2))
      ∧ (¬ (tile.rotation &&& f.ROTATION_FLAG_ROTATE_90 ≠ 0) →
          tile.rotation &&& f.ROTATION_FLAG_ROTATE_180 ≠ 0 →
          tileST f tile.rotation (atlas tile.texture)
            = (quarterTurn (quarterTurn
                  (cornerST (flipRect f tile.rotation (atlas tile.texture))).1),
                quarterTurn (quarterTurn
                  (cornerST (flipRect f tile.rotation (atlas tile.texture))).2))) := by
  refine ⟨GenerateModel_st w f atlas chunk offset tile_y tile_x tile hy hx htile,
    fun a => ⟨by rw [rot90_eq]; rfl, rfl⟩, ?_, ?_, ?_⟩
  · intro h1 h2
    rw [tileST, rotateST_cases, if_pos h1, if_pos h2]
    rfl
  · intro h1 h2
    rw [tileST, rotateST_cases, if_pos h1, if_neg h2]
    rfl
  · intro h1 h2
    rw [tileST, rotateST_cases, if_neg h1, if_pos h2]
    rfl

theorem GenerateModel_rotation_witness :
    tileST sampleFlags sampleTile.rotation (sampleAtlas sampleTile.texture)
      = (quarterTurn (quarterTurn (quarterTurn
            (cornerST (flipRect sampleFlags sampleTile.rotation
              (sampleAtlas sampleTile.texture))).1)),
          quarterTurn (quarterTurn (quarterTurn
            (cornerST (flipRect sampleFlags sampleTile.rotation
              (sampleAtlas sampleTile.texture))).2))) :=
  (GenerateModel_rotation 512 sampleFlags sampleAtlas sampleChunk ⟨0, 0⟩ 1 2 sampleTile
    (by decide) (by decide) rfl).2.2.1 (by decide) (by decide)

/-- C20: for every atlas rectangle `(u0, v0, w, h)` and every combination of the rotation
flags with flip-X set, the UV corners that mesh generation emits are the rotation by `k`
quarter turns, `k = [rotate-90 set] + 2 * [rotate-180 set]`, of the corners
`(u0', v0), (u0' + w', v0), (u0', v0 + h), (u0' + w', v0 + h)` of the mirrored rectangle
`u0' = u0 + w`, `w' = -w`: the flip is applied before the rotation.  With no rotation flag
set the U coordinates are those of the unflipped tile with NW and NE swapped and SW and SE
swapped, and the V coordinates are those of the unflipped tile. -/
theorem GenerateModel_flip (w : Nat) (f : RotationFlags) (atlas : Nat → ℚ × ℚ × ℚ × ℚ)
    (chunk : Chunk) (offset : PLVector2) (tile_y tile_x : Nat) (tile : Tile)
    (u0 v0 wd h : ℚ)
    (hy : tile_y < 4) (hx : tile_x < 4) (htile : chunk.tiles (tile_x + tile_y * 4) = tile)
    (hrect : atlas tile.texture = (u0, v0, wd, h))
    (hflip : tile.rotation &&& f.ROTATION_FLAG_X ≠ 0) :
    (∀ i : Fin 4, ∃ v,
        GenerateModel (grid w) f atlas chunk offset (4 * (tile_x + tile_y * 4) + i.val) = some v
          ∧ v.st = ((tileST f tile.rotation (u0, v0, wd, h)).1 i,
              (tileST f tile.rotation (u0, v0, wd, h)).2 i))
      ∧ tileST f tile.rotation (u0, v0, wd, h)
        = (quarterTurn^[(if tile.rotation &&& f.ROTATION_FLAG_ROTATE_90 ≠ 0 then 1 else 0)
              + 2 * (if tile.rotation &&& f.ROTATION_FLAG_ROTATE_180 ≠ 0 then 1 else 0)]
            ![u0 + wd, (u0 + wd) + (-wd), u0 + wd, (u0 + wd) + (-wd)],
          quarterTurn^[(if tile.rotation &&& f.ROTATION_FLAG_ROTATE_90 ≠ 0 then 1 else 0)
              + 2 * (if tile.rotation &&& f.ROTATION_FLAG_ROTATE_180 ≠ 0 then 1 else 0)]
            ![v0, v0, v0 + h, v0 + h])
      ∧ (¬ (tile.rotation &&& f.ROTATION_FLAG_ROTATE_90 ≠ 0) →
          ¬ (tile.rotation &&& f.ROTATION_FLAG_ROTATE_180 ≠ 0) →
          (tileST f tile.rotation (u0, v0, wd, h)).1
              = ![(cornerST (u0, v0, wd, h)).1 1, (cornerST (u0, v0, wd, h)).1 0,
                  (cornerST (u0, v0, wd, h)).1 3, (cornerST (u0, v0, wd, h)).1 2]
            ∧ (tileST f tile.rotation (u0, v0, wd, h)).2 = (cornerST (u0, v0, wd, h)).2) := by
  have hst := GenerateModel_st w f atlas chunk offset tile_y tile_x tile hy hx htile
  rw [hrect] at hst
  have hT : tileST f tile.rotation (u0, v0, wd, h)
      = rotateST f tile.rotation
          (![u0 + wd, (u0 + wd) + (-wd), u0 + wd, (u0 + wd) + (-wd)],
            ![v0, v0, v0 + h, v0 + h]) := by
    simp only [tileST, flipRect, if_pos hflip, cornerST]
  refine ⟨hst, ?_, ?_⟩
  · rw [hT, rotateST_cases]
  · intro h1 h2
    rw [hT, rotateST_cases, if_neg h1, if_neg h2]
    constructor
    · funext i
      fin_cases i <;> simp [cornerST]
    · rfl

theorem GenerateModel_flip_witness :
    tileST sampleFlags sampleTile.rotation (1 / 4, 1 / 2, 1 / 8, 1 / 16)
      = (quarterTurn^[(if sampleTile.rotation &&& sampleFlags.ROTATION_FLAG_ROTATE_90 ≠ 0
              then 1 else 0)
            + 2 * (if sampleTile.rotation &&& sampleFlags.ROTATION_FLAG_ROTATE_180 ≠ 0
              then 1 else 0)]
          ![1 / 4 + 1 / 8, (1 / 4 + 1 / 8) + (-(1 / 8)), 1 / 4 + 1 / 8,
            (1 / 4 + 1 / 8) + (-(1 / 8))],
        quarterTurn^[(if sampleTile.rotation &&& sampleFlags.ROTATION_FLAG_ROTATE_90 ≠ 0
              then 1 else 0)
            + 2 * (if sampleTile.rotation &&& sampleFlags.ROTATION_FLAG_ROTATE_180 ≠ 0
              then 1 else 0)]
          ![1 / 2, 1 / 2, 1 / 2 + 1 / 16, 1 / 2 + 1 / 16]) :=
  (GenerateModel_flip 512 sampleFlags sampleAtlas sampleChunk ⟨0, 0⟩ 1 2 sampleTile
    (1 / 4) (1 / 2) (1 / 8) (1 / 16) (by decide) (by decide) rfl rfl (by decide)).2.1

/-! ## Loops that cannot abort -/

theorem forEach_eq {σ : Type} (body : Nat → σ → σ) (f : Nat → σ) (n : Nat)
    (hstep : ∀ i, i < n → body i (f i) = f (i + 1)) :
    forEach body n (f 0) = f n := by
  induction n with
  | zero => rfl
  | succ n ih =>
    show body n (forEach body n (f 0)) = _
    rw [ih (fun i hi => hstep i (Nat.lt_succ_of_lt hi))]
    exact hstep n (Nat.lt_succ_self n)

theorem forEach_inv {σ : Type} (body : Nat → σ → σ) (P : Nat → σ → Prop) (n : Nat) (s : σ)
    (h0 : P 0 s) (hstep : ∀ i s1, i < n → P i s1 → P (i + 1) (body i s1)) :
    P n (forEach body n s) := by
  induction n with
  | zero => exact h0
  | succ n ih =>
    exact hstep n _ (Nat.lt_succ_self n)
      (ih (fun i s1 hi hp => hstep i s1 (Nat.lt_succ_of_lt hi) hp))

theorem forEach_congr {σ : Type} (body body2 : Nat → σ → σ) (n : Nat)
    (h : ∀ i, i < n → body i = body2 i) (s : σ) :
    forEach body n s = forEach body2 n s := by
  induction n with
  | zero => rfl
  | succ n ih =>
    show body n (forEach body n s) = body2 n (forEach body2 n s)
    rw [ih (fun i hi => h i (Nat.lt_succ_of_lt hi)), h n (Nat.lt_succ_self n)]

theorem forEach_add {σ : Type} (body : Nat → σ → σ) (a b : Nat) (s : σ) :
    forEach body (a + b) s = forEach (fun i => body (a + i)) b (forEach body a s) := by
  induction b with
  | zero => rfl
  | succ b ih =>
    show body (a + b) (forEach body (a + b) s) = _
    rw [ih]
    rfl

theorem forEach_nested {σ : Type} (body : Nat → Nat → σ → σ) (m n : Nat) (hm : 0 < m) (s : σ) :
    forEach (fun y => forEach (fun x => body y x) m) n s =
      forEach (fun j => body (j / m) (j % m)) (m * n) s := by
  induction n with
  | zero => rfl
  | succ n ih =>
    rw [Nat.mul_succ, forEach_add (fun j => body (j / m) (j % m)) (m * n) m, ← ih]
    show forEach (fun x => body n x) m _ = _
    apply forEach_congr
    intro i hi
    have h1 : (m * n + i) / m = n := by
      rw [Nat.mul_add_div hm, Nat.div_eq_of_lt hi, Nat.add_zero]
    have h2 : (m * n + i) % m = i := by
      rw [Nat.mul_add_mod, Nat.mod_eq_of_lt hi]
    simp only [h1, h2]

/-! ## The heightmap loader, loop by loop -/

theorem trackFloat_max (t : Terrain) (h : ℚ) :
    (trackFloat t h).max_height_ = max t.max_height_ h := by
  unfold trackFloat
  simp only []
  by_cases h1 : h > t.max_height_
  · rw [if_pos h1, max_eq_right (le_of_lt h1)]
    split_ifs <;> rfl
  · rw [if_neg h1, max_eq_left (not_lt.1 h1)]
    split_ifs <;> rfl

theorem trackFloat_min (t : Terrain) (h : ℚ) :
    (trackFloat t h).min_height_ = min t.min_height_ h := by
  unfold trackFloat
  simp only []
  by_cases h1 : h > t.max_height_
  · rw [if_pos h1]
    by_cases h2 : h < t.min_height_
    · rw [if_pos h2, min_eq_right (le_of_lt h2)]
    · rw [if_neg h2, min_eq_left (not_lt.1 h2)]
  · rw [if_neg h1]
    by_cases h2 : h < t.min_height_
    · rw [if_pos h2, min_eq_right (le_of_lt h2)]
    · rw [if_neg h2, min_eq_left (not_lt.1 h2)]

theorem trackFloat_chunks (t : Terrain) (h : ℚ) : (trackFloat t h).chunks_ = t.chunks_ := by
  unfold trackFloat
  simp only []
  split_ifs <;> rfl

theorem trackFloat_updates (t : Terrain) (h : ℚ) : (trackFloat t h).updates = t.updates := by
  unfold trackFloat
  simp only []
  split_ifs <;> rfl

theorem minMaxStep_eq (chunk v : Nat) (t s : Terrain) (hc : s.chunks_ = t.chunks_) :
    minMaxStep chunk v s = trackFloat s (chunkCorner t chunk v) := by
  unfold minMaxStep chunkCorner
  rw [hc]

theorem minMaxLoop_inv (chunk : Nat) (t s0 : Terrain) (hc0 : s0.chunks_ = t.chunks_) (n : Nat) :
    (forEach (minMaxStep chunk) n s0).chunks_ = t.chunks_
      ∧ (forEach (minMaxStep chunk) n s0).updates = s0.updates
      ∧ IsMaxWith s0.max_height_ (forEach (minMaxStep chunk) n s0).max_height_ n
          (chunkCorner t chunk)
      ∧ IsMinWith s0.min_height_ (forEach (minMaxStep chunk) n s0).min_height_ n
          (chunkCorner t chunk) := by
  induction n with
  | zero => exact ⟨hc0, rfl, IsMaxWith_zero _ _, IsMinWith_zero _ _⟩
  | succ n ih =>
    obtain ⟨hc, hu, hmax, hmin⟩ := ih
    have e : forEach (minMaxStep chunk) (n + 1) s0
        = trackFloat (forEach (minMaxStep chunk) n s0) (chunkCorner t chunk n) :=
      minMaxStep_eq chunk n t _ hc
    rw [e]
    refine ⟨?_, ?_, ?_, ?_⟩
    · rw [trackFloat_chunks, hc]
    · rw [trackFloat_updates, hu]
    · rw [trackFloat_max]; exact IsMaxWith_succ hmax
    · rw [trackFloat_min]; exact IsMinWith_succ hmin

theorem heightmapMinMax_flat (w chunk : Nat) (t : Terrain) :
    heightmapMinMax (grid w) chunk t
      = forEach (minMaxStep chunk) (4 * 16)
          { t with max_height_ := ((t.chunks_ chunk).tiles 0).height 0,
                   min_height_ := ((t.chunks_ chunk).tiles 0).height 0 } := by
  have hb : (fun (j : Nat) (s : Terrain) =>
      trackFloat s (((s.chunks_ chunk).tiles (j / 4)).height (Fin.ofNat (j % 4))))
      = minMaxStep chunk := rfl
  have h := forEach_nested
    (fun tile i s => trackFloat s (((s.chunks_ chunk).tiles tile).height (Fin.ofNat i)))
    4 16 (by decide)
    { t with max_height_ := ((t.chunks_ chunk).tiles 0).height 0,
             min_height_ := ((t.chunks_ chunk).tiles 0).height 0 }
  simp only [hb] at h
  rw [← h]
  rfl

theorem chunkCorner_tile (t : Terrain) (chunk j : Nat) (corner : Fin 4) :
    chunkCorner t chunk (4 * j + corner.val) = ((t.chunks_ chunk).tiles j).height corner := by
  have h1 : (4 * j + corner.val) / 4 = j := by omega
  have h3 : (4 * j + corner.val) % 4 = corner.val := by omega
  have h2 : (Fin.ofNat corner.val : Fin 4) = corner := by
    fin_cases corner <;> rfl
  simp only [chunkCorner, h1, h3, h2]

theorem heightmapMinMax_spec (w chunk : Nat) (t : Terrain) :
    (heightmapMinMax (grid w) chunk t).chunks_ = t.chunks_
      ∧ (heightmapMinMax (grid w) chunk t).updates = t.updates
      ∧ ChunkMinMax (heightmapMinMax (grid w) chunk t) chunk := by
  rw [heightmapMinMax_flat]
  obtain ⟨hc, hu, hmax, hmin⟩ := minMaxLoop_inv chunk t
    { t with max_height_ := ((t.chunks_ chunk).tiles 0).height 0,
             min_height_ := ((t.chunks_ chunk).tiles 0).height 0 } rfl (4 * 16)
  have hback : ∀ v, v < 4 * 16 → ∃ j, j < 16 ∧ ∃ corner : Fin 4,
      chunkCorner t chunk v = ((t.chunks_ chunk).tiles j).height corner := by
    intro v hv
    exact ⟨v / 4, by omega, Fin.ofNat (v % 4), rfl⟩
  have h0 : ((t.chunks_ chunk).tiles 0).height 0 = chunkCorner t chunk 0 := rfl
  refine ⟨hc, hu, ?_, ?_, ?_⟩
  · intro j hj corner
    rw [hc, ← chunkCorner_tile t chunk j corner]
    have hv : 4 * j + corner.val < 4 * 16 := by omega
    exact ⟨hmin.2.1 _ hv, hmax.2.1 _ hv⟩
  · rw [hc]
    rcases hmax.2.2 with h | ⟨v, hv, h⟩
    · rw [h]; exact ⟨0, by decide, 0, rfl⟩
    · rw [h]; exact hback v hv
  · rw [hc]
    rcases hmin.2.2 with h | ⟨v, hv, h⟩
    · rw [h]; exact ⟨0, by decide, 0, rfl⟩
    · rw [h]; exact hback v hv

theorem heightmapTiles_ok (w : Nat) (rchan : Nat → ℚ) (gchan : Nat → Nat) (chunk_y chunk_x : Nat)
    (t : Terrain) :
    forEach (fun tile_y =>
        forEach (fun tile_x => heightmapTileBody (grid w) rchan gchan chunk_y chunk_x tile_y tile_x)
          (grid w).TERRAIN_CHUNK_ROW_TILES) (grid w).TERRAIN_CHUNK_ROW_TILES t
      = setTilesUpTo t (chunk_x + chunk_y * 16)
          (fun j => heightmapTile rchan gchan chunk_y chunk_x (j / 4) (j % 4)
            ((t.chunks_ (chunk_x + chunk_y * 16)).tiles j)) 16 := by
  show forEach (fun tile_y =>
    forEach (fun tile_x => heightmapTileBody (grid w) rchan gchan chunk_y chunk_x tile_y tile_x)
      4) 4 t = _
  rw [forEach_nested
    (fun tile_y tile_x => heightmapTileBody (grid w) rchan gchan chunk_y chunk_x tile_y tile_x)
    4 4 (by decide)]
  have key := forEach_eq
    (fun j => heightmapTileBody (grid w) rchan gchan chunk_y chunk_x (j / 4) (j % 4))
    (fun n => setTilesUpTo t (chunk_x + chunk_y * 16)
      (fun j => heightmapTile rchan gchan chunk_y chunk_x (j / 4) (j % 4)
        ((t.chunks_ (chunk_x + chunk_y * 16)).tiles j)) n) 16
    (by
      intro i _
      have e2 : i % 4 + i / 4 * 4 = i := by omega
      simp only [heightmapTileBody, grid, e2]
      have e3 : ((setTilesUpTo t (chunk_x + chunk_y * 16)
          (fun j => heightmapTile rchan gchan chunk_y chunk_x (j / 4) (j % 4)
            ((t.chunks_ (chunk_x + chunk_y * 16)).tiles j)) i).chunks_
              (chunk_x + chunk_y * 16)).tiles i
          = (t.chunks_ (chunk_x + chunk_y * 16)).tiles i := by
        simp [setTilesUpTo]
      rw [e3]
      exact setTilesUpTo_succ t (chunk_x + chunk_y * 16)
        (fun j => heightmapTile rchan gchan chunk_y chunk_x (j / 4) (j % 4)
          ((t.chunks_ (chunk_x + chunk_y * 16)).tiles j)) i)
  simpa [setTilesUpTo_zero] using key

theorem heightmapLoops_spec (w : Nat) (rchan : Nat → ℚ) (gchan : Nat → Nat) (t : Terrain) :
    HeightmapDone rchan gchan t 256 (heightmapLoops (grid w) rchan gchan t) := by
  have hflat : heightmapLoops (grid w) rchan gchan t
      = forEach (fun K => heightmapChunkBody (grid w) rchan gchan (K / 16) (K % 16)) (16 * 16)
          t := by
    unfold heightmapLoops
    exact forEach_nested
      (fun chunk_y chunk_x => heightmapChunkBody (grid w) rchan gchan chunk_y chunk_x)
      16 16 (by decide) t
  rw [hflat]
  apply forEach_inv (fun K => heightmapChunkBody (grid w) rchan gchan (K / 16) (K % 16))
    (fun K s => HeightmapDone rchan gchan t K s) (16 * 16) t
  · exact ⟨rfl, fun _ _ => rfl, fun k hk => absurd hk (Nat.not_lt_zero _),
      fun h => absurd h (Nat.lt_irrefl 0)⟩
  · intro K s _ hp
    obtain ⟨hu, hrest, hdone, _⟩ := hp
    have eK : K % 16 + K / 16 * 16 = K := by omega
    have hbody : heightmapChunkBody (grid w) rchan gchan (K / 16) (K % 16) s
        = heightmapMinMax (grid w) K (setTilesUpTo s K
            (fun j => heightmapTile rchan gchan (K / 16) (K % 16) (j / 4) (j % 4)
              ((s.chunks_ K).tiles j)) 16) := by
      unfold heightmapChunkBody
      rw [heightmapTiles_ok w rchan gchan (K / 16) (K % 16) s]
      show heightmapMinMax (grid w) (K % 16 + K / 16 * 16) _ = _
      rw [eK]
    rw [hbody]
    obtain ⟨hc, hu2, hmm⟩ := heightmapMinMax_spec w K (setTilesUpTo s K
      (fun j => heightmapTile rchan gchan (K / 16) (K % 16) (j / 4) (j % 4)
        ((s.chunks_ K).tiles j)) 16)
    refine ⟨?_, ?_, ?_, ?_⟩
    · rw [hu2]; exact hu
    · intro k hk
      rw [hc]
      have hne : k ≠ K := by omega
      simp only [setTilesUpTo, Function.update_noteq hne]
      exact hrest k (by omega)
    · intro k hk j
      rw [hc]
      by_cases hkK : k = K
      · subst hkK
        simp only [setTilesUpTo, Function.update_same, hrest k (le_refl _)]
      · simp only [setTilesUpTo, Function.update_noteq hkK]
        exact hdone k (by omega) j
    · intro _
      exact hmm

/-! ## The terrain after a heightmap load -/

theorem LoadHeightmap_ok (w : Nat) (t : Terrain) (image : PLImage) (multiplier : Int)
    (hw : 65 ≤ image.width) (hh : 65 ≤ image.height) :
    LoadHeightmap (grid w) t (some image) multiplier
      = .loaded (Update (heightmapLoops (grid w) (heightmapRchan image multiplier)
          (heightmapGchan image) t)) := by
  have hg : ¬ (image.width < 65 ∨ image.height < 65) := by omega
  simp only [LoadHeightmap, if_neg hg]

theorem heightmapTile_eq (rchan : Nat → ℚ) (gchan : Nat → Nat)
    (chunk_y chunk_x tile_y tile_x : Nat) (old : Tile)
    (hcy : chunk_y < 16) (hcx : chunk_x < 16) (hty : tile_y < 4) (htx : tile_x < 4) :
    heightmapTile rchan gchan chunk_y chunk_x tile_y tile_x old
      = { old with
          height := ![rchan ((4 * chunk_y + tile_y) * 65 + (4 * chunk_x + tile_x)),
            rchan ((4 * chunk_y + tile_y) * 65 + (4 * chunk_x + tile_x) + 1),
            rchan ((4 * chunk_y + tile_y + 1) * 65 + (4 * chunk_x + tile_x)),
            rchan ((4 * chunk_y + tile_y + 1) * 65 + (4 * chunk_x + tile_x) + 1)]
          texture := gchan ((4 * chunk_y + tile_y) * 65 + (4 * chunk_x + tile_x))
          shading := ![255, 255, 255, 255] } := by
  have ha : u32 (chunk_y * 4 * 65 + chunk_x * 4) = chunk_y * 4 * 65 + chunk_x * 4 :=
    u32_of_lt (by omega)
  have h0 : u32 (chunk_y * 4 * 65 + chunk_x * 4 + tile_y * 65 + tile_x)
      = (4 * chunk_y + tile_y) * 65 + (4 * chunk_x + tile_x) := by
    rw [u32_of_lt (by omega)]; ring
  have h1 : u32 (chunk_y * 4 * 65 + chunk_x * 4 + tile_y * 65 + tile_x + 1)
      = (4 * chunk_y + tile_y) * 65 + (4 * chunk_x + tile_x) + 1 := by
    rw [u32_of_lt (by omega)]; ring
  have h2 : u32 (chunk_y * 4 * 65 + chunk_x * 4 + (tile_y + 1) * 65 + tile_x)
      = (4 * chunk_y + tile_y + 1) * 65 + (4 * chunk_x + tile_x) := by
    rw [u32_of_lt (by omega)]; ring
  have h3 : u32 (chunk_y * 4 * 65 + chunk_x * 4 + (tile_y + 1) * 65 + tile_x + 1)
      = (4 * chunk_y + tile_y + 1) * 65 + (4 * chunk_x + tile_x) + 1 := by
    rw [u32_of_lt (by omega)]; ring
  simp only [heightmapTile, ha, h0, h1, h2, h3]

theorem Update_chunks (t : Terrain) : (Update t).chunks_ = t.chunks_ := rfl

theorem Update_max (t : Terrain) : (Update t).max_height_ = t.max_height_ := rfl

theorem Update_min (t : Terrain) : (Update t).min_height_ = t.min_height_ := rfl

theorem Update_updates (t : Terrain) : (Update t).updates = t.updates + 1 := rfl

theorem heightmap_loaded_tile (w : Nat) (t : Terrain) (image : PLImage) (multiplier : Int)
    (chunk_y chunk_x tile_y tile_x : Nat)
    (hcy : chunk_y < 16) (hcx : chunk_x < 16) (hty : tile_y < 4) (htx : tile_x < 4) :
    ((Update (heightmapLoops (grid w) (heightmapRchan image multiplier)
        (heightmapGchan image) t)).chunks_ (chunk_x + chunk_y * 16)).tiles (tile_x + tile_y * 4)
      = heightmapTile (heightmapRchan image multiplier) (heightmapGchan image)
          chunk_y chunk_x tile_y tile_x
          ((t.chunks_ (chunk_x + chunk_y * 16)).tiles (tile_x + tile_y * 4)) := by
  obtain ⟨_, _, hdone, _⟩ := heightmapLoops_spec w (heightmapRchan image multiplier)
    (heightmapGchan image) t
  have hk : chunk_x + chunk_y * 16 < 256 := by omega
  have hj : tile_x + tile_y * 4 < 16 := by omega
  have e1 : (chunk_x + chunk_y * 16) / 16 = chunk_y := by omega
  have e2 : (chunk_x + chunk_y * 16) % 16 = chunk_x := by omega
  have e3 : (tile_x + tile_y * 4) / 4 = tile_y := by omega
  have e4 : (tile_x + tile_y * 4) % 4 = tile_x := by omega
  have h := hdone (chunk_x + chunk_y * 16) hk (tile_x + tile_y * 4)
  rw [if_pos hj, e1, e2, e3, e4] at h
  rw [Update_chunks, h]

theorem mulInt_exact (a b : Int) (h1 : -2 ^ 31 ≤ a * b) (h2 : a * b < 2 ^ 31) :
    mulInt a b = a * b := by
  unfold mulInt toSigned toUnsigned
  generalize a * b = x at h1 h2
  have e : ((x % 2 ^ 32).toNat : Int) = x % 2 ^ 32 := Int.toNat_of_nonneg (Int.emod_nonneg _ (by norm_num))
  have hm : ((x % 2 ^ 32).toNat % 2 ^ 32 : Nat) = (x % 2 ^ 32).toNat := by
    apply Nat.mod_eq_of_lt
    have : x % 2 ^ 32 < 2 ^ 32 := Int.emod_lt_of_pos _ (by norm_num)
    omega
  rw [hm]
  split_ifs with hlt
  · rw [e]; omega
  · rw [e]; omega

theorem mulInt_pixel (r : Nat) (m : Int) (hr : r < 256)
    (h1 : -2 ^ 31 ≤ 255 * m) (h2 : 255 * m < 2 ^ 31) : mulInt (r : Int) m = (r : Int) * m := by
  have hr0 : (0 : Int) ≤ r := Int.ofNat_nonneg r
  have hr1 : (r : Int) ≤ 255 := by omega
  apply mulInt_exact
  · rcases le_total 0 m with hm | hm
    · have : 0 ≤ (r : Int) * m := mul_nonneg hr0 hm
      omega
    · have : 255 * m ≤ (r : Int) * m := mul_le_mul_of_nonpos_right hr1 hm
      omega
  · rcases le_total 0 m with hm | hm
    · have : (r : Int) * m ≤ 255 * m := mul_le_mul_of_nonneg_right hr1 hm
      omega
    · have : (r : Int) * m ≤ 0 := mul_nonpos_of_nonneg_of_nonpos hr0 hm
      omega

theorem floatOfInt_exact (z : Int) (h : z.natAbs < 2 ^ 24) : floatOfInt z = (z : ℚ) := by
  have hr : roundNat z.natAbs = z.natAbs := by
    unfold roundNat
    rw [if_pos h]
  unfold floatOfInt
  rw [hr]
  split_ifs with h0
  · have e : ((z.natAbs : Nat) : Int) = z := Int.natAbs_of_nonneg h0
    calc ((z.natAbs : Nat) : ℚ) = (((z.natAbs : Nat) : Int) : ℚ) := (Int.cast_natCast _).symm
      _ = (z : ℚ) := by rw [e]
  · have e : ((z.natAbs : Nat) : Int) = -z := Int.ofNat_natAbs_of_nonpos (by omega)
    calc -((z.natAbs : Nat) : ℚ) = -(((z.natAbs : Nat) : Int) : ℚ) := by
          rw [Int.cast_natCast]
      _ = (z : ℚ) := by rw [e]; simp

theorem floatOfInt_rounds : floatOfInt 33423615 = 33423616 := by
  have hr : roundNat (33423615 : Int).natAbs = 33423616 := by decide
  unfold floatOfInt
  rw [if_pos (by decide), hr]
  norm_num

theorem heightmapRchan_float (image : PLImage) (m : Int) (i : Nat)
    (hi : i < u32 (image.width * image.height))
    (h1 : -2 ^ 31 ≤ 255 * m) (h2 : 255 * m < 2 ^ 31) :
    heightmapRchan image m i = floatOfInt (m * (imageRed image i : Int)) := by
  unfold heightmapRchan
  rw [if_pos hi, mulInt_pixel (imageRed image i) m (byteAt_lt _ _) h1 h2, mul_comm]

theorem pixel_product_small (r : Nat) (m : Int) (hr : r < 256)
    (h1 : -2 ^ 24 < 255 * m) (h2 : 255 * m < 2 ^ 24) : (m * (r : Int)).natAbs < 2 ^ 24 := by
  have hr0 : (0 : Int) ≤ r := Int.ofNat_nonneg r
  have hr1 : (r : Int) ≤ 255 := by omega
  have e24 : (2 : Int) ^ 24 = 16777216 := by norm_num
  rw [e24] at h1 h2
  have habs : |m * (r : Int)| < 16777216 := by
    rw [abs_lt]
    rcases le_total 0 m with hm | hm
    · have a1 : 0 ≤ m * (r : Int) := mul_nonneg hm hr0
      have a2 : m * (r : Int) ≤ m * 255 := mul_le_mul_of_nonneg_left hr1 hm
      constructor <;> omega
    · have a1 : m * (r : Int) ≤ 0 := mul_nonpos_of_nonpos_of_nonneg hm hr0
      have a2 : m * 255 ≤ m * (r : Int) := mul_le_mul_of_nonpos_left hr1 hm
      constructor <;> omega
  have hn : ((m * (r : Int)).natAbs : Int) < 16777216 := by
    rw [Int.natCast_natAbs]
    exact habs
  have p24 : (2 : Nat) ^ 24 = 16777216 := by norm_num
  rw [p24]
  omega

theorem heightmapRchan_exact (image : PLImage) (m : Int) (i : Nat)
    (hi : i < u32 (image.width * image.height))
    (h1 : -2 ^ 24 < 255 * m) (h2 : 255 * m < 2 ^ 24) :
    heightmapRchan image m i = (m : ℚ) * (imageRed image i : ℚ) := by
  have e24 : (2 : Int) ^ 24 = 16777216 := by norm_num
  have e31 : (2 : Int) ^ 31 = 2147483648 := by norm_num
  rw [heightmapRchan_float image m i hi (by rw [e31]; rw [e24] at h1; omega)
      (by rw [e31]; rw [e24] at h2; omega),
    floatOfInt_exact _ (pixel_product_small (imageRed image i) m (byteAt_lt _ _) h1 h2)]
  push_cast
  ring


theorem chan_length_65 (image : PLImage) (hw : image.width = 65) (hh : image.height = 65) :
    u32 (image.width * image.height) = 4225 := by
  rw [hw, hh]
  rfl

/-- C12: after any successful image-heightmap load, of a 65 x 65 image in particular, every
two tiles of the map that share an edge, within a chunk or across a chunk boundary, report
identical heights at their shared corners.  The tile at column `gx` and row `gy` of the
64 x 64 tiles of the map is the tile `gx mod 4 + (gy mod 4) * 4` of the chunk
`gx div 4 + (gy div 4) * 16`. -/
theorem LoadHeightmap_seams (w : Nat) (t : Terrain) (image : PLImage) (multiplier : Int)
    (hw : 65 ≤ image.width) (hh : 65 ≤ image.height) :
    ∃ t1, LoadHeightmap (grid w) t (some image) multiplier = .loaded t1
      ∧ (∀ gx gy, gx + 1 < 64 → gy < 64 →
          ((t1.chunks_ (gx / 4 + gy / 4 * 16)).tiles (gx % 4 + gy % 4 * 4)).height 1
              = ((t1.chunks_ ((gx + 1) / 4 + gy / 4 * 16)).tiles
                  ((gx + 1) % 4 + gy % 4 * 4)).height 0
            ∧ ((t1.chunks_ (gx / 4 + gy / 4 * 16)).tiles (gx % 4 + gy % 4 * 4)).height 3
              = ((t1.chunks_ ((gx + 1) / 4 + gy / 4 * 16)).tiles
                  ((gx + 1) % 4 + gy % 4 * 4)).height 2)
      ∧ (∀ gx gy, gx < 64 → gy + 1 < 64 →
          ((t1.chunks_ (gx / 4 + gy / 4 * 16)).tiles (gx % 4 + gy % 4 * 4)).height 2
              = ((t1.chunks_ (gx / 4 + (gy + 1) / 4 * 16)).tiles
                  (gx % 4 + (gy + 1) % 4 * 4)).height 0
            ∧ ((t1.chunks_ (gx / 4 + gy / 4 * 16)).tiles (gx % 4 + gy % 4 * 4)).height 3
              = ((t1.chunks_ (gx / 4 + (gy + 1) / 4 * 16)).tiles
                  (gx % 4 + (gy + 1) % 4 * 4)).height 1) := by
  have key : ∀ gx gy, gx < 64 → gy < 64 →
      (((Update (heightmapLoops (grid w) (heightmapRchan image multiplier)
          (heightmapGchan image) t)).chunks_ (gx / 4 + gy / 4 * 16)).tiles
            (gx % 4 + gy % 4 * 4)).height
        = ![heightmapRchan image multiplier (gy * 65 + gx),
            heightmapRchan image multiplier (gy * 65 + gx + 1),
            heightmapRchan image multiplier ((gy + 1) * 65 + gx),
            heightmapRchan image multiplier ((gy + 1) * 65 + gx + 1)] := by
    intro gx gy hx hy
    rw [heightmap_loaded_tile w t image multiplier (gy / 4) (gx / 4) (gy % 4) (gx % 4)
      (by omega) (by omega) (by omega) (by omega),
      heightmapTile_eq _ _ _ _ _ _ _ (by omega) (by omega) (by omega) (by omega)]
    have e1 : 4 * (gy / 4) + gy % 4 = gy := by omega
    have e2 : 4 * (gx / 4) + gx % 4 = gx := by omega
    simp only [e1, e2]
  refine ⟨_, LoadHeightmap_ok w t image multiplier hw hh, ?_, ?_⟩
  · intro gx gy hx hy
    rw [key gx gy (by omega) hy, key (gx + 1) gy hx hy]
    have e : (gy + 1) * 65 + gx + 1 = (gy + 1) * 65 + (gx + 1) := by ring
    constructor
    · rfl
    · show heightmapRchan image multiplier ((gy + 1) * 65 + gx + 1)
        = heightmapRchan image multiplier ((gy + 1) * 65 + (gx + 1))
      rw [e]
  · intro gx gy hx hy
    rw [key gx gy hx (by omega), key gx (gy + 1) hx hy]
    exact ⟨rfl, rfl⟩

theorem LoadHeightmap_seams_witness :
    ∃ t1, LoadHeightmap (grid 512) rampTerrain (some zeroImage) 3 = .loaded t1
      ∧ ((t1.chunks_ (3 / 4 + 7 / 4 * 16)).tiles (3 % 4 + 7 % 4 * 4)).height 1
          = ((t1.chunks_ ((3 + 1) / 4 + 7 / 4 * 16)).tiles ((3 + 1) % 4 + 7 % 4 * 4)).height 0
      ∧ ((t1.chunks_ (3 / 4 + 7 / 4 * 16)).tiles (3 % 4 + 7 % 4 * 4)).height 2
          = ((t1.chunks_ (3 / 4 + (7 + 1) / 4 * 16)).tiles (3 % 4 + (7 + 1) % 4 * 4)).height 0 :=
  match LoadHeightmap_seams 512 rampTerrain zeroImage 3 (by decide) (by decide) with
  | ⟨t1, h1, h2, h3⟩ =>
    ⟨t1, h1, (h2 3 7 (by decide) (by decide)).1, (h3 3 7 (by decide) (by decide)).1⟩

theorem heightmapTile_height (rchan : Nat → ℚ) (gchan : Nat → Nat)
    (chunk_y chunk_x tile_y tile_x : Nat) (old : Tile)
    (hcy : chunk_y < 16) (hcx : chunk_x < 16) (hty : tile_y < 4) (htx : tile_x < 4)
    (i : Fin 4) :
    (heightmapTile rchan gchan chunk_y chunk_x tile_y tile_x old).height i
      = rchan ((4 * chunk_y + tile_y + i.val / 2) * 65 + (4 * chunk_x + tile_x + i.val % 2)) := by
  rw [heightmapTile_eq rchan gchan chunk_y chunk_x tile_y tile_x old hcy hcx hty htx]
  fin_cases i
  · simp
  · simp [Nat.add_assoc]
  · simp
  · simp [Nat.add_assoc]

theorem heightmapTile_texture (rchan : Nat → ℚ) (gchan : Nat → Nat)
    (chunk_y chunk_x tile_y tile_x : Nat) (old : Tile)
    (hcy : chunk_y < 16) (hcx : chunk_x < 16) (hty : tile_y < 4) (htx : tile_x < 4) :
    (heightmapTile rchan gchan chunk_y chunk_x tile_y tile_x old).texture
      = gchan ((4 * chunk_y + tile_y) * 65 + (4 * chunk_x + tile_x)) := by
  rw [heightmapTile_eq rchan gchan chunk_y chunk_x tile_y tile_x old hcy hcx hty htx]

theorem heightmapTile_shading (rchan : Nat → ℚ) (gchan : Nat → Nat)
    (chunk_y chunk_x tile_y tile_x : Nat) (old : Tile) (i : Fin 4) :
    (heightmapTile rchan gchan chunk_y chunk_x tile_y tile_x old).shading i = 255 := by
  unfold heightmapTile
  fin_cases i <;> simp

/-- C13, amended: after loading a 65 x 65 RGBA image with the multiplier `m`, for every chunk
`(cx, cy)` and tile `(tx, ty)` the corner `i` of the tile has as its height the product of
`m` and the red channel of the pixel at column `4*cx + tx + (i mod 2)` and row
`4*cy + ty + (i div 2)`, stored as a float: the product itself when `255 * m` is below
`2 ^ 24` in magnitude, the float nearest to it otherwise.  The texture of the tile is the
green channel of the pixel at column `4*cx + tx` and row `4*cy + ty`, and its four shading
values are 255.  The multiplier is one for which the products with a channel value fit an
`int`. -/
theorem LoadHeightmap_tiles (w : Nat) (t : Terrain) (image : PLImage) (m : Int)
    (hw : image.width = 65) (hh : image.height = 65)
    (hm1 : -2 ^ 31 ≤ 255 * m) (hm2 : 255 * m < 2 ^ 31) :
    ∃ t1, LoadHeightmap (grid w) t (some image) m = .loaded t1
      ∧ ∀ cx cy tx ty, cx < 16 → cy < 16 → tx < 4 → ty < 4 →
        (∀ i : Fin 4,
          ((t1.chunks_ (cx + cy * 16)).tiles (tx + ty * 4)).height i
            = floatOfInt
                (m * (pixelRed image (4 * cx + tx + i.val % 2) (4 * cy + ty + i.val / 2) : Int)))
        ∧ (-2 ^ 24 < 255 * m → 255 * m < 2 ^ 24 → ∀ i : Fin 4,
          ((t1.chunks_ (cx + cy * 16)).tiles (tx + ty * 4)).height i
            = (m : ℚ) * (pixelRed image (4 * cx + tx + i.val % 2) (4 * cy + ty + i.val / 2) : ℚ))
        ∧ ((t1.chunks_ (cx + cy * 16)).tiles (tx + ty * 4)).texture
            = pixelGreen image (4 * cx + tx) (4 * cy + ty)
        ∧ ∀ i : Fin 4, ((t1.chunks_ (cx + cy * 16)).tiles (tx + ty * 4)).shading i = 255 := by
  refine ⟨_, LoadHeightmap_ok w t image m (by omega) (by omega), ?_⟩
  intro cx cy tx ty hcx hcy htx hty
  rw [heightmap_loaded_tile w t image m cy cx ty tx hcy hcx hty htx]
  have hlen := chan_length_65 image hw hh
  refine ⟨?_, ?_, ?_, ?_⟩
  · intro i
    have hi : i.val < 4 := i.isLt
    rw [heightmapTile_height _ _ _ _ _ _ _ hcy hcx hty htx i,
      heightmapRchan_float image m _ (by rw [hlen]; omega) hm1 hm2]
    simp only [pixelRed, hw]
  · intro hs1 hs2 i
    have hi : i.val < 4 := i.isLt
    rw [heightmapTile_height _ _ _ _ _ _ _ hcy hcx hty htx i,
      heightmapRchan_exact image m _ (by rw [hlen]; omega) hs1 hs2]
    simp only [pixelRed, hw]
  · rw [heightmapTile_texture _ _ _ _ _ _ _ hcy hcx hty htx]
    unfold heightmapGchan
    rw [if_pos (by rw [hlen]; omega)]
    simp only [pixelGreen, hw]
  · intro i
    exact heightmapTile_shading _ _ _ _ _ _ _ i

theorem LoadHeightmap_tiles_witness :
    ∃ t1, LoadHeightmap (grid 512) rampTerrain (some peakImage) 7 = .loaded t1
      ∧ ((t1.chunks_ (0 + 0 * 16)).tiles (0 + 0 * 4)).height 0
          = floatOfInt ((7 : Int)
            * (pixelRed peakImage (4 * 0 + 0 + (0 : Fin 4).val % 2)
                (4 * 0 + 0 + (0 : Fin 4).val / 2) : Int))
      ∧ ((t1.chunks_ (0 + 0 * 16)).tiles (0 + 0 * 4)).texture
          = pixelGreen peakImage (4 * 0 + 0) (4 * 0 + 0) :=
  match LoadHeightmap_tiles 512 rampTerrain peakImage 7 rfl rfl (by decide) (by decide) with
  | ⟨t1, h1, h2⟩ =>
    ⟨t1, h1, (h2 0 0 0 0 (by decide) (by decide) (by decide) (by decide)).1 0,
      (h2 0 0 0 0 (by decide) (by decide) (by decide) (by decide)).2.2.1⟩

theorem byteAt_replicate_zero (n i : Nat) : byteAt (List.replicate n (0 : Byte)) i = 0 := by
  unfold byteAt
  rw [List.getD_eq_getElem?_getD, List.getElem?_replicate]
  split_ifs <;> rfl

theorem byteAt_cons_succ (a : Byte) (l : List Byte) (n : Nat) :
    byteAt (a :: l) (n + 1) = byteAt l n := by
  simp [byteAt]

theorem peakImage_red (i : Nat) (hi : 1 ≤ i) : imageRed peakImage i = 0 := by
  obtain ⟨n, hn⟩ : ∃ n, 4 * i = n + 1 := ⟨4 * i - 1, by omega⟩
  unfold imageRed
  rw [hn]
  show byteAt ((255 : Byte) :: List.replicate (4 * 65 * 65 - 1) 0) (n + 1) = 0
  rw [byteAt_cons_succ, byteAt_replicate_zero]

theorem mulInt_zero_one : mulInt 0 1 = 0 := by decide

theorem peakImage_rchan (i : Nat) (hi : 1 ≤ i) : heightmapRchan peakImage 1 i = 0 := by
  unfold heightmapRchan
  split_ifs
  · rw [peakImage_red i hi]
    show floatOfInt (mulInt 0 1) = 0
    rw [mulInt_zero_one, floatOfInt_exact 0 (by decide)]
    norm_num
  · rfl

theorem ChunkMinMax_Update (s : Terrain) (k : Nat) (h : ChunkMinMax s k) :
    ChunkMinMax (Update s) k := h

theorem heightmap_loaded_minmax (w : Nat) (t : Terrain) (image : PLImage) (m : Int) :
    ChunkMinMax (Update (heightmapLoops (grid w) (heightmapRchan image m)
      (heightmapGchan image) t)) 255 := by
  obtain ⟨_, _, _, hmm⟩ := heightmapLoops_spec w (heightmapRchan image m)
    (heightmapGchan image) t
  exact ChunkMinMax_Update _ 255 (hmm (by decide))


theorem byteAt_append_left (l1 l2 : List Byte) (i : Nat) (h : i < l1.length) :
    byteAt (l1 ++ l2) i = byteAt l1 i := by
  unfold byteAt
  rw [List.getD_eq_getElem?_getD, List.getD_eq_getElem?_getD, List.getElem?_append_left h]

theorem byteAt_append_right (l1 l2 : List Byte) (i : Nat) (h : l1.length ≤ i) :
    byteAt (l1 ++ l2) i = byteAt l2 (i - l1.length) := by
  unfold byteAt
  rw [List.getD_eq_getElem?_getD, List.getD_eq_getElem?_getD, List.getElem?_append_right h]

theorem wideImage_bytes :
    byteAt wideImage.data 260 = 0 ∧ byteAt wideImage.data 264 = 1 := by
  have hl : (List.replicate (4 * 66) (0 : Byte) ++ [1]).length = 265 := by
    rw [List.length_append, List.length_replicate]
    rfl
  have hl2 : (List.replicate (4 * 66) (0 : Byte)).length = 264 := by
    rw [List.length_replicate]
  constructor
  · show byteAt (List.replicate (4 * 66) 0 ++ [1]
      ++ List.replicate (4 * 66 * 65 - 4 * 66 - 1) 0) 260 = 0
    rw [byteAt_append_left _ _ _ (by rw [hl]; decide),
      byteAt_append_left _ _ _ (by rw [hl2]; decide), byteAt_replicate_zero]
  · show byteAt (List.replicate (4 * 66) 0 ++ [1]
      ++ List.replicate (4 * 66 * 65 - 4 * 66 - 1) 0) 264 = 1
    rw [byteAt_append_left _ _ _ (by rw [hl]; decide),
      byteAt_append_right _ _ _ (by rw [hl2]), hl2]
    rfl

theorem wideImage_width : wideImage.width = 66 := rfl

theorem LoadHeightmap_spec (w : Nat) (t : Terrain) (image : PLImage) (m : Int)
    (hw : 65 ≤ image.width) (hh : 65 ≤ image.height) :
    ∃ t1, LoadHeightmap (grid w) t (some image) m = .loaded t1
      ∧ t1.updates = t.updates + 1
      ∧ (∀ cx cy tx ty, cx < 16 → cy < 16 → tx < 4 → ty < 4 → ∀ i : Fin 4,
          ((t1.chunks_ (cx + cy * 16)).tiles (tx + ty * 4)).height i
            = heightmapRchan image m
                ((4 * cy + ty + i.val / 2) * 65 + (4 * cx + tx + i.val % 2)))
      ∧ ChunkMinMax t1 255 := by
  refine ⟨_, LoadHeightmap_ok w t image m hw hh, ?_, ?_, heightmap_loaded_minmax w t image m⟩
  · rw [Update_updates, (heightmapLoops_spec w _ _ t).1]
  · intro cx cy tx ty hcx hcy htx hty i
    rw [heightmap_loaded_tile w t image m cy cx ty tx hcy hcx hty htx,
      heightmapTile_height _ _ _ _ _ _ _ hcy hcx hty htx i]

/-- C14: the code does not sample the top-left 65 x 65 window of an image wider than 65
pixels.  On a 66 x 65 image whose only non-zero channel is the red channel, 1, of the pixel
at column 0 and row 1, loaded with the multiplier 1, the corner 2 of the first tile of the
first chunk gets the height 0, the red channel of the pixel number 65 of the buffer (column
65 of row 0), where the pixel at column `4*0 + 0 + (2 mod 2)` and row
`4*0 + 0 + (2 div 2)` has the red channel 1. -/
theorem LoadHeightmap_wide_image :
    ∃ t1, LoadHeightmap (grid 512) rampTerrain (some wideImage) 1 = .loaded t1
      ∧ wideImage.width = 66 ∧ wideImage.height = 65
      ∧ ((t1.chunks_ 0).tiles 0).height 2 = 0
      ∧ ((1 : Int) : ℚ) * (pixelRed wideImage (4 * 0 + 0 + 2 % 2) (4 * 0 + 0 + 2 / 2) : ℚ) = 1 := by
  obtain ⟨t1, h1, _, h2, _⟩ :=
    LoadHeightmap_spec 512 rampTerrain wideImage 1 (by decide) (by decide)
  have hr65 : heightmapRchan wideImage 1 65 = 0 := by
    unfold heightmapRchan
    have hr : imageRed wideImage 65 = 0 := by
      unfold imageRed
      exact wideImage_bytes.1
    rw [hr]
    split_ifs
    · rw [show ((0 : Nat) : Int) = 0 from rfl, mulInt_zero_one]
      rfl
    · rfl
  refine ⟨t1, h1, rfl, rfl, ?_, ?_⟩
  · have h := h2 0 0 0 0 (by decide) (by decide) (by decide) (by decide) 2
    have e : (4 * 0 + 0 + (2 : Fin 4).val / 2) * 65 + (4 * 0 + 0 + (2 : Fin 4).val % 2) = 65 := rfl
    rw [e, hr65] at h
    exact h
  · have hr : pixelRed wideImage (4 * 0 + 0 + 2 % 2) (4 * 0 + 0 + 2 / 2) = 1 := by
      unfold pixelRed imageRed
      rw [wideImage_width]
      exact wideImage_bytes.2
    rw [hr]
    norm_num

theorem heightmapRchan_image (image : PLImage) (m : Int) (i : Nat)
    (hw : 65 ≤ image.width) (hh : 65 ≤ image.height)
    (hfit : image.width * image.height < 2 ^ 32) (hi : i < 65 * 65) :
    heightmapRchan image m i = floatOfInt (mulInt (imageRed image i) m) := by
  have h1 : 65 * 65 ≤ image.width * image.height := Nat.mul_le_mul hw hh
  unfold heightmapRchan
  rw [u32_of_lt hfit, if_pos (by omega)]

/-- C15: given an image that loads, `LoadHeightmap` rejects it exactly when its width is
below 65 or its height is below 65; a rejected load returns with the terrain it was given,
no tile and neither the minimum nor the maximum height changed and `Update` not run.  A
64 x 64 image is rejected; a 65 x 65 image is accepted, `Update` is run once and every
corner of every tile of the 256 chunks gets its height from the image: the `int` product
of the multiplier and the red channel of the pixel at column `4*cx + tx + (i mod 2)` and
row `4*cy + ty + (i div 2)`, stored as a float.  For every accepted image the heights are
read from the array of scaled red channel values at the row stride 65; when the number of
pixels fits an `unsigned int` these are the products of the multiplier and the red channel
of the pixel of that number of the image buffer. -/
theorem LoadHeightmap_size (w : Nat) (t : Terrain) (image : PLImage) (m : Int) :
    (LoadHeightmap (grid w) t (some image) m = .invalidSize t
        ↔ (image.width < 65 ∨ image.height < 65))
      ∧ ((image.width < 65 ∨ image.height < 65) →
          ∀ t1, LoadHeightmap (grid w) t (some image) m ≠ .loaded t1)
      ∧ (¬ (image.width < 65 ∨ image.height < 65) →
          ∃ t1, LoadHeightmap (grid w) t (some image) m = .loaded t1
            ∧ t1.updates = t.updates + 1
            ∧ (∀ cx cy tx ty, cx < 16 → cy < 16 → tx < 4 → ty < 4 → ∀ i : Fin 4,
              ((t1.chunks_ (cx + cy * 16)).tiles (tx + ty * 4)).height i
                = heightmapRchan image m
                    ((4 * cy + ty + i.val / 2) * 65 + (4 * cx + tx + i.val % 2)))
            ∧ (image.width * image.height < 2 ^ 32 →
              ∀ cx cy tx ty, cx < 16 → cy < 16 → tx < 4 → ty < 4 → ∀ i : Fin 4,
              ((t1.chunks_ (cx + cy * 16)).tiles (tx + ty * 4)).height i
                = floatOfInt (mulInt
                    (imageRed image ((4 * cy + ty + i.val / 2) * 65 + (4 * cx + tx + i.val % 2)))
                    m)))
      ∧ (image.width = 64 → image.height = 64 →
          LoadHeightmap (grid w) t (some image) m = .invalidSize t)
      ∧ (image.width = 65 → image.height = 65 →
          ∃ t1, LoadHeightmap (grid w) t (some image) m = .loaded t1
            ∧ t1.updates = t.updates + 1
            ∧ ∀ cx cy tx ty, cx < 16 → cy < 16 → tx < 4 → ty < 4 → ∀ i : Fin 4,
              ((t1.chunks_ (cx + cy * 16)).tiles (tx + ty * 4)).height i
                = floatOfInt (mulInt
                    (pixelRed image (4 * cx + tx + i.val % 2) (4 * cy + ty + i.val / 2)) m)) := by
  have hrej : (image.width < 65 ∨ image.height < 65) →
      LoadHeightmap (grid w) t (some image) m = .invalidSize t := by
    intro h
    simp only [LoadHeightmap, if_pos h]
  have hacc : ¬ (image.width < 65 ∨ image.height < 65) →
      ∃ t1, LoadHeightmap (grid w) t (some image) m = .loaded t1
        ∧ t1.updates = t.updates + 1
        ∧ (∀ cx cy tx ty, cx < 16 → cy < 16 → tx < 4 → ty < 4 → ∀ i : Fin 4,
          ((t1.chunks_ (cx + cy * 16)).tiles (tx + ty * 4)).height i
            = heightmapRchan image m
                ((4 * cy + ty + i.val / 2) * 65 + (4 * cx + tx + i.val % 2)))
        ∧ (image.width * image.height < 2 ^ 32 →
          ∀ cx cy tx ty, cx < 16 → cy < 16 → tx < 4 → ty < 4 → ∀ i : Fin 4,
          ((t1.chunks_ (cx + cy * 16)).tiles (tx + ty * 4)).height i
            = floatOfInt (mulInt
                (imageRed image ((4 * cy + ty + i.val / 2) * 65 + (4 * cx + tx + i.val % 2)))
                m)) := by
    intro h
    obtain ⟨t1, h1, h2, h3, _⟩ := LoadHeightmap_spec w t image m (by omega) (by omega)
    refine ⟨t1, h1, h2, h3, ?_⟩
    intro hfit cx cy tx ty hcx hcy htx hty i
    have hi : i.val < 4 := i.isLt
    rw [h3 cx cy tx ty hcx hcy htx hty i,
      heightmapRchan_image image m _ (by omega) (by omega) hfit (by omega)]
  refine ⟨⟨?_, hrej⟩, ?_, hacc, ?_, ?_⟩
  · intro h
    by_contra hn
    obtain ⟨t1, h1, _⟩ := hacc hn
    rw [h1] at h
    cases h
  · intro h t1 h1
    rw [hrej h] at h1
    cases h1
  · intro h1 h2
    exact hrej (Or.inl (by omega))
  · intro h1 h2
    obtain ⟨t1, e1, e2, _, e4⟩ := hacc (by omega)
    refine ⟨t1, e1, e2, ?_⟩
    intro cx cy tx ty hcx hcy htx hty i
    rw [e4 (by rw [h1, h2]; decide) cx cy tx ty hcx hcy htx hty i]
    simp only [pixelRed, h1]

theorem LoadHeightmap_size_witness :
    LoadHeightmap (grid 512) rampTerrain (some ⟨64, 64, List.replicate (4 * 64 * 64) 0⟩) 1
        = .invalidSize rampTerrain
      ∧ ∃ t1, LoadHeightmap (grid 512) rampTerrain (some peakImage) 3 = .loaded t1
          ∧ t1.updates = rampTerrain.updates + 1
          ∧ ((t1.chunks_ (0 + 0 * 16)).tiles (0 + 0 * 4)).height 0
            = floatOfInt (mulInt
                (pixelRed peakImage (4 * 0 + 0 + (0 : Fin 4).val % 2)
                  (4 * 0 + 0 + (0 : Fin 4).val / 2)) 3) :=
  ⟨(LoadHeightmap_size 512 rampTerrain ⟨64, 64, List.replicate (4 * 64 * 64) 0⟩ 1).2.2.2.1
      rfl rfl,
    match (LoadHeightmap_size 512 rampTerrain peakImage 3).2.2.2.2 rfl rfl with
    | ⟨t1, h1, h2, h3⟩ =>
      ⟨t1, h1, h2, h3 0 0 0 0 (by decide) (by decide) (by decide) (by decide) 0⟩⟩

theorem peakImage_rchan_zero : heightmapRchan peakImage 1 0 = 255 := by
  unfold heightmapRchan
  have hr : imageRed peakImage 0 = 255 := rfl
  have hm : mulInt ((255 : Nat) : Int) 1 = 255 := by decide
  have hl : 0 < u32 (peakImage.width * peakImage.height) := by decide
  rw [hr, hm, if_pos hl, floatOfInt_exact 255 (by decide)]
  norm_num

theorem peakImage_rchan_rounded : heightmapRchan peakImage 131073 0 = 33423616 := by
  unfold heightmapRchan
  have hr : imageRed peakImage 0 = 255 := rfl
  have hm : mulInt ((255 : Nat) : Int) 131073 = 33423615 := by decide
  have hl : 0 < u32 (peakImage.width * peakImage.height) := by decide
  rw [hr, hm, if_pos hl, floatOfInt_rounds]

/-- C13, as stated, fails: on a 65 x 65 image whose first pixel has the red channel 255,
loaded with the multiplier 131073, the first corner of the first tile of the first chunk
has the height 33423616, the float nearest to the product, where `m` times the red channel
is 33423615. -/
theorem LoadHeightmap_float_rounding :
    ∃ t1, LoadHeightmap (grid 512) rampTerrain (some peakImage) 131073 = .loaded t1
      ∧ ((t1.chunks_ (0 + 0 * 16)).tiles (0 + 0 * 4)).height 0 = 33423616
      ∧ ((131073 : Int) : ℚ)
          * (pixelRed peakImage (4 * 0 + 0 + 0 % 2) (4 * 0 + 0 + 0 / 2) : ℚ) = 33423615 := by
  obtain ⟨t1, h1, _, h2, _⟩ :=
    LoadHeightmap_spec 512 rampTerrain peakImage 131073 (by decide) (by decide)
  refine ⟨t1, h1, ?_, ?_⟩
  · have h := h2 0 0 0 0 (by decide) (by decide) (by decide) (by decide) 0
    have e : (4 * 0 + 0 + (0 : Fin 4).val / 2) * 65 + (4 * 0 + 0 + (0 : Fin 4).val % 2) = 0 :=
      rfl
    rw [e, peakImage_rchan_rounded] at h
    exact h
  · have hp : pixelRed peakImage (4 * 0 + 0 + 0 % 2) (4 * 0 + 0 + 0 / 2) = 255 := rfl
    rw [hp]
    norm_num

/-- C17: the code does not keep the minimum and maximum of the whole grid.  After every
successful image-heightmap load the minimum and the maximum height are those of the corner
heights of the last chunk alone, the chunk at index 255; on a 65 x 65 image whose only
non-zero channel is the red channel, 255, of the first pixel, loaded with the multiplier 1,
the first corner of the first tile of the first chunk has the height 255 and the maximum
height is 0. -/
theorem LoadHeightmap_minmax_last_chunk :
    (∀ (w : Nat) (t : Terrain) (image : PLImage) (m : Int),
        65 ≤ image.width → 65 ≤ image.height →
        ∃ t1, LoadHeightmap (grid w) t (some image) m = .loaded t1 ∧ ChunkMinMax t1 255)
      ∧ ∃ t1, LoadHeightmap (grid 512) rampTerrain (some peakImage) 1 = .loaded t1
          ∧ ((t1.chunks_ 0).tiles 0).height 0 = 255
          ∧ t1.max_height_ = 0
          ∧ ¬ (((t1.chunks_ 0).tiles 0).height 0 ≤ t1.max_height_) := by
  constructor
  · intro w t image m hw hh
    obtain ⟨t1, h1, _, _, hmm⟩ := LoadHeightmap_spec w t image m hw hh
    exact ⟨t1, h1, hmm⟩
  · obtain ⟨t1, h1, _, h2, hmm⟩ :=
      LoadHeightmap_spec 512 rampTerrain peakImage 1 (by decide) (by decide)
    have h0 : ((t1.chunks_ 0).tiles 0).height 0 = 255 := by
      have h := h2 0 0 0 0 (by decide) (by decide) (by decide) (by decide) 0
      have e : (4 * 0 + 0 + (0 : Fin 4).val / 2) * 65 + (4 * 0 + 0 + (0 : Fin 4).val % 2) = 0 :=
        rfl
      rw [e, peakImage_rchan_zero] at h
      exact h
    have hmax : t1.max_height_ = 0 := by
      obtain ⟨_, ⟨j, hj, corner, hc⟩, _⟩ := hmm
      have hcorner : corner.val < 4 := corner.isLt
      have h := h2 15 15 (j % 4) (j / 4) (by decide) (by decide) (by omega) (by omega) corner
      have e1 : 15 + 15 * 16 = 255 := rfl
      have e2 : j % 4 + j / 4 * 4 = j := by omega
      rw [e1, e2, peakImage_rchan _ (by omega)] at h
      rw [hc, h]
    refine ⟨t1, h1, h0, hmax, ?_⟩
    rw [h0, hmax]
    norm_num

/-! ## A stream that ends early -/

theorem forLoop_fail {σ ε : Type} (body : Nat → σ → Except ε σ) (f : Nat → σ) (K n : Nat)
    (e : ε) (hK : K < n) (hstep : ∀ i, i < K → body i (f i) = .ok (f (i + 1)))
    (hfail : body K (f K) = .error e) :
    forLoop body n (f 0) = .error e := by
  induction n with
  | zero => exact absurd hK (Nat.not_lt_zero _)
  | succ n ih =>
    show (match forLoop body n (f 0) with
      | .ok s1 => body n s1
      | .error e => .error e) = _
    rcases Nat.lt_succ_iff_lt_or_eq.1 hK with hlt | heq
    · rw [ih hlt]
    · subst heq
      rw [forLoop_eq body f K hstep]
      exact hfail

theorem plReadFile_fail (data : List Byte) (p n : Nat) (h : data.length < p + n) :
    plReadFile ⟨data, p⟩ n = (none, ⟨data, data.length⟩) := by
  have hn : ¬ (p + n ≤ data.length) := by omega
  simp [plReadFile, hn]

theorem readSizedInteger_any (data : List Byte) (p n : Nat) :
    readSizedInteger ⟨data, p⟩ n
      = (if p + n ≤ data.length then toSigned (8 * n) (leAt data p n) else 0,
          decide (p + n ≤ data.length),
          ⟨data, if p + n ≤ data.length then p + n else data.length⟩) := by
  by_cases h : p + n ≤ data.length
  · simp [readSizedInteger_ok data p n h, h]
  · have h2 : data.length < p + n := by omega
    simp [readSizedInteger, plReadFile_fail data p n h2, h]

theorem plFileSeek_any (data : List Byte) (p n : Nat) :
    plFileSeek ⟨data, p⟩ n = ⟨data, if p + n ≤ data.length then p + n else p⟩ := by
  by_cases h : p + n ≤ data.length <;> simp [plFileSeek, h]

theorem readVertex_short (data : List Byte) (q i : Nat) (t : Terrain) (V : Nat → Vertex)
    (h : data.length < q + 4) :
    readVertex i (⟨data, q⟩, t, V) = .error (.vertexDescriptor, t) := by
  simp only [readVertex, plReadInt16, readSizedInteger_any]
  have hs : decide ((if q + 2 ≤ data.length then q + 2 else data.length) + 2 ≤ data.length)
      = false := by
    rw [decide_eq_false_iff_not]
    split_ifs <;> omega
  rw [hs]
  rfl

theorem readTile_short (c : TerrainConsts) (data : List Byte) (q k tile_y tile_x : Nat)
    (t : Terrain) (V : Nat → Vertex) (h : data.length < q + 16) :
    ∃ e, readTile c k V tile_y tile_x (⟨data, q⟩, t) = .error (e, t) := by
  by_cases h6 : q + 6 ≤ data.length
  · refine ⟨.tileDescriptor, ?_⟩
    simp only [readTile, plReadInt8, plReadInt16, plReadInt32, plReadFile_ok data q 6 h6,
      readSizedInteger_any]
    rw [if_pos]
    simp only [Bool.not_eq_true', decide_eq_false_iff_not]
    split_ifs <;> omega
  · refine ⟨.unusedBytes, ?_⟩
    simp only [readTile, plReadFile_fail data q 6 (by omega)]

theorem readChunk_descriptor_short (c : TerrainConsts) (data : List Byte) (p k : Nat)
    (t : Terrain) (h : data.length < p + 8) :
    readChunk c k (⟨data, p⟩, t) = .error (.chunkDescriptor, t) := by
  simp only [readChunk, plReadInt16, readSizedInteger_any]
  rw [if_pos]
  simp only [Bool.not_eq_true', decide_eq_false_iff_not]
  split_ifs <;> omega

theorem trackHeight_updates (t : Terrain) (h : Int) :
    (trackHeight t h).updates = t.updates := by
  unfold trackHeight
  simp only []
  split_ifs <;> rfl

theorem trackVertices_updates (data : List Byte) (p : Nat) (t : Terrain) (n : Nat) :
    (trackVertices data p t n).updates = t.updates := by
  induction n with
  | zero => rfl
  | succ n ih => rw [trackVertices_succ, trackHeight_updates, ih]

theorem setTilesUpTo_other (t : Terrain) (k : Nat) (F : Nat → Tile) (m j : Nat) (h : j ≠ k) :
    (setTilesUpTo t k F m).chunks_ j = t.chunks_ j := by
  simp [setTilesUpTo, Function.update_noteq h]

theorem pmgTrack_updates (data : List Byte) (t : Terrain) (K : Nat) :
    (pmgTrack data t K).updates = t.updates := by
  induction K with
  | zero => rfl
  | succ K ih => rw [pmgTrack_succ, trackVertices_updates, ih]

/-! ## The index table -/

/-- C24: the index table of a chunk mesh has 96 entries, three for each of the 32 triangles
of the mesh; for every tile `t` below 16 its six entries `6t .. 6t+5` are `4t+0, 4t+2,
4t+1, 4t+1, 4t+2, 4t+3`; every entry is below 64, the number of vertices of the mesh; and
mesh generation writes the corner `i` of the tile `t = tile_x + tile_y * 4` as the vertex
number `4t + i`. -/
theorem chunk_indices_pattern :
    chunk_indices.length = 96
      ∧ chunk_indices.length = 3 * chunkMeshTriangles
      ∧ (∀ t, t < 16 →
          chunk_indices.get? (6 * t) = some (4 * t + 0)
          ∧ chunk_indices.get? (6 * t + 1) = some (4 * t + 2)
          ∧ chunk_indices.get? (6 * t + 2) = some (4 * t + 1)
          ∧ chunk_indices.get? (6 * t + 3) = some (4 * t + 1)
          ∧ chunk_indices.get? (6 * t + 4) = some (4 * t + 2)
          ∧ chunk_indices.get? (6 * t + 5) = some (4 * t + 3))
      ∧ (∀ e ∈ chunk_indices, e < chunkMeshVertices)
      ∧ (∀ (w : Nat) (f : RotationFlags) (atlas : Nat → ℚ × ℚ × ℚ × ℚ) (chunk : Chunk)
          (offset : PLVector2) (tile_y tile_x i : Nat), tile_y < 4 → tile_x < 4 → i < 4 →
          GenerateModel (grid w) f atlas chunk offset (4 * (tile_x + tile_y * 4) + i)
            = some (meshVertex (grid w) f atlas chunk offset tile_y tile_x i)) := by
  refine ⟨by decide, by decide, ?_, by decide, ?_⟩
  · intro t ht
    interval_cases t <;> decide
  · intro w f atlas chunk offset tile_y tile_x i hy hx hi
    exact GenerateModel_vertex w f atlas chunk offset tile_y tile_x i hy hx hi

/-! ## Corners shared inside a chunk -/

theorem pmgTile_shading (data : List Byte) (k tile_y tile_x : Nat) :
    (pmgTile data k tile_y tile_x).shading
      = ![(pmgVertex data k (tile_y * 5 + tile_x)).lighting % 256,
          (pmgVertex data k (tile_y * 5 + tile_x + 1)).lighting % 256,
          (pmgVertex data k ((tile_y + 1) * 5 + tile_x)).lighting % 256,
          (pmgVertex data k ((tile_y + 1) * 5 + tile_x + 1)).lighting % 256] := rfl

/-- C26: after a successful binary load, two tiles that are adjacent inside the same chunk
share their corner heights and shadings: for `tileCol < 3` the `height[1]` and `height[3]`
of a tile are the `height[0]` and `height[2]` of its east neighbour, for `tileRow < 3` its
`height[2]` and `height[3]` are the `height[0]` and `height[1]` of its south neighbour, and
the same holds of `shading`. -/
theorem LoadPmg_shared_corners (w : Nat) (t : Terrain) (data : List Byte)
    (hlen : pmgChunkSize * 256 ≤ data.length) :
    ∃ t1, LoadPmg (grid w) t (some data) = .loaded t1 ∧
      ∀ k tileRow tileCol, k < 256 → tileRow < 4 → tileCol < 4 →
        (tileCol < 3 →
          ((t1.chunks_ k).tiles (tileCol + tileRow * 4)).height 1
              = ((t1.chunks_ k).tiles (tileCol + 1 + tileRow * 4)).height 0
            ∧ ((t1.chunks_ k).tiles (tileCol + tileRow * 4)).height 3
              = ((t1.chunks_ k).tiles (tileCol + 1 + tileRow * 4)).height 2
            ∧ ((t1.chunks_ k).tiles (tileCol + tileRow * 4)).shading 1
              = ((t1.chunks_ k).tiles (tileCol + 1 + tileRow * 4)).shading 0
            ∧ ((t1.chunks_ k).tiles (tileCol + tileRow * 4)).shading 3
              = ((t1.chunks_ k).tiles (tileCol + 1 + tileRow * 4)).shading 2)
        ∧ (tileRow < 3 →
          ((t1.chunks_ k).tiles (tileCol + tileRow * 4)).height 2
              = ((t1.chunks_ k).tiles (tileCol + (tileRow + 1) * 4)).height 0
            ∧ ((t1.chunks_ k).tiles (tileCol + tileRow * 4)).height 3
              = ((t1.chunks_ k).tiles (tileCol + (tileRow + 1) * 4)).height 1
            ∧ ((t1.chunks_ k).tiles (tileCol + tileRow * 4)).shading 2
              = ((t1.chunks_ k).tiles (tileCol + (tileRow + 1) * 4)).shading 0
            ∧ ((t1.chunks_ k).tiles (tileCol + tileRow * 4)).shading 3
              = ((t1.chunks_ k).tiles (tileCol + (tileRow + 1) * 4)).shading 1) := by
  refine ⟨_, LoadPmg_ok w data t hlen, ?_⟩
  intro k tileRow tileCol hk hy hx
  constructor
  · intro hc
    rw [loaded_tile data t k tileRow tileCol hk hy hx,
      loaded_tile data t k tileRow (tileCol + 1) hk hy (by omega)]
    simp [pmgTile_height, pmgTile_shading, Nat.add_assoc]
  · intro hr
    rw [loaded_tile data t k tileRow tileCol hk hy hx,
      loaded_tile data t k (tileRow + 1) tileCol hk (by omega) hx]
    simp [pmgTile_height, pmgTile_shading]

theorem LoadPmg_shared_corners_witness :
    pmgChunkSize * 256 ≤ probeStream.length ∧
    ∃ t1, LoadPmg (grid 512) rampTerrain (some probeStream) = .loaded t1 ∧
      ((t1.chunks_ 1).tiles (0 + 3 * 4)).shading 1
        = ((t1.chunks_ 1).tiles (0 + 1 + 3 * 4)).shading 0 :=
  ⟨probeStream_length,
    match LoadPmg_shared_corners 512 rampTerrain probeStream probeStream_length with
    | ⟨t1, h1, h2⟩ =>
      ⟨t1, h1, ((h2 1 3 0 (by decide) (by decide) (by decide)).1 (by decide)).2.2.1⟩⟩

/-! ## What a heightmap load leaves alone -/

/-- C29: a successful image-heightmap load keeps the surface, the behaviour, the rotation
and the slip of every tile of every chunk; what it writes are the four heights, the
texture and the four shading values of the tiles, the minimum and maximum height, and the
count of updates. -/
theorem LoadHeightmap_frame (w : Nat) (t : Terrain) (image : PLImage) (multiplier : Int)
    (hw : 65 ≤ image.width) (hh : 65 ≤ image.height) :
    ∃ t1, LoadHeightmap (grid w) t (some image) multiplier = .loaded t1
      ∧ ∀ k j,
        ((t1.chunks_ k).tiles j).surface = ((t.chunks_ k).tiles j).surface
        ∧ ((t1.chunks_ k).tiles j).behaviour = ((t.chunks_ k).tiles j).behaviour
        ∧ ((t1.chunks_ k).tiles j).rotation = ((t.chunks_ k).tiles j).rotation
        ∧ ((t1.chunks_ k).tiles j).slip = ((t.chunks_ k).tiles j).slip := by
  refine ⟨_, LoadHeightmap_ok w t image multiplier hw hh, ?_⟩
  intro k j
  obtain ⟨_, hge, hlt, _⟩ := heightmapLoops_spec w (heightmapRchan image multiplier)
    (heightmapGchan image) t
  rw [Update_chunks]
  by_cases hk : k < 256
  · rw [hlt k hk j]
    by_cases hj : j < 16
    · rw [if_pos hj]
      exact ⟨rfl, rfl, rfl, rfl⟩
    · rw [if_neg hj]
      exact ⟨rfl, rfl, rfl, rfl⟩
  · rw [hge k (by omega)]
    exact ⟨rfl, rfl, rfl, rfl⟩

theorem LoadHeightmap_frame_witness :
    65 ≤ peakImage.width ∧ 65 ≤ peakImage.height ∧
    ∃ t1, LoadHeightmap (grid 512) rampTerrain (some peakImage) 3 = .loaded t1
      ∧ ∀ k j,
        ((t1.chunks_ k).tiles j).surface = ((rampTerrain.chunks_ k).tiles j).surface
        ∧ ((t1.chunks_ k).tiles j).behaviour = ((rampTerrain.chunks_ k).tiles j).behaviour
        ∧ ((t1.chunks_ k).tiles j).rotation = ((rampTerrain.chunks_ k).tiles j).rotation
        ∧ ((t1.chunks_ k).tiles j).slip = ((rampTerrain.chunks_ k).tiles j).slip :=
  ⟨by decide, by decide, LoadHeightmap_frame 512 rampTerrain peakImage 3 (by decide) (by decide)⟩

/-! ## Mesh positions and lookup -/

theorem UpdateModels_eq (w : Nat) (f : RotationFlags) (atlas : Nat → ℚ × ℚ × ℚ × ℚ)
    (t : Terrain) : UpdateModels (grid w) f atlas t = modelsUpTo w f atlas t 256 := by
  show forEach (fun chunk_y =>
      forEach (fun chunk_x (models : Nat → Option (Nat → Option MeshVertex)) =>
          Function.update models (chunk_x + chunk_y * 16)
            (some (GenerateModel (grid w) f atlas (t.chunks_ (chunk_x + chunk_y * 16))
              ⟨(chunk_x : ℚ), (chunk_y : ℚ)⟩))) 16) 16 (fun _ => none) = _
  have h := forEach_nested (fun chunk_y chunk_x (models : Nat → Option (Nat → Option MeshVertex)) =>
      Function.update models (chunk_x + chunk_y * 16)
        (some (GenerateModel (grid w) f atlas (t.chunks_ (chunk_x + chunk_y * 16))
          ⟨(chunk_x : ℚ), (chunk_y : ℚ)⟩))) 16 16 (by decide) (fun _ => none)
  rw [h]
  have key := forEach_eq (fun j (models : Nat → Option (Nat → Option MeshVertex)) =>
      Function.update models (j % 16 + j / 16 * 16)
        (some (GenerateModel (grid w) f atlas (t.chunks_ (j % 16 + j / 16 * 16))
          ⟨((j % 16 : Nat) : ℚ), ((j / 16 : Nat) : ℚ)⟩)))
    (modelsUpTo w f atlas t) 256
    (by
      intro i _
      have e : i % 16 + i / 16 * 16 = i := by omega
      simp only [e]
      funext k
      unfold modelsUpTo
      by_cases hk : k = i
      · subst hk
        simp
      · rw [Function.update_noteq hk]
        by_cases h1 : k < i
        · have h2 : k < i + 1 := by omega
          simp [h1, h2]
        · have h2 : ¬ k < i + 1 := by omega
          simp [h1, h2])
  have h0 : modelsUpTo w f atlas t 0 = fun _ => none := by
    funext k
    simp [modelsUpTo]
  rw [h0] at key
  exact key

theorem UpdateModels_chunk (w : Nat) (f : RotationFlags) (atlas : Nat → ℚ × ℚ × ℚ × ℚ)
    (t : Terrain) (cx cy : Nat) (hcx : cx < 16) (hcy : cy < 16) :
    UpdateModels (grid w) f atlas t (cx + cy * 16)
      = some (GenerateModel (grid w) f atlas (t.chunks_ (cx + cy * 16)) ⟨(cx : ℚ), (cy : ℚ)⟩) := by
  rw [UpdateModels_eq]
  have h1 : cx + cy * 16 < 256 := by omega
  have h2 : (cx + cy * 16) % 16 = cx := by omega
  have h3 : (cx + cy * 16) / 16 = cy := by omega
  simp only [modelsUpTo, h1, if_true, h2, h3]

theorem meshVertex_position (w : Nat) (f : RotationFlags) (atlas : Nat → ℚ × ℚ × ℚ × ℚ)
    (chunk : Chunk) (cx cy tile_y tile_x i : Nat) (hfit : 64 * w ≤ 2 ^ 32)
    (hy : tile_y < 4) (hx : tile_x < 4) (hi : i < 4) :
    (meshVertex (grid w) f atlas chunk ⟨(cx : ℚ), (cy : ℚ)⟩ tile_y tile_x i).position
      = ((((4 * cx + tile_x + i % 2) * w : Nat) : ℚ),
          (chunk.tiles (tile_x + tile_y * 4)).height (Fin.ofNat i),
          (((4 * cy + tile_y + i / 2) * w : Nat) : ℚ)) := by
  have hx1 : tile_x + i % 2 < 2 ^ 32 := by omega
  have hy1 : tile_y + i / 2 < 2 ^ 32 := by omega
  have hx2 : (tile_x + i % 2) * w < 2 ^ 32 := by
    have : (tile_x + i % 2) * w ≤ 4 * w := Nat.mul_le_mul_right w (by omega)
    omega
  have hy2 : (tile_y + i / 2) * w < 2 ^ 32 := by
    have : (tile_y + i / 2) * w ≤ 4 * w := Nat.mul_le_mul_right w (by omega)
    omega
  simp only [meshVertex, grid, u32_of_lt hx1, u32_of_lt hy1, u32_of_lt hx2, u32_of_lt hy2]
  refine Prod.ext ?_ (Prod.ext rfl ?_)
  · simp only []
    push_cast
    ring
  · simp only []
    push_cast
    ring

theorem GetTile_node (w gx gy : Nat) (hw : 0 < w) (hfit : 64 * w ≤ 2 ^ 32)
    (hx : gx < 64) (hy : gy < 64) :
    GetTile (grid w) (nodePosition w gx gy)
      = some (gx / 4 + gy / 4 * 16, gx % 4 + gy % 4 * 4) := by
  have hx1 : ((gx * w : Nat) : ℚ) < ((grid w).TERRAIN_PIXEL_WIDTH : ℚ) := by
    show ((gx * w : Nat) : ℚ) < ((64 * w : Nat) : ℚ)
    exact_mod_cast Nat.mul_lt_mul_of_pos_right hx hw
  have hy1 : ((gy * w : Nat) : ℚ) < ((grid w).TERRAIN_PIXEL_WIDTH : ℚ) := by
    show ((gy * w : Nat) : ℚ) < ((64 * w : Nat) : ℚ)
    exact_mod_cast Nat.mul_lt_mul_of_pos_right hy hw
  have h := @GetTile_grid w (nodePosition w gx gy) hfit (Nat.cast_nonneg _) hx1
    (Nat.cast_nonneg _) hy1
  rw [h]
  have e1 : ⌊(nodePosition w gx gy).x⌋₊ = gx * w := Nat.floor_natCast _
  have e2 : ⌊(nodePosition w gx gy).y⌋₊ = gy * w := Nat.floor_natCast _
  have d1 : gx * w / (4 * w) = gx / 4 := by
    rw [Nat.mul_comm 4 w, ← Nat.div_div_eq_div_mul, Nat.mul_div_cancel _ hw]
  have d2 : gy * w / (4 * w) = gy / 4 := by
    rw [Nat.mul_comm 4 w, ← Nat.div_div_eq_div_mul, Nat.mul_div_cancel _ hw]
  rw [e1, e2, d1, d2, Nat.mul_div_cancel _ hw, Nat.mul_div_cancel _ hw]

theorem GetHeight_node (w gx gy : Nat) (t : Terrain) (hw : 0 < w) (hfit : 64 * w ≤ 2 ^ 32)
    (hx : gx < 64) (hy : gy < 64) :
    GetHeight (grid w) t (nodePosition w gx gy)
      = ((t.chunks_ (gx / 4 + gy / 4 * 16)).tiles (gx % 4 + gy % 4 * 4)).height 0 := by
  unfold GetHeight
  rw [GetTile_node w gx gy hw hfit hx hy]
  have fx : ((gx * w : Nat) : ℚ) - ⌊((gx * w : Nat) : ℚ)⌋ = 0 := by
    rw [Int.floor_natCast, Int.cast_natCast, sub_self]
  have fy : ((gy * w : Nat) : ℚ) - ⌊((gy * w : Nat) : ℚ)⌋ = 0 := by
    rw [Int.floor_natCast, Int.cast_natCast, sub_self]
  simp only [nodePosition, Terrain.tileAt, fx, fy, mul_zero, add_zero]

/-- C23, as stated, fails: for the chunk at column 1 and row 0 of a map with tiles 512 wide,
`Update` passes the offset `(1, 0)` and the vertex written for the corner 0 of the tile
`(0, 0)` has `X = 2048`, four tiles to the east of the origin, where
`(chunkOffsetX + tileX + (i mod 2)) * tileWidth` is 512. -/
theorem Update_vertex_second_chunk :
    ∃ model v,
      UpdateModels (grid 512) sampleFlags sampleAtlas rampTerrain (1 + 0 * 16) = some model
        ∧ model (4 * (0 + 0 * 4) + 0) = some v
        ∧ v.position.1 = 2048
        ∧ (((1 + 0 + 0 % 2) * 512 : Nat) : ℚ) = 512 := by
  refine ⟨_, _, UpdateModels_chunk 512 sampleFlags sampleAtlas rampTerrain 1 0 (by decide)
    (by decide), GenerateModel_vertex 512 sampleFlags sampleAtlas _ _ 0 0 0 (by decide)
    (by decide) (by decide), ?_, by norm_num⟩
  have h := meshVertex_position 512 sampleFlags sampleAtlas (rampTerrain.chunks_ (1 + 0 * 16))
    1 0 0 0 0 (by decide) (by decide) (by decide) (by decide)
  rw [h]
  norm_num

/-- C23, amended: for the chunk at column `cx` and row `cy`, to which `Update` passes the
offset `(cx, cy)`, every tile `(tile_x, tile_y)` and every corner `i`, the vertex written
has `X = (4 * cx + tile_x + (i mod 2)) * tileWidth` and
`Z = (4 * cy + tile_y + (i div 2)) * tileWidth`, the chunk offset counting chunks of four
tiles, and `Y` equal to the corner height `i` of the tile. -/
theorem Update_vertex_position (w : Nat) (f : RotationFlags) (atlas : Nat → ℚ × ℚ × ℚ × ℚ)
    (t : Terrain) (cx cy tile_y tile_x i : Nat) (hfit : 64 * w ≤ 2 ^ 32)
    (hcx : cx < 16) (hcy : cy < 16) (hy : tile_y < 4) (hx : tile_x < 4) (hi : i < 4) :
    ∃ model v,
      UpdateModels (grid w) f atlas t (cx + cy * 16) = some model
        ∧ model (4 * (tile_x + tile_y * 4) + i) = some v
        ∧ v.position.1 = (((4 * cx + tile_x + i % 2) * w : Nat) : ℚ)
        ∧ v.position.2.2 = (((4 * cy + tile_y + i / 2) * w : Nat) : ℚ)
        ∧ v.position.2.1
          = ((t.chunks_ (cx + cy * 16)).tiles (tile_x + tile_y * 4)).height (Fin.ofNat i) := by
  refine ⟨_, _, UpdateModels_chunk w f atlas t cx cy hcx hcy,
    GenerateModel_vertex w f atlas _ _ tile_y tile_x i hy hx hi, ?_, ?_, ?_⟩ <;>
  rw [meshVertex_position w f atlas _ cx cy tile_y tile_x i hfit hy hx hi]

theorem Update_vertex_position_witness :
    ∃ model v,
      UpdateModels (grid 512) sampleFlags sampleAtlas rampTerrain (1 + 2 * 16) = some model
        ∧ model (4 * (3 + 0 * 4) + 1) = some v
        ∧ v.position.1 = (((4 * 1 + 3 + 1 % 2) * 512 : Nat) : ℚ)
        ∧ v.position.2.2 = (((4 * 2 + 0 + 1 / 2) * 512 : Nat) : ℚ)
        ∧ v.position.2.1
          = ((rampTerrain.chunks_ (1 + 2 * 16)).tiles (3 + 0 * 4)).height (Fin.ofNat 1) :=
  Update_vertex_position 512 sampleFlags sampleAtlas rampTerrain 1 2 0 3 1 (by decide)
    (by decide) (by decide) (by decide) (by decide) (by decide)

/-- C28: mesh generation and tile lookup agree.  For every chunk `(cx, cy)` and tile
`(tx, ty)`, `GetTile` at the world position `(X, Z)` of the vertex that `GenerateModel`
writes for the corner 0 of the tile returns the tile `tx + ty * 4` of the chunk
`cx + cy * 16`, and `GetHeight` at that position returns `height[0]` of the tile, the `Y`
of the vertex. -/
theorem GenerateModel_lookup_agree (w : Nat) (f : RotationFlags)
    (atlas : Nat → ℚ × ℚ × ℚ × ℚ) (t : Terrain) (cx cy ty tx : Nat)
    (hw : 0 < w) (hfit : 64 * w ≤ 2 ^ 32)
    (hcx : cx < 16) (hcy : cy < 16) (hy : ty < 4) (hx : tx < 4) :
    ∃ model v,
      UpdateModels (grid w) f atlas t (cx + cy * 16) = some model
        ∧ model (4 * (tx + ty * 4) + 0) = some v
        ∧ GetTile (grid w) ⟨v.position.1, v.position.2.2⟩ = some (cx + cy * 16, tx + ty * 4)
        ∧ GetHeight (grid w) t ⟨v.position.1, v.position.2.2⟩
          = ((t.chunks_ (cx + cy * 16)).tiles (tx + ty * 4)).height 0
        ∧ v.position.2.1 = ((t.chunks_ (cx + cy * 16)).tiles (tx + ty * 4)).height 0 := by
  have e1 : (4 * cx + tx) / 4 + (4 * cy + ty) / 4 * 16 = cx + cy * 16 := by omega
  have e2 : (4 * cx + tx) % 4 + (4 * cy + ty) % 4 * 4 = tx + ty * 4 := by omega
  have hp := meshVertex_position w f atlas (t.chunks_ (cx + cy * 16)) cx cy ty tx 0 hfit hy hx
    (by decide)
  have hpos : (⟨(meshVertex (grid w) f atlas (t.chunks_ (cx + cy * 16)) ⟨(cx : ℚ), (cy : ℚ)⟩
      ty tx 0).position.1, (meshVertex (grid w) f atlas (t.chunks_ (cx + cy * 16))
      ⟨(cx : ℚ), (cy : ℚ)⟩ ty tx 0).position.2.2⟩ : PLVector2)
      = nodePosition w (4 * cx + tx) (4 * cy + ty) := by
    rw [hp]
    rfl
  refine ⟨_, _, UpdateModels_chunk w f atlas t cx cy hcx hcy,
    GenerateModel_vertex w f atlas _ _ ty tx 0 hy hx (by decide), ?_, ?_, ?_⟩
  · rw [hpos, GetTile_node w _ _ hw hfit (by omega) (by omega), e1, e2]
  · rw [hpos, GetHeight_node w _ _ t hw hfit (by omega) (by omega), e1, e2]
  · rw [hp]
    rfl

theorem GenerateModel_lookup_agree_witness :
    ∃ model v,
      UpdateModels (grid 512) sampleFlags sampleAtlas rampTerrain (15 + 3 * 16) = some model
        ∧ model (4 * (1 + 2 * 4) + 0) = some v
        ∧ GetTile (grid 512) ⟨v.position.1, v.position.2.2⟩ = some (15 + 3 * 16, 1 + 2 * 4)
        ∧ GetHeight (grid 512) rampTerrain ⟨v.position.1, v.position.2.2⟩
          = ((rampTerrain.chunks_ (15 + 3 * 16)).tiles (1 + 2 * 4)).height 0
        ∧ v.position.2.1 = ((rampTerrain.chunks_ (15 + 3 * 16)).tiles (1 + 2 * 4)).height 0 :=
  GenerateModel_lookup_agree 512 sampleFlags sampleAtlas rampTerrain 15 3 2 1 (by decide)
    (by decide) (by decide) (by decide) (by decide) (by decide)

/-! ## Sampling for the overview -/

theorem overviewPosition_grid (w x y : Nat) (hfit : 64 * w ≤ 2 ^ 31) (hx : x < 64)
    (hy : y < 64) : overviewPosition (grid w) x y = nodePosition w x y := by
  have hd : (grid w).TERRAIN_PIXEL_WIDTH / 64 = w := by
    show 64 * w / 64 = w
    exact Nat.mul_div_cancel_left w (by decide)
  have hm : ∀ n : Nat, n < 64 → mulInt (n : Int) (w : Int) = ((n * w : Nat) : Int) := by
    intro n hn
    have h1 : n * w < 2 ^ 31 := by
      have : n * w ≤ 63 * w := Nat.mul_le_mul_right w (by omega)
      omega
    have h2 : ((n : Int) * (w : Int)) = ((n * w : Nat) : Int) := by push_cast; ring
    rw [mulInt_exact _ _ (by rw [h2]; omega) (by rw [h2]; omega), h2]
  unfold overviewPosition nodePosition
  rw [hd, hm x hx, hm y hy]
  simp only [Int.cast_natCast]

/-- C27: overview sampling is a bijection onto the tiles of the map.  For every pixel
`(px, py)` with `px, py < 64` the sample position lies inside the map, `GetTile` does not
return `none` there (the assertion on the tile pointer cannot fire) and selects the tile
`(px mod 4) + (py mod 4) * 4` of the chunk `(px div 4) + (py div 4) * 16`; distinct pixels
select distinct tiles, and every tile of the grid is selected by exactly one pixel. -/
theorem overview_sampling_bijective (w : Nat) (hw : 0 < w) (hfit : 64 * w ≤ 2 ^ 31) :
    (∀ px py, px < 64 → py < 64 →
        0 ≤ (overviewPosition (grid w) px py).x
        ∧ (overviewPosition (grid w) px py).x < ((grid w).TERRAIN_PIXEL_WIDTH : ℚ)
        ∧ 0 ≤ (overviewPosition (grid w) px py).y
        ∧ (overviewPosition (grid w) px py).y < ((grid w).TERRAIN_PIXEL_WIDTH : ℚ)
        ∧ GetTile (grid w) (overviewPosition (grid w) px py) ≠ none
        ∧ GetTile (grid w) (overviewPosition (grid w) px py)
          = some (px / 4 + py / 4 * 16, px % 4 + py % 4 * 4))
      ∧ (∀ px py qx qy, px < 64 → py < 64 → qx < 64 → qy < 64 →
          GetTile (grid w) (overviewPosition (grid w) px py)
            = GetTile (grid w) (overviewPosition (grid w) qx qy) →
          px = qx ∧ py = qy)
      ∧ (∀ k j, k < 256 → j < 16 →
          ∃! p : Nat × Nat, p.1 < 64 ∧ p.2 < 64
            ∧ GetTile (grid w) (overviewPosition (grid w) p.1 p.2) = some (k, j)) := by
  have hfit2 : 64 * w ≤ 2 ^ 32 := by omega
  have key : ∀ px py, px < 64 → py < 64 →
      GetTile (grid w) (overviewPosition (grid w) px py)
        = some (px / 4 + py / 4 * 16, px % 4 + py % 4 * 4) := by
    intro px py hx hy
    rw [overviewPosition_grid w px py hfit hx hy, GetTile_node w px py hw hfit2 hx hy]
  have hlt : ∀ n : Nat, n < 64 → ((n * w : Nat) : ℚ) < ((grid w).TERRAIN_PIXEL_WIDTH : ℚ) := by
    intro n hn
    show ((n * w : Nat) : ℚ) < ((64 * w : Nat) : ℚ)
    exact_mod_cast Nat.mul_lt_mul_of_pos_right hn hw
  refine ⟨?_, ?_, ?_⟩
  · intro px py hx hy
    refine ⟨?_, ?_, ?_, ?_, ?_, key px py hx hy⟩
    · rw [overviewPosition_grid w px py hfit hx hy]
      exact Nat.cast_nonneg _
    · rw [overviewPosition_grid w px py hfit hx hy]
      exact hlt px hx
    · rw [overviewPosition_grid w px py hfit hx hy]
      exact Nat.cast_nonneg _
    · rw [overviewPosition_grid w px py hfit hx hy]
      exact hlt py hy
    · rw [key px py hx hy]
      exact Option.some_ne_none _
  · intro px py qx qy hpx hpy hqx hqy h
    rw [key px py hpx hpy, key qx qy hqx hqy] at h
    have h1 := congrArg Prod.fst (Option.some.inj h)
    have h2 := congrArg Prod.snd (Option.some.inj h)
    simp only [] at h1 h2
    constructor <;> omega
  · intro k j hk hj
    refine ⟨(4 * (k % 16) + j % 4, 4 * (k / 16) + j / 4), ⟨by simp only []; omega,
      by simp only []; omega, ?_⟩, ?_⟩
    · simp only []
      rw [key _ _ (by omega) (by omega)]
      have e1 : (4 * (k % 16) + j % 4) / 4 + (4 * (k / 16) + j / 4) / 4 * 16 = k := by omega
      have e2 : (4 * (k % 16) + j % 4) % 4 + (4 * (k / 16) + j / 4) % 4 * 4 = j := by omega
      rw [e1, e2]
    · rintro ⟨qx, qy⟩ ⟨hqx, hqy, hq⟩
      simp only [] at hqx hqy hq
      rw [key qx qy hqx hqy] at hq
      have h1 := congrArg Prod.fst (Option.some.inj hq)
      have h2 := congrArg Prod.snd (Option.some.inj hq)
      simp only [] at h1 h2
      refine Prod.ext ?_ ?_ <;> simp only [] <;> omega

theorem overview_sampling_bijective_witness :
    (∀ px py, px < 64 → py < 64 →
        0 ≤ (overviewPosition (grid 512) px py).x
        ∧ (overviewPosition (grid 512) px py).x < ((grid 512).TERRAIN_PIXEL_WIDTH : ℚ)
        ∧ 0 ≤ (overviewPosition (grid 512) px py).y
        ∧ (overviewPosition (grid 512) px py).y < ((grid 512).TERRAIN_PIXEL_WIDTH : ℚ)
        ∧ GetTile (grid 512) (overviewPosition (grid 512) px py) ≠ none
        ∧ GetTile (grid 512) (overviewPosition (grid 512) px py)
          = some (px / 4 + py / 4 * 16, px % 4 + py % 4 * 4))
      ∧ (∀ px py qx qy, px < 64 → py < 64 → qx < 64 → qy < 64 →
          GetTile (grid 512) (overviewPosition (grid 512) px py)
            = GetTile (grid 512) (overviewPosition (grid 512) qx qy) →
          px = qx ∧ py = qy)
      ∧ (∀ k j, k < 256 → j < 16 →
          ∃! p : Nat × Nat, p.1 < 64 ∧ p.2 < 64
            ∧ GetTile (grid 512) (overviewPosition (grid 512) p.1 p.2) = some (k, j)) :=
  overview_sampling_bijective 512 (by decide) (by decide)

/-! ## The colours of the overview -/

theorem GenerateOverview_pixel (c : TerrainConsts) (mine : Nat) (t : Terrain) (x y : Nat)
    (hx : x < 64) (hy : y < 64) :
    GenerateOverview c mine t (x + y * 64) = overviewPixel c mine t x y := by
  unfold GenerateOverview
  have h := forEach_nested
    (fun y x (s : Nat × (Nat → Option (Nat × Nat × Nat))) =>
      (s.1 + 1, Function.update s.2 s.1 (overviewPixel c mine t x y))) 64 64 (by decide)
    (0, fun _ => none)
  rw [h]
  have key := forEach_eq
    (fun j (s : Nat × (Nat → Option (Nat × Nat × Nat))) =>
      (s.1 + 1, Function.update s.2 s.1 (overviewPixel c mine t (j % 64) (j / 64))))
    (fun n => (n, fun k => if k < n then overviewPixel c mine t (k % 64) (k / 64) else none))
    (64 * 64)
    (by
      intro i _
      refine Prod.ext rfl ?_
      funext k
      simp only []
      by_cases hk : k = i
      · subst hk
        simp
      · rw [Function.update_noteq hk]
        by_cases h1 : k < i
        · have h2 : k < i + 1 := by omega
          simp [h1, h2]
        · have h2 : ¬ k < i + 1 := by omega
          simp [h1, h2])
  have h0 : ((0, fun k => if k < 0 then overviewPixel c mine t (k % 64) (k / 64) else none) :
        Nat × (Nat → Option (Nat × Nat × Nat)))
      = (0, fun _ => none) := by
    refine Prod.ext rfl ?_
    funext k
    simp
  beta_reduce at key
  rw [h0] at key
  rw [key]
  have h1 : x + y * 64 < 64 * 64 := by omega
  have h2 : (x + y * 64) % 64 = x := by omega
  have h3 : (x + y * 64) / 64 = y := by omega
  simp only [h1, if_true, h2, h3]

theorem overviewPixel_grid (w mine : Nat) (t : Terrain) (x y : Nat) (r g b : Nat)
    (hw : 0 < w) (hfit : 64 * w ≤ 2 ^ 31) (hx : x < 64) (hy : y < 64)
    (hs : colours.get? ((t.chunks_ (x / 4 + y / 4 * 16)).tiles (x % 4 + y % 4 * 4)).surface
      = some (r, g, b)) :
    overviewPixel (grid w) mine t x y
      = some (if ((t.chunks_ (x / 4 + y / 4 * 16)).tiles (x % 4 + y % 4 * 4)).behaviour
            &&& mine ≠ 0 then (255, 0, 0)
          else (toUnsigned 8
              (overviewChannel r (overviewMod (grid w) t (overviewPosition (grid w) x y))),
            toUnsigned 8
              (overviewChannel g (overviewMod (grid w) t (overviewPosition (grid w) x y))),
            toUnsigned 8
              (overviewChannel b (overviewMod (grid w) t (overviewPosition (grid w) x y))))) := by
  have hg : GetTile (grid w) (overviewPosition (grid w) x y)
      = some (x / 4 + y / 4 * 16, x % 4 + y % 4 * 4) := by
    rw [overviewPosition_grid w x y hfit hx hy, GetTile_node w x y hw (by omega) hx hy]
  unfold overviewPixel
  simp only [hg, Terrain.tileAt, hs]

/-- C21: for every overview pixel whose sampled tile has the mine behaviour flag set, the
colour written is `(255, 0, 0)`, whatever the surface of the tile (one of the 12 entries
of the palette), the sampled height and the minimum and maximum heights are. -/
theorem GenerateOverview_mine (w mine : Nat) (t : Terrain) (x y : Nat)
    (hw : 0 < w) (hfit : 64 * w ≤ 2 ^ 31) (hx : x < 64) (hy : y < 64)
    (hs : ((t.chunks_ (x / 4 + y / 4 * 16)).tiles (x % 4 + y % 4 * 4)).surface < colours.length)
    (hm : ((t.chunks_ (x / 4 + y / 4 * 16)).tiles (x % 4 + y % 4 * 4)).behaviour &&& mine ≠ 0) :
    GetTile (grid w) (overviewPosition (grid w) x y)
        = some (x / 4 + y / 4 * 16, x % 4 + y % 4 * 4)
      ∧ GenerateOverview (grid w) mine t (x + y * 64) = some (255, 0, 0) := by
  constructor
  · rw [overviewPosition_grid w x y hfit hx hy, GetTile_node w x y hw (by omega) hx hy]
  · obtain ⟨⟨r, g, b⟩, hc⟩ : ∃ rgb, colours.get?
        ((t.chunks_ (x / 4 + y / 4 * 16)).tiles (x % 4 + y % 4 * 4)).surface = some rgb :=
      ⟨_, List.get?_eq_get hs⟩
    rw [GenerateOverview_pixel (grid w) mine t x y hx hy,
      overviewPixel_grid w mine t x y r g b hw hfit hx hy hc, if_pos hm]

theorem GenerateOverview_mine_witness :
    GetTile (grid 512) (overviewPosition (grid 512) 5 9)
        = some (5 / 4 + 9 / 4 * 16, 5 % 4 + 9 % 4 * 4)
      ∧ GenerateOverview (grid 512) 64 mineTerrain (5 + 9 * 64) = some (255, 0, 0) :=
  GenerateOverview_mine 512 64 mineTerrain 5 9 (by decide) (by decide) (by decide) (by decide)
    (by decide) (by decide)

theorem truncInt_deep : truncInt (((-300 : ℚ) + ((0 + -300) / 2)) / 255) = -1 := by
  unfold truncInt
  rw [if_neg (by norm_num)]
  rw [Int.ceil_eq_iff]
  norm_num

theorem overviewMod_deep :
    overviewMod (grid 512) deepTerrain (overviewPosition (grid 512) 0 0) = -1 := by
  unfold overviewMod
  rw [overviewPosition_grid 512 0 0 (by decide) (by decide) (by decide),
    GetHeight_node 512 0 0 deepTerrain (by decide) (by decide) (by decide) (by decide)]
  have h : ((deepTerrain.chunks_ (0 / 4 + 0 / 4 * 16)).tiles (0 % 4 + 0 % 4 * 4)).height 0
      = -300 := by
    simp [deepTerrain]
  rw [h]
  exact truncInt_deep

theorem overviewChannel_range (base : Nat) (mod : Int) (hb : base < 256) (h0 : 0 ≤ mod)
    (h1 : mod < 2 ^ 24) :
    0 ≤ overviewChannel base mod ∧ overviewChannel base mod ≤ 255
      ∧ ((toUnsigned 8 (overviewChannel base mod) : Nat) : Int) = overviewChannel base mod := by
  have hq : base / 9 ≤ 28 := by omega
  have hq0 : (0 : Int) ≤ ((base / 9 : Nat) : Int) := Int.ofNat_nonneg _
  have hq1 : ((base / 9 : Nat) : Int) ≤ 28 := by exact_mod_cast hq
  have hp0 : 0 ≤ ((base / 9 : Nat) : Int) * mod := mul_nonneg hq0 h0
  have hp1 : ((base / 9 : Nat) : Int) * mod ≤ 28 * mod := mul_le_mul_of_nonneg_right hq1 h0
  have hm : mulInt ((base / 9 : Nat) : Int) mod = ((base / 9 : Nat) : Int) * mod :=
    mulInt_exact _ _ (by omega) (by
      have e24 : (2 : Int) ^ 24 = 16777216 := by norm_num
      have e31 : (2 : Int) ^ 31 = 2147483648 := by norm_num
      rw [e24] at h1
      rw [e31]
      omega)
  unfold overviewChannel
  rw [hm]
  have hmin0 : 0 ≤ min (((base / 9 : Nat) : Int) * mod) 255 := le_min hp0 (by norm_num)
  have hmin1 : min (((base / 9 : Nat) : Int) * mod) 255 ≤ 255 := min_le_right _ _
  refine ⟨hmin0, hmin1, ?_⟩
  unfold toUnsigned
  generalize min (((base / 9 : Nat) : Int) * mod) 255 = v at hmin0 hmin1
  have : v % 2 ^ 8 = v := Int.emod_eq_of_lt hmin0 (by norm_num; omega)
  rw [this]
  exact Int.toNat_of_nonneg hmin0

/-- C25: the colour channels have no lower clamp.  For a brightness factor `mod >= 0` a
channel `min( ( base / 9 ) * mod, 255 )` lies in `0..255` and is the byte stored; for a
negative factor it does not.  On a terrain of mud tiles at the height -300 with the minimum
height -300 and the maximum height 0, the factor at the pixel `(0, 0)` is
`trunc( ( -300 + ( 0 + -300 ) / 2 ) / 255 ) = -1`, the red channel is
`min( ( 60 / 9 ) * -1, 255 ) = -6`, and the bytes stored are `250, 251, 252`. -/
theorem GenerateOverview_negative_brightness :
    (∀ (base : Nat) (mod : Int), base < 256 → 0 ≤ mod → mod < 2 ^ 24 →
        0 ≤ overviewChannel base mod ∧ overviewChannel base mod ≤ 255
          ∧ ((toUnsigned 8 (overviewChannel base mod) : Nat) : Int) = overviewChannel base mod)
      ∧ overviewMod (grid 512) deepTerrain (overviewPosition (grid 512) 0 0) = -1
      ∧ overviewChannel 60 (-1) = -6
      ∧ ¬ (0 ≤ overviewChannel 60 (-1))
      ∧ GenerateOverview (grid 512) 64 deepTerrain (0 + 0 * 64) = some (250, 251, 252) := by
  refine ⟨overviewChannel_range, overviewMod_deep, by decide, by decide, ?_⟩
  have hs : colours.get?
      ((deepTerrain.chunks_ (0 / 4 + 0 / 4 * 16)).tiles (0 % 4 + 0 % 4 * 4)).surface
      = some (60, 50, 40) := rfl
  have hb : ¬ (((deepTerrain.chunks_ (0 / 4 + 0 / 4 * 16)).tiles (0 % 4 + 0 % 4 * 4)).behaviour
      &&& 64 ≠ 0) := by decide
  rw [GenerateOverview_pixel (grid 512) 64 deepTerrain 0 0 (by decide) (by decide),
    overviewPixel_grid 512 64 deepTerrain 0 0 60 50 40 (by decide) (by decide) (by decide)
      (by decide) hs, overviewMod_deep, if_neg hb]
  decide

/-! ## The face format -/

theorem fread_ok (data : List Byte) (pos size count : Nat) (hs : 0 < size)
    (h : pos + size * count ≤ data.length) :
    fread ⟨data, pos⟩ size count = (count, ⟨data, pos + size * count⟩) := by
  have h1 : size * count ≤ data.length - pos := by omega
  have h2 : size ≠ 0 := by omega
  simp [fread, h1, h2]

theorem fread_short (data : List Byte) (pos size count : Nat)
    (h : data.length - pos < size * count) :
    fread ⟨data, pos⟩ size count
      = ((data.length - pos) / size, ⟨data, pos + (data.length - pos)⟩) := by
  have h1 : ¬ (size * count ≤ data.length - pos) := by omega
  simp [fread, h1]

theorem facCopyIndices_eq (vertex normal : Nat → Nat) (tri : FacTriangle) :
    facCopyIndices vertex normal tri
      = { tri with
          vertex_indices := ![vertex 0, vertex 1, vertex 2]
          normal_indices := ![normal 0, normal 1, normal 2] } := by
  have h1 : (facCopyIndices vertex normal tri).vertex_indices
      = ![vertex 0, vertex 1, vertex 2] := by
    funext j
    fin_cases j <;> rfl
  have h2 : (facCopyIndices vertex normal tri).normal_indices
      = ![normal 0, normal 1, normal 2] := by
    funext j
    fin_cases j <;> rfl
  have h3 : (facCopyIndices vertex normal tri).texture_index = tri.texture_index := rfl
  cases h : facCopyIndices vertex normal tri with
  | mk v n x =>
    rw [h] at h1 h2 h3
    simp only [] at h1 h2 h3
    rw [h1, h2, h3]

theorem facTriangleBody_eq (data : List Byte) (base i : Nat) (tris : Nat → FacTriangle) :
    facTriangleBody data base i tris = Function.update tris i (facTriangleOf data base i) := by
  unfold facTriangleBody
  rw [facCopyIndices_eq]
  rfl

theorem facTriangles_ok (data : List Byte) (base : Nat) (fresh : Nat → FacTriangle) (T : Nat) :
    forEach (facTriangleBody data base) T fresh = facTrianglesUpTo data base fresh T := by
  have key := forEach_eq (facTriangleBody data base) (facTrianglesUpTo data base fresh) T
    (by
      intro i _
      rw [facTriangleBody_eq]
      funext k
      unfold facTrianglesUpTo
      by_cases hk : k = i
      · subst hk
        simp
      · rw [Function.update_noteq hk]
        by_cases h1 : k < i
        · have h2 : k < i + 1 := by omega
          simp [h1, h2]
        · have h2 : ¬ k < i + 1 := by omega
          simp [h1, h2])
  have h0 : facTrianglesUpTo data base fresh 0 = fresh := by
    funext k
    simp [facTrianglesUpTo]
  rw [h0] at key
  exact key

theorem facQuadBody_eq (data : List Byte) (base i tri : Nat) (tris : Nat → FacTriangle)
    (h : tri + 2 < 2 ^ 32) :
    facQuadBody data base i (tri, tris)
      = (tri + 2,
          Function.update (Function.update tris tri (facQuadFirst data base i)) (tri + 1)
            (facQuadSecond data base i (tris (tri + 1)))) := by
  have h1 : u32 (tri + 1) = tri + 1 := u32_of_lt (by omega)
  have h2 : u32 (tri + 1 + 1) = tri + 2 := u32_of_lt (by omega)
  have hne : tri + 1 ≠ tri := by omega
  unfold facQuadBody
  simp only [facCopyIndices_eq]
  rw [h1, h2, Function.update_noteq hne]
  rfl

theorem facQuads_ok (data : List Byte) (base T : Nat) (tris : Nat → FacTriangle) (Q : Nat)
    (h : T + 2 * Q < 2 ^ 32) :
    forEach (facQuadBody data base) Q (T, tris) = (T + 2 * Q, facQuadsUpTo data base T tris Q) := by
  have key := forEach_eq (facQuadBody data base)
    (fun n => (T + 2 * n, facQuadsUpTo data base T tris n)) Q
    (by
      intro i hi
      beta_reduce
      rw [facQuadBody_eq data base i (T + 2 * i) _ (by omega)]
      refine Prod.ext (by simp only []; omega) ?_
      simp only []
      funext k
      have hold : facQuadsUpTo data base T tris i (T + 2 * i + 1) = tris (T + 2 * i + 1) := by
        have : ¬ (T ≤ T + 2 * i + 1 ∧ T + 2 * i + 1 < T + 2 * i) := by omega
        simp only [facQuadsUpTo, this, if_false]
      rw [hold]
      by_cases hk1 : k = T + 2 * i + 1
      · subst hk1
        have c1 : T ≤ T + 2 * i + 1 ∧ T + 2 * i + 1 < T + 2 * (i + 1) := by omega
        have c2 : ¬ ((T + 2 * i + 1 - T) % 2 = 0) := by omega
        have c3 : (T + 2 * i + 1 - T) / 2 = i := by omega
        simp only [Function.update_same, facQuadsUpTo, c1, c2, c3, if_true, if_false, and_self]
      · rw [Function.update_noteq hk1]
        by_cases hk0 : k = T + 2 * i
        · subst hk0
          have c1 : T ≤ T + 2 * i ∧ T + 2 * i < T + 2 * (i + 1) := by omega
          have c2 : (T + 2 * i - T) % 2 = 0 := by omega
          have c3 : (T + 2 * i - T) / 2 = i := by omega
          simp only [Function.update_same, facQuadsUpTo, c1, c2, c3, if_true, and_self]
        · rw [Function.update_noteq hk0]
          unfold facQuadsUpTo
          by_cases c : T ≤ k ∧ k < T + 2 * i
          · have c1 : T ≤ k ∧ k < T + 2 * (i + 1) := by omega
            rw [if_pos c, if_pos c1]
          · have c1 : ¬ (T ≤ k ∧ k < T + 2 * (i + 1)) := by omega
            rw [if_neg c, if_neg c1])
  have h0 : facQuadsUpTo data base T tris 0 = tris := by
    funext k
    have : ¬ (T ≤ k ∧ k < T + 2 * 0) := by omega
    simp only [facQuadsUpTo, this, if_false]
  beta_reduce at key
  rw [h0] at key
  exact key

theorem fread_count (data : List Byte) (pos size count : Nat) (hs : 0 < size)
    (h : (fread ⟨data, pos⟩ size count).1 = count) :
    size * count ≤ data.length - pos
      ∧ fread ⟨data, pos⟩ size count = (count, ⟨data, pos + size * count⟩) := by
  by_cases hc : size * count ≤ data.length - pos
  · have h2 : size ≠ 0 := by omega
    exact ⟨hc, by simp [fread, hc, h2]⟩
  · exfalso
    have e := fread_short data pos size count (by omega)
    rw [e] at h
    simp only [] at h
    have := Nat.div_mul_le_self (data.length - pos) size
    rw [h, Nat.mul_comm] at this
    exact hc this

theorem Fac_LoadFile_accepted (MAX : Nat) (fresh : Nat → FacTriangle) (uninit : Nat)
    (data : List Byte) (handle : FacHandle) (hMAX : MAX ≤ 2 ^ 30)
    (h : Fac_LoadFile MAX fresh uninit (some data) = some handle) :
    20 ≤ data.length
      ∧ leAt data 16 4 < MAX
      ∧ leAt data (20 + 32 * leAt data 16 4) 4 < MAX
      ∧ 24 + 32 * leAt data 16 4 + 36 * leAt data (20 + 32 * leAt data 16 4) 4 ≤ data.length
      ∧ handle.num_triangles = leAt data 16 4 + 2 * leAt data (20 + 32 * leAt data 16 4) 4
      ∧ handle.triangles
        = facQuadsUpTo data (24 + 32 * leAt data 16 4) (leAt data 16 4)
            (facTrianglesUpTo data 20 fresh (leAt data 16 4))
            (leAt data (20 + 32 * leAt data 16 4) 4) := by
  unfold Fac_LoadFile at h
  simp only [] at h
  by_cases h20 : 20 ≤ data.length
  · rw [fread_ok data 16 4 1 (by decide) (by omega)] at h
    have e20 : 16 + 4 * 1 = 20 := rfl
    simp only [e20, eq_self_iff_true, if_true] at h
    generalize leAt data 16 4 = T at h ⊢
    split_ifs at h with c1 c2 c3 c4 c5 c6
    have c2 := not_not.1 c2
    have c3 := not_not.1 c3
    have c5 := not_not.1 c5
    obtain ⟨l2, e2⟩ := fread_count data 20 32 T (by decide) c2
    rw [e2] at c3 c4 c5 c6 h
    simp only [] at c3 c4 c5 c6 h
    obtain ⟨l3, e3⟩ := fread_count data (20 + 32 * T) 4 1 (by decide) c3
    rw [e3] at c5 h
    simp only [] at c5 h
    generalize leAt data (20 + 32 * T) 4 = Q at c4 c5 c6 h ⊢
    obtain ⟨l4, e4⟩ := fread_count data (20 + 32 * T + 4 * 1) 36 Q (by decide) c5
    have hQ2 : u32 (Q * 2) = Q * 2 := u32_of_lt (by omega)
    have hTQ : u32 (T + Q * 2) = T + 2 * Q := by
      rw [u32_of_lt (by omega)]
      omega
    rw [hQ2, hTQ] at c6 h
    rw [facTriangles_ok, facQuads_ok data _ T _ Q (by omega)] at h
    have hh := Option.some.inj h
    have e24 : 20 + 32 * T + 4 * 1 = 24 + 32 * T := by omega
    rw [e24] at hh l4
    refine ⟨h20, by omega, by omega, by omega, ?_, ?_⟩
    · rw [← hh]
    · rw [← hh]
  · exfalso
    rw [fread_short data 16 4 1 (by omega)] at h
    simp only [] at h
    generalize (if (data.length - 16) / 4 = 1 then leAt data 16 4 else uninit) = T at h
    split_ifs at h with c1 c2 c3 c4 c5 c6
    have c2 := not_not.1 c2
    have c3 := not_not.1 c3
    obtain ⟨l2, e2⟩ := fread_count data _ 32 T (by decide) c2
    rw [e2] at c3
    simp only [] at c3
    obtain ⟨l3, e3⟩ := fread_count data _ 4 1 (by decide) c3
    omega

/-- C30: the second triangle of a quad does not get the texture index of the quad.  For
every face file `Fac_LoadFile` accepts, with `T` triangle records and `Q` quad records, the
handle holds `T + 2 * Q` triangles, the triangle `i < T` copies the vertex, normal and
texture indices of the record `i`, and the quad `i` yields at `T + 2i` the triangle with the
indices `(q0, q1, q2)` and the texture index of the quad, and at `T + 2i + 1` the triangle
with the indices `(q3, q0, q2)` whose texture index is never written: it is what the
allocated memory held.  On a file with one quad of texture index 5 and zeroed memory the
second triangle has the texture index 0. -/
theorem Fac_LoadFile_quad_texture :
    (∀ (MAX : Nat) (fresh : Nat → FacTriangle) (uninit : Nat) (data : List Byte)
        (handle : FacHandle), MAX ≤ 2 ^ 30 →
        Fac_LoadFile MAX fresh uninit (some data) = some handle →
        handle.num_triangles = leAt data 16 4 + 2 * leAt data (20 + 32 * leAt data 16 4) 4
          ∧ (∀ i, i < leAt data 16 4 → handle.triangles i = facTriangleOf data 20 i)
          ∧ (∀ i, i < leAt data (20 + 32 * leAt data 16 4) 4 →
              handle.triangles (leAt data 16 4 + 2 * i)
                  = facQuadFirst data (24 + 32 * leAt data 16 4) i
                ∧ handle.triangles (leAt data 16 4 + 2 * i + 1)
                  = facQuadSecond data (24 + 32 * leAt data 16 4) i
                      (fresh (leAt data 16 4 + 2 * i + 1))))
      ∧ ∃ handle, Fac_LoadFile 4096 zeroTriangles 0 (some quadFile) = some handle
          ∧ handle.num_triangles = 2
          ∧ (handle.triangles 0).vertex_indices = ![10, 11, 12]
          ∧ (handle.triangles 0).texture_index = 5
          ∧ (handle.triangles 1).vertex_indices = ![13, 10, 12]
          ∧ (handle.triangles 1).normal_indices = ![23, 20, 22]
          ∧ (handle.triangles 1).texture_index = 0
          ∧ facQuadTexture quadFile 24 0 = 5 := by
  constructor
  · intro MAX fresh uninit data handle hMAX h
    obtain ⟨_, _, _, _, hn, ht⟩ := Fac_LoadFile_accepted MAX fresh uninit data handle hMAX h
    generalize leAt data 16 4 = T at hn ht ⊢
    generalize leAt data (20 + 32 * T) 4 = Q at hn ht ⊢
    refine ⟨hn, ?_, ?_⟩
    · intro i hi
      have c : ¬ (T ≤ i ∧ i < T + 2 * Q) := by omega
      rw [ht]
      simp only [facQuadsUpTo, c, if_false, facTrianglesUpTo, hi, if_true]
    · intro i hi
      constructor
      · have c1 : T ≤ T + 2 * i ∧ T + 2 * i < T + 2 * Q := by omega
        have c2 : (T + 2 * i - T) % 2 = 0 := by omega
        have c3 : (T + 2 * i - T) / 2 = i := by omega
        rw [ht]
        simp only [facQuadsUpTo, c1, c2, c3, if_true, and_self]
      · have c1 : T ≤ T + 2 * i + 1 ∧ T + 2 * i + 1 < T + 2 * Q := by omega
        have c2 : ¬ ((T + 2 * i + 1 - T) % 2 = 0) := by omega
        have c3 : (T + 2 * i + 1 - T) / 2 = i := by omega
        have c4 : ¬ (T + 2 * i + 1 < T) := by omega
        rw [ht]
        simp only [facQuadsUpTo, c1, c2, c3, if_true, if_false, and_self, facTrianglesUpTo, c4]
  · refine ⟨_, rfl, ?_, ?_, ?_, ?_, ?_, ?_, ?_⟩ <;> decide

/-! ## The terrain a short stream leaves behind -/

theorem readVertices_short_state (data : List Byte) (p : Nat) (t : Terrain) (V : Nat → Vertex)
    (h : data.length < p + 100) :
    forLoop readVertex 25 (⟨data, p⟩, t, V)
      = .error (.vertexDescriptor, trackVertices data p t ((data.length - p) / 4)) := by
  have key := forLoop_fail readVertex
    (fun n => ((⟨data, p + 4 * n⟩ : PLFile), trackVertices data p t n,
      fun i => if i < n then pmgVertexAt data p i else V i)) ((data.length - p) / 4) 25
    (.vertexDescriptor, trackVertices data p t ((data.length - p) / 4)) (by omega)
    (by
      intro i hi
      simp only []
      rw [readVertex_ok data (p + 4 * i) i _ _ (by omega)]
      have e1 : p + 4 * i + 4 = p + 4 * (i + 1) := by ring
      have e2 : trackHeight (trackVertices data p t i) (toSigned 16 (leAt data (p + 4 * i) 2))
          = trackVertices data p t (i + 1) := by
        simp [trackVertices, List.range_succ, pmgVertexAt]
      have e3 := update_ite_lt (pmgVertexAt data p) V i
      rw [e1, e2]
      simp only [pmgVertexAt] at e3 ⊢
      rw [e3])
    (readVertex_short data _ _ _ _ (by omega))
  simpa [trackVertices] using key

theorem readTiles_short_state (w : Nat) (data : List Byte) (q k : Nat) (t : Terrain)
    (V : Nat → Vertex) (h : data.length < q + 256) :
    ∃ e, forLoop (fun tile_y => forLoop (fun tile_x => readTile (grid w) k V tile_y tile_x)
        (grid w).TERRAIN_CHUNK_ROW_TILES) (grid w).TERRAIN_CHUNK_ROW_TILES (⟨data, q⟩, t)
        = .error (e, setTilesUpTo t k (fun j => pmgTileAt data V (q + 16 * j) (j / 4) (j % 4))
            ((data.length - q) / 16)) := by
  obtain ⟨e, he⟩ := readTile_short (grid w) data (q + 16 * ((data.length - q) / 16)) k
    ((data.length - q) / 16 / 4) ((data.length - q) / 16 % 4)
    (setTilesUpTo t k (fun j => pmgTileAt data V (q + 16 * j) (j / 4) (j % 4))
      ((data.length - q) / 16)) V (by omega)
  refine ⟨e, ?_⟩
  show forLoop (fun tile_y => forLoop (fun tile_x => readTile (grid w) k V tile_y tile_x) 4) 4
    (⟨data, q⟩, t) = _
  rw [forLoop_nested (fun tile_y tile_x => readTile (grid w) k V tile_y tile_x) 4 4 (by decide)]
  have key := forLoop_fail (fun j => readTile (grid w) k V (j / 4) (j % 4))
    (fun n => ((⟨data, q + 16 * n⟩ : PLFile),
      setTilesUpTo t k (fun j => pmgTileAt data V (q + 16 * j) (j / 4) (j % 4)) n))
    ((data.length - q) / 16) 16
    (e, setTilesUpTo t k (fun j => pmgTileAt data V (q + 16 * j) (j / 4) (j % 4))
      ((data.length - q) / 16)) (by omega)
    (by
      intro i hi
      simp only []
      rw [readTile_ok (grid w) data (q + 16 * i) k (i / 4) (i % 4) _ V (by omega)]
      have e1 : q + 16 * i + 16 = q + 16 * (i + 1) := by ring
      have e2 : i % 4 + i / 4 * (grid w).TERRAIN_CHUNK_ROW_TILES = i := by
        show i % 4 + i / 4 * 4 = i
        omega
      rw [e1, e2]
      rw [setTilesUpTo_succ t k (fun j => pmgTileAt data V (q + 16 * j) (j / 4) (j % 4)) i])
    he
  simpa [setTilesUpTo_zero] using key

theorem readChunk_short_state (w : Nat) (data : List Byte) (p k : Nat) (t : Terrain)
    (h : data.length < p + pmgChunkSize) :
    ∃ e, readChunk (grid w) k (⟨data, p⟩, t)
      = .error (e,
          setTilesUpTo
            (trackVertices data (p + 8) t
              (if data.length < p + 8 then 0 else min 25 ((data.length - (p + 8)) / 4)))
            k
            (fun j => pmgTileAt data (pmgVertexAt data (p + 8)) (p + 112 + 16 * j) (j / 4) (j % 4))
            (if data.length < p + 112 then 0 else (data.length - (p + 112)) / 16)) := by
  have hs : pmgChunkSize = 368 := rfl
  rw [hs] at h
  by_cases h8 : data.length < p + 8
  · refine ⟨.chunkDescriptor, ?_⟩
    have h112 : data.length < p + 112 := by omega
    rw [readChunk_descriptor_short (grid w) data p k t h8, if_pos h8, if_pos h112,
      setTilesUpTo_zero]
    rfl
  · simp only [readChunk, plReadInt16, readSizedInteger_ok data p 2 (by omega),
      readSizedInteger_ok data (p + 2) 2 (by omega),
      readSizedInteger_ok data (p + 2 + 2) 2 (by omega),
      readSizedInteger_ok data (p + 2 + 2 + 2) 2 (by omega)]
    have e8 : p + 2 + 2 + 2 + 2 = p + 8 := by ring
    rw [e8]
    simp only [Bool.not_true, Bool.false_eq_true, if_false]
    rw [if_neg h8]
    by_cases h108 : data.length < p + 8 + 100
    · refine ⟨.vertexDescriptor, ?_⟩
      have h112 : data.length < p + 112 := by omega
      have hmin : min 25 ((data.length - (p + 8)) / 4) = (data.length - (p + 8)) / 4 :=
        Nat.min_eq_right (by omega)
      rw [readVertices_short_state data (p + 8) t _ h108, if_pos h112, setTilesUpTo_zero, hmin]
    · have hmin : min 25 ((data.length - (p + 8)) / 4) = 25 := Nat.min_eq_left (by omega)
      rw [readVertices_ok data (p + 8) t _ (by omega), hmin]
      simp only []
      rw [plFileSeek_any]
      have hq : data.length < (if p + 8 + 100 + 4 ≤ data.length then p + 8 + 100 + 4
          else p + 8 + 100) + 256 := by
        split_ifs <;> omega
      obtain ⟨e, h1⟩ := readTiles_short_state w data _ k
        (trackVertices data (p + 8) t 25)
        (fun i => if i < 25 then pmgVertexAt data (p + 8) i else (⟨0, 0⟩ : Vertex)) hq
      refine ⟨e, ?_⟩
      rw [h1]
      by_cases h112 : data.length < p + 112
      · have hc : ¬ (p + 8 + 100 + 4 ≤ data.length) := by omega
        have hz : (data.length - (p + 8 + 100)) / 16 = 0 := by omega
        rw [if_neg hc, if_pos h112, hz, setTilesUpTo_zero, setTilesUpTo_zero]
      · have hc : p + 8 + 100 + 4 ≤ data.length := by omega
        have e2 : p + 8 + 100 + 4 = p + 112 := by ring
        rw [if_pos hc, if_neg h112, e2]
        congr 2
        apply setTilesUpTo_congr
        intro j hj
        apply pmgTileAt_congr
        · intro i hi
          simp [hi]
        · omega
        · omega

theorem LoadPmg_short_state (w : Nat) (data : List Byte) (t : Terrain)
    (h : data.length < pmgChunkSize * 256) :
    ∃ e, LoadPmg (grid w) t (some data)
      = .fatal e
          (setTilesUpTo
            (trackVertices data (pmgChunkSize * (data.length / pmgChunkSize) + 8)
              (pmgAfter data t (data.length / pmgChunkSize))
              (if data.length % pmgChunkSize < 8 then 0
                else min 25 ((data.length % pmgChunkSize - 8) / 4)))
            (data.length / pmgChunkSize)
            (fun j => pmgTile data (data.length / pmgChunkSize) (j / 4) (j % 4))
            (pmgTilesRead data.length)) := by
  have hs : pmgChunkSize = 368 := rfl
  rw [hs] at h
  obtain ⟨e, h1⟩ := readChunk_short_state w data (pmgChunkSize * (data.length / pmgChunkSize))
    (data.length / pmgChunkSize) (pmgAfter data t (data.length / pmgChunkSize))
    (by rw [hs]; omega)
  refine ⟨e, ?_⟩
  have c1 : (data.length < pmgChunkSize * (data.length / pmgChunkSize) + 8)
      ↔ data.length % pmgChunkSize < 8 := by
    rw [hs]; omega
  have c2 : (data.length < pmgChunkSize * (data.length / pmgChunkSize) + 112)
      ↔ data.length % pmgChunkSize < 112 := by
    rw [hs]; omega
  have c3 : data.length - (pmgChunkSize * (data.length / pmgChunkSize) + 8)
      = data.length % pmgChunkSize - 8 := by
    rw [hs]; omega
  have c4 : data.length - (pmgChunkSize * (data.length / pmgChunkSize) + 112)
      = data.length % pmgChunkSize - 112 := by
    rw [hs]; omega
  have eF : (fun j => pmgTileAt data
        (pmgVertexAt data (pmgChunkSize * (data.length / pmgChunkSize) + 8))
        (pmgChunkSize * (data.length / pmgChunkSize) + 112 + 16 * j) (j / 4) (j % 4))
      = fun j => pmgTile data (data.length / pmgChunkSize) (j / 4) (j % 4) := by
    funext j
    have : j % 4 + j / 4 * 4 = j := by omega
    simp only [pmgTile, this]
    rfl
  simp only [c1, c2, c3, c4, eF] at h1
  have hloop : forLoop (fun chunk_y => forLoop
        (fun chunk_x => readChunk (grid w) (chunk_x + chunk_y * (grid w).TERRAIN_CHUNK_ROW))
        (grid w).TERRAIN_CHUNK_ROW) (grid w).TERRAIN_CHUNK_ROW (⟨data, 0⟩, t)
      = .error (e,
          setTilesUpTo
            (trackVertices data (pmgChunkSize * (data.length / pmgChunkSize) + 8)
              (pmgAfter data t (data.length / pmgChunkSize))
              (if data.length % pmgChunkSize < 8 then 0
                else min 25 ((data.length % pmgChunkSize - 8) / 4)))
            (data.length / pmgChunkSize)
            (fun j => pmgTile data (data.length / pmgChunkSize) (j / 4) (j % 4))
            (pmgTilesRead data.length)) := by
    show forLoop (fun chunk_y => forLoop
      (fun chunk_x => readChunk (grid w) (chunk_x + chunk_y * 16)) 16) 16 (⟨data, 0⟩, t) = _
    rw [forLoop_nested (fun chunk_y chunk_x => readChunk (grid w) (chunk_x + chunk_y * 16)) 16 16
      (by decide)]
    have key := forLoop_fail (fun j => readChunk (grid w) (j % 16 + j / 16 * 16))
      (fun K => ((⟨data, pmgChunkSize * K⟩ : PLFile), pmgAfter data t K))
      (data.length / pmgChunkSize) 256
      (e, setTilesUpTo
            (trackVertices data (pmgChunkSize * (data.length / pmgChunkSize) + 8)
              (pmgAfter data t (data.length / pmgChunkSize))
              (if data.length % pmgChunkSize < 8 then 0
                else min 25 ((data.length % pmgChunkSize - 8) / 4)))
            (data.length / pmgChunkSize)
            (fun j => pmgTile data (data.length / pmgChunkSize) (j / 4) (j % 4))
            (pmgTilesRead data.length))
      (by rw [hs]; omega)
      (by
        intro K hK
        have e0 : K % 16 + K / 16 * 16 = K := by omega
        have hlen : pmgChunkSize * K + pmgChunkSize ≤ data.length := by
          rw [hs] at hK ⊢
          omega
        simp only [e0]
        have := readChunk_ok w data (pmgChunkSize * K) K (pmgAfter data t K) hlen
        rw [pmgAfter_succ] at this
        exact this)
      (by
        have e0 : data.length / pmgChunkSize % 16 + data.length / pmgChunkSize / 16 * 16
            = data.length / pmgChunkSize := by
          rw [hs]; omega
        simp only [e0]
        exact h1)
    simpa [pmgAfter_zero] using key
  unfold LoadPmg
  simp only []
  rw [hloop]

theorem setTilesUpTo_tile (t : Terrain) (k : Nat) (F : Nat → Tile) (m j : Nat) :
    ((setTilesUpTo t k F m).chunks_ k).tiles j = if j < m then F j else (t.chunks_ k).tiles j := by
  simp [setTilesUpTo]

theorem LoadPmg_short_spec (w : Nat) (data : List Byte) (t : Terrain)
    (h : data.length < pmgChunkSize * 256) :
    ∃ e t1, LoadPmg (grid w) t (some data) = .fatal e t1
      ∧ t1.updates = t.updates
      ∧ (∀ k tile_y tile_x, k < data.length / pmgChunkSize → tile_y < 4 → tile_x < 4 →
          (t1.chunks_ k).tiles (tile_x + tile_y * 4) = pmgTile data k tile_y tile_x)
      ∧ (∀ j, j < pmgTilesRead data.length →
          (t1.chunks_ (data.length / pmgChunkSize)).tiles j
            = pmgTile data (data.length / pmgChunkSize) (j / 4) (j % 4))
      ∧ (∀ j, pmgTilesRead data.length ≤ j →
          (t1.chunks_ (data.length / pmgChunkSize)).tiles j
            = (t.chunks_ (data.length / pmgChunkSize)).tiles j)
      ∧ (∀ k, data.length / pmgChunkSize < k → t1.chunks_ k = t.chunks_ k)
      ∧ IsMaxWith t.max_height_ t1.max_height_ (pmgVerticesRead data.length) (pmgHeight data)
      ∧ IsMinWith t.min_height_ t1.min_height_ (pmgVerticesRead data.length) (pmgHeight data) := by
  obtain ⟨e, he⟩ := LoadPmg_short_state w data t h
  have hnv : (if data.length % pmgChunkSize < 8 then 0
      else min 25 ((data.length % pmgChunkSize - 8) / 4)) ≤ 25 := by
    split_ifs
    · exact Nat.zero_le _
    · exact Nat.min_le_left _ _
  have hKne : ∀ k, k ≠ data.length / pmgChunkSize →
      (setTilesUpTo
        (trackVertices data (pmgChunkSize * (data.length / pmgChunkSize) + 8)
          (pmgAfter data t (data.length / pmgChunkSize))
          (if data.length % pmgChunkSize < 8 then 0
            else min 25 ((data.length % pmgChunkSize - 8) / 4)))
        (data.length / pmgChunkSize)
        (fun j => pmgTile data (data.length / pmgChunkSize) (j / 4) (j % 4))
        (pmgTilesRead data.length)).chunks_ k
        = (pmgAfter data t (data.length / pmgChunkSize)).chunks_ k := by
    intro k hk
    rw [setTilesUpTo_other _ _ _ _ k hk, trackVertices_chunks_eq]
  refine ⟨e, _, he, ?_, ?_, ?_, ?_, ?_, ?_, ?_⟩
  · show (trackVertices data _ (pmgAfter data t (data.length / pmgChunkSize)) _).updates = _
    rw [trackVertices_updates]
    exact pmgTrack_updates data t _
  · intro k tile_y tile_x hk hy hx
    have h16 : tile_x + tile_y * 4 < 16 := by omega
    have e1 : (tile_x + tile_y * 4) / 4 = tile_y := by omega
    have e2 : (tile_x + tile_y * 4) % 4 = tile_x := by omega
    rw [hKne k (by omega)]
    simp only [pmgAfter, hk, h16, if_true, e1, e2]
  · intro j hj
    rw [setTilesUpTo_tile, if_pos hj]
  · intro j hj
    rw [setTilesUpTo_tile, if_neg (by omega), trackVertices_chunks_eq]
    have hK : ¬ (data.length / pmgChunkSize < data.length / pmgChunkSize) := lt_irrefl _
    simp only [pmgAfter, hK, if_false]
  · intro k hk
    rw [hKne k (by omega)]
    have hK : ¬ (k < data.length / pmgChunkSize) := by omega
    simp only [pmgAfter, hK, if_false]
  · exact trackVertices_max data _ t (data.length / pmgChunkSize) _ hnv
      (pmgTrack_max data t (data.length / pmgChunkSize))
  · exact trackVertices_min data _ t (data.length / pmgChunkSize) _ hnv
      (pmgTrack_min data t (data.length / pmgChunkSize))

theorem shortStream_length : shortStream.length = pmgChunkSize := by
  simp only [shortStream, List.length_append, List.length_replicate, List.length_cons,
    List.length_nil]
  decide

theorem shortStream_bytes : byteAt shortStream 8 = 232 ∧ byteAt shortStream 9 = 3 := by
  decide

theorem shortStream_height : pmgHeight shortStream 0 = 1000 := by
  show ((toSigned 16 (leAt shortStream 8 2) : Int) : ℚ) = 1000
  rw [leAt_two, shortStream_bytes.1, shortStream_bytes.2]
  have e : toSigned 16 (232 + 256 * 3) = 1000 := by decide
  rw [e]
  norm_num

/-- C18, as stated, fails: on a stream that ends after the record of the first chunk the
load takes a fatal exit, and in the terrain it leaves behind the NW corner of tile 0 of
chunk 0 has the height 1000 of the first vertex record, where the terrain had the height 0
before the load, and the maximum height is at least 1000, where it was 100. -/
theorem LoadPmg_short_stream_writes :
    ∃ e t1, LoadPmg (grid 512) rampTerrain (some shortStream) = .fatal e t1
      ∧ ((t1.chunks_ 0).tiles 0).height 0 = 1000
      ∧ ((rampTerrain.chunks_ 0).tiles 0).height 0 = 0
      ∧ 1000 ≤ t1.max_height_
      ∧ rampTerrain.max_height_ = 100 := by
  have hlen : shortStream.length < pmgChunkSize * 256 := by
    rw [shortStream_length]; decide
  obtain ⟨e, t1, h1, _, h2, _, _, _, hmax, _⟩ := LoadPmg_short_spec 512 shortStream rampTerrain hlen
  refine ⟨e, t1, h1, ?_, ?_, ?_, rfl⟩
  · have h := h2 0 0 0 (by rw [shortStream_length]; decide) (by decide) (by decide)
    simp only [Nat.zero_mul, Nat.add_zero] at h
    rw [h, pmgTile_height]
    exact shortStream_height
  · simp [rampTerrain]
  · have hv : 0 < pmgVerticesRead shortStream.length := by
      rw [shortStream_length]; decide
    have := hmax.2.1 0 hv
    rw [shortStream_height] at this
    exact this

/-- C18, amended: if the binary terrain file cannot be opened the load returns with the
terrain unchanged and `Update` not run.  If the byte stream is shorter than the
`pmgChunkSize * 256` bytes of the full grid the load ends in one of its fatal exits, never
as a finished load, and `Update` is not run; the decoder writes in place, so that the tiles
whose records were read before the stream ended hold the values decoded from the stream
(every tile of the first `length / pmgChunkSize` chunks and the first tiles of the chunk at
which the stream ended), every other tile of that chunk and every later chunk is unchanged,
and the maximum (minimum) height is the larger (smaller) of its value before the load and
the vertex heights read before the stream ended. -/
theorem LoadPmg_failure (w : Nat) (t : Terrain) (data : List Byte)
    (hlen : data.length < pmgChunkSize * 256) :
    LoadPmg (grid w) t none = .openFailed t
      ∧ ∃ e t1, LoadPmg (grid w) t (some data) = .fatal e t1
        ∧ t1.updates = t.updates
        ∧ (∀ k tile_y tile_x, k < data.length / pmgChunkSize → tile_y < 4 → tile_x < 4 →
            (t1.chunks_ k).tiles (tile_x + tile_y * 4) = pmgTile data k tile_y tile_x)
        ∧ (∀ j, j < pmgTilesRead data.length →
            (t1.chunks_ (data.length / pmgChunkSize)).tiles j
              = pmgTile data (data.length / pmgChunkSize) (j / 4) (j % 4))
        ∧ (∀ j, pmgTilesRead data.length ≤ j →
            (t1.chunks_ (data.length / pmgChunkSize)).tiles j
              = (t.chunks_ (data.length / pmgChunkSize)).tiles j)
        ∧ (∀ k, data.length / pmgChunkSize < k → t1.chunks_ k = t.chunks_ k)
        ∧ IsMaxWith t.max_height_ t1.max_height_ (pmgVerticesRead data.length) (pmgHeight data)
        ∧ IsMinWith t.min_height_ t1.min_height_ (pmgVerticesRead data.length)
            (pmgHeight data) :=
  ⟨rfl, LoadPmg_short_spec w data t hlen⟩

theorem LoadPmg_failure_witness :
    shortStream.length < pmgChunkSize * 256
      ∧ (LoadPmg (grid 512) rampTerrain none = .openFailed rampTerrain
        ∧ ∃ e t1, LoadPmg (grid 512) rampTerrain (some shortStream) = .fatal e t1
          ∧ t1.updates = rampTerrain.updates
          ∧ (∀ k, shortStream.length / pmgChunkSize < k → t1.chunks_ k = rampTerrain.chunks_ k)
          ∧ IsMaxWith rampTerrain.max_height_ t1.max_height_
              (pmgVerticesRead shortStream.length) (pmgHeight shortStream)) :=
  ⟨by rw [shortStream_length]; decide,
    match LoadPmg_failure 512 rampTerrain shortStream (by rw [shortStream_length]; decide) with
    | ⟨h0, e, t1, h1, h2, _, _, _, h6, h7, _⟩ => ⟨h0, e, t1, h1, h2, h6, h7⟩⟩

/-! ## Decoding what the encoder wrote -/

theorem concatBlocks_length (f : Nat → List Byte) (L : Nat) (h : ∀ i, (f i).length = L)
    (n : Nat) : (concatBlocks f n).length = L * n := by
  induction n with
  | zero => rfl
  | succ n ih =>
    show (concatBlocks f n ++ f n).length = _
    rw [List.length_append, ih, h n, Nat.mul_succ]

theorem byteAt_concatBlocks (f : Nat → List Byte) (L : Nat) (h : ∀ i, (f i).length = L)
    (n k o : Nat) (hk : k < n) (ho : o < L) :
    byteAt (concatBlocks f n) (L * k + o) = byteAt (f k) o := by
  induction n with
  | zero => exact absurd hk (Nat.not_lt_zero _)
  | succ n ih =>
    show byteAt (concatBlocks f n ++ f n) _ = _
    have hlen := concatBlocks_length f L h n
    rcases Nat.lt_succ_iff_lt_or_eq.1 hk with hlt | heq
    · have hb : L * k + o < (concatBlocks f n).length := by
        rw [hlen]
        have : L * (k + 1) ≤ L * n := Nat.mul_le_mul_left L hlt
        rw [Nat.mul_succ] at this
        omega
      rw [byteAt_append_left _ _ _ hb]
      exact ih hlt
    · subst heq
      rw [byteAt_append_right _ _ _ (by rw [hlen]; omega), hlen]
      congr 1
      omega

theorem leBytes_length (n v : Nat) : (leBytes n v).length = n := by
  induction n generalizing v with
  | zero => rfl
  | succ n ih =>
    show (leBytes n (v / 256)).length + 1 = n + 1
    rw [ih]

theorem byteAt_cons_zero (a : Byte) (l : List Byte) : byteAt (a :: l) 0 = a.val := rfl

theorem byteAt_ofNat (v : Nat) (l : List Byte) : byteAt ((Fin.ofNat v : Byte) :: l) 0 = v % 256 :=
  rfl

theorem leAt_leBytes (n v p : Nat) (l1 l2 : List Byte) (hp : l1.length = p) :
    leAt (l1 ++ leBytes n v ++ l2) p n = v % 256 ^ n := by
  induction n generalizing v p l1 with
  | zero => simp [leAt, Nat.mod_one]
  | succ n ih =>
    show byteAt (l1 ++ ((Fin.ofNat v : Byte) :: leBytes n (v / 256)) ++ l2) p
      + 256 * leAt (l1 ++ ((Fin.ofNat v : Byte) :: leBytes n (v / 256)) ++ l2) (p + 1) n = _
    have e : l1 ++ ((Fin.ofNat v : Byte) :: leBytes n (v / 256)) ++ l2
        = (l1 ++ [(Fin.ofNat v : Byte)]) ++ leBytes n (v / 256) ++ l2 := by
      simp
    have hb : byteAt (l1 ++ ((Fin.ofNat v : Byte) :: leBytes n (v / 256)) ++ l2) p = v % 256 := by
      rw [List.append_assoc, byteAt_append_right _ _ _ (by omega), hp, Nat.sub_self]
      rfl
    rw [hb, e, ih (v / 256) (p + 1) (l1 ++ [(Fin.ofNat v : Byte)]) (by simp [hp])]
    rw [pow_succ, Nat.mul_comm (256 ^ n) 256, Nat.mod_mul]

theorem leAt_congr (d1 d2 : List Byte) (n p1 p2 : Nat)
    (h : ∀ o, o < n → byteAt d1 (p1 + o) = byteAt d2 (p2 + o)) :
    leAt d1 p1 n = leAt d2 p2 n := by
  induction n generalizing p1 p2 with
  | zero => rfl
  | succ n ih =>
    show byteAt d1 p1 + 256 * leAt d1 (p1 + 1) n = byteAt d2 p2 + 256 * leAt d2 (p2 + 1) n
    have h0 := h 0 (Nat.succ_pos n)
    rw [Nat.add_zero, Nat.add_zero] at h0
    rw [h0, ih (p1 + 1) (p2 + 1) (fun o ho => by
      have := h (o + 1) (Nat.succ_lt_succ ho)
      rw [Nat.add_assoc, Nat.add_assoc, Nat.add_comm 1 o]
      exact this)]

theorem encodeVertex_length (chunk : Chunk) (v : Nat) : (encodeVertex chunk v).length = 4 := by
  simp [encodeVertex, leBytes_length]

theorem encodeTile_length (tile : Tile) : (encodeTile tile).length = 16 := by
  simp [encodeTile, leBytes_length]

theorem encodeRecords_length (chunk : Chunk) : (encodeRecords chunk).length = pmgChunkSize := by
  unfold encodeRecords
  rw [List.length_append, List.length_append, List.length_append, List.length_replicate,
    List.length_replicate, concatBlocks_length _ 4 (encodeVertex_length chunk),
    concatBlocks_length _ 16 (fun j => encodeTile_length (chunk.tiles j))]
  rfl

theorem encodePmgBare_length (w : Nat) (t : Terrain) :
    (encodePmgBare (grid w) t).length = pmgChunkSize * 256 :=
  concatBlocks_length _ pmgChunkSize (fun k => encodeRecords_length (t.chunks_ k)) 256

theorem byteAt_encodePmgBare (w : Nat) (t : Terrain) (k o : Nat) (hk : k < 256)
    (ho : o < pmgChunkSize) :
    byteAt (encodePmgBare (grid w) t) (pmgChunkSize * k + o)
      = byteAt (encodeRecords (t.chunks_ k)) o :=
  byteAt_concatBlocks _ pmgChunkSize (fun k => encodeRecords_length (t.chunks_ k)) 256 k o hk ho

theorem encodeChunk_length (chunk : Chunk) : (encodeChunk chunk).length = 16 + pmgChunkSize := by
  unfold encodeChunk
  rw [List.length_append, List.length_replicate, encodeRecords_length]

theorem encodePmg_length (w : Nat) (t : Terrain) :
    (encodePmg (grid w) t).length = (16 + pmgChunkSize) * 256 :=
  concatBlocks_length _ (16 + pmgChunkSize) (fun k => encodeChunk_length (t.chunks_ k)) 256

theorem byteAt_encodePmg (w : Nat) (t : Terrain) (k o : Nat) (hk : k < 256)
    (ho : o < pmgChunkSize) :
    byteAt (encodePmg (grid w) t) ((16 + pmgChunkSize) * k + (16 + o))
      = byteAt (encodeRecords (t.chunks_ k)) o := by
  have h := byteAt_concatBlocks (fun k => encodeChunk (t.chunks_ k)) (16 + pmgChunkSize)
    (fun k => encodeChunk_length (t.chunks_ k)) 256 k (16 + o) hk (by omega)
  show byteAt (concatBlocks (fun k => encodeChunk (t.chunks_ k)) 256) _ = _
  rw [h]
  unfold encodeChunk
  rw [byteAt_append_right _ _ _ (by rw [List.length_replicate]; omega), List.length_replicate]
  have e : 16 + o - 16 = o := by omega
  rw [e]

theorem byteAt_encodeRecords_vertex (chunk : Chunk) (v o : Nat) (hv : v < 25) (ho : o < 4) :
    byteAt (encodeRecords chunk) (8 + 4 * v + o) = byteAt (encodeVertex chunk v) o := by
  have hB := concatBlocks_length _ 4 (encodeVertex_length chunk) 25
  unfold encodeRecords
  rw [byteAt_append_left _ _ _ (by
      rw [List.length_append, List.length_append, List.length_replicate, List.length_replicate, hB]
      omega),
    byteAt_append_left _ _ _ (by
      rw [List.length_append, List.length_replicate, hB]
      omega),
    byteAt_append_right _ _ _ (by rw [List.length_replicate]; omega), List.length_replicate]
  have e : 8 + 4 * v + o - 8 = 4 * v + o := by omega
  rw [e]
  exact byteAt_concatBlocks _ 4 (encodeVertex_length chunk) 25 v o hv ho

theorem byteAt_encodeRecords_tile (chunk : Chunk) (j o : Nat) (hj : j < 16) (ho : o < 16) :
    byteAt (encodeRecords chunk) (112 + 16 * j + o) = byteAt (encodeTile (chunk.tiles j)) o := by
  have hB := concatBlocks_length _ 4 (encodeVertex_length chunk) 25
  unfold encodeRecords
  rw [byteAt_append_right _ _ _ (by
      rw [List.length_append, List.length_append, List.length_replicate, List.length_replicate, hB]
      omega),
    List.length_append, List.length_append, List.length_replicate, List.length_replicate, hB]
  have e : 112 + 16 * j + o - (8 + 4 * 25 + 4) = 16 * j + o := by omega
  rw [e]
  exact byteAt_concatBlocks _ 16 (fun j => encodeTile_length (chunk.tiles j)) 16 j o hj ho

theorem leAt_encodeVertex_height (chunk : Chunk) (v : Nat) :
    leAt (encodeVertex chunk v) 0 2
      = toUnsigned 16 (truncInt ((chunk.tiles (vertexCorner v).1).height (vertexCorner v).2))
          % 256 ^ 2 := by
  have h := leAt_leBytes 2
    (toUnsigned 16 (truncInt ((chunk.tiles (vertexCorner v).1).height (vertexCorner v).2))) 0 []
    (leBytes 2 ((chunk.tiles (vertexCorner v).1).shading (vertexCorner v).2)) rfl
  rw [List.nil_append] at h
  exact h

theorem leAt_encodeVertex_lighting (chunk : Chunk) (v : Nat) :
    leAt (encodeVertex chunk v) 2 2
      = (chunk.tiles (vertexCorner v).1).shading (vertexCorner v).2 % 256 ^ 2 := by
  have h := leAt_leBytes 2 ((chunk.tiles (vertexCorner v).1).shading (vertexCorner v).2) 2
    (leBytes 2
      (toUnsigned 16 (truncInt ((chunk.tiles (vertexCorner v).1).height (vertexCorner v).2))))
    [] (leBytes_length 2 _)
  rw [List.append_nil] at h
  exact h

theorem byteAt_encodeTile_type (tile : Tile) :
    byteAt (encodeTile tile) 6 = encodeType tile.surface tile.behaviour % 256 := rfl

theorem byteAt_encodeTile_rotation (tile : Tile) :
    byteAt (encodeTile tile) 10 = tile.rotation % 256 := rfl

theorem leAt_encodeTile_texture (tile : Tile) :
    leAt (encodeTile tile) 11 4 = tile.texture % 256 ^ 4 :=
  leAt_leBytes 4 tile.texture 11 _ [0] rfl

theorem vertexCorner_spec {α : Type} (H : Nat → α) (v : Nat) (hv : v < 25) :
    (![H ((vertexCorner v).1 / 4 * 5 + (vertexCorner v).1 % 4),
        H ((vertexCorner v).1 / 4 * 5 + (vertexCorner v).1 % 4 + 1),
        H (((vertexCorner v).1 / 4 + 1) * 5 + (vertexCorner v).1 % 4),
        H (((vertexCorner v).1 / 4 + 1) * 5 + (vertexCorner v).1 % 4 + 1)] : Fin 4 → α)
      (vertexCorner v).2 = H v := by
  interval_cases v <;> rfl

theorem vertexCorner_lt (v : Nat) (hv : v < 25) : (vertexCorner v).1 < 16 := by
  interval_cases v <;> decide

theorem truncInt_intCast (z : Int) : truncInt (z : ℚ) = z := by
  unfold truncInt
  split_ifs
  · exact Int.floor_intCast z
  · exact Int.ceil_intCast z

theorem encodeType_decode (b : Nat) (h : b < 256) :
    encodeType (decodeSurface b) (decodeBehaviour b) % 256 = b := by
  interval_cases b <;> rfl

theorem toSigned_mod (bits raw : Nat) : toSigned bits (raw % 2 ^ bits) = toSigned bits raw := by
  unfold toSigned
  rw [Nat.mod_mod]

theorem encoded_vertex (w : Nat) (data : List Byte) (t1 : Terrain)
    (hT : ∀ k j, k < 256 → j < 16 → (t1.chunks_ k).tiles j = pmgTile data k (j / 4) (j % 4))
    (k v : Nat) (hk : k < 256) (hv : v < 25) :
    (pmgVertex (encodePmgBare (grid w) t1) k v).height = (pmgVertex data k v).height
      ∧ (pmgVertex (encodePmgBare (grid w) t1) k v).lighting
        = (pmgVertex data k v).lighting % 256 := by
  have hs : pmgChunkSize = 368 := rfl
  have hj := vertexCorner_lt v hv
  have hh : ((t1.chunks_ k).tiles (vertexCorner v).1).height (vertexCorner v).2
      = ((toSigned 16 (leAt data (pmgChunkSize * k + 8 + 4 * v) 2) : Int) : ℚ) := by
    rw [hT k _ hk hj, pmgTile_height]
    exact vertexCorner_spec (fun i => ((pmgVertex data k i).height : ℚ)) v hv
  have hl : ((t1.chunks_ k).tiles (vertexCorner v).1).shading (vertexCorner v).2
      = leAt data (pmgChunkSize * k + 8 + 4 * v + 2) 2 % 256 := by
    rw [hT k _ hk hj, pmgTile_shading]
    exact vertexCorner_spec (fun i => (pmgVertex data k i).lighting % 256) v hv
  have e1 : leAt (encodePmgBare (grid w) t1) (pmgChunkSize * k + 8 + 4 * v) 2
      = leAt (encodeVertex (t1.chunks_ k) v) 0 2 := by
    apply leAt_congr
    intro o ho
    have a1 : pmgChunkSize * k + 8 + 4 * v + o = pmgChunkSize * k + (8 + 4 * v + o) := by omega
    rw [a1, byteAt_encodePmgBare w t1 k _ hk (by rw [hs]; omega),
      byteAt_encodeRecords_vertex _ v o hv (by omega), Nat.zero_add]
  have e2 : leAt (encodePmgBare (grid w) t1) (pmgChunkSize * k + 8 + 4 * v + 2) 2
      = leAt (encodeVertex (t1.chunks_ k) v) 2 2 := by
    apply leAt_congr
    intro o ho
    have a1 : pmgChunkSize * k + 8 + 4 * v + 2 + o
        = pmgChunkSize * k + (8 + 4 * v + (2 + o)) := by omega
    rw [a1, byteAt_encodePmgBare w t1 k _ hk (by rw [hs]; omega),
      byteAt_encodeRecords_vertex _ v (2 + o) hv (by omega)]
  have r1 : leAt data (pmgChunkSize * k + 8 + 4 * v) 2 < 2 ^ 16 := leAt_lt data 2 _
  have p16 : (256 : Nat) ^ 2 = 2 ^ 16 := by norm_num
  simp only [pmgVertex, pmgVertexAt]
  constructor
  · rw [e1, leAt_encodeVertex_height, hh, truncInt_intCast, toUnsigned_toSigned 16 _ r1,
      p16, toSigned_mod]
  · rw [e2, leAt_encodeVertex_lighting, hl]
    apply Nat.mod_eq_of_lt
    have : leAt data (pmgChunkSize * k + 8 + 4 * v + 2) 2 % 256 < 256 :=
      Nat.mod_lt _ (by decide)
    omega

theorem encoded_tile (w : Nat) (data : List Byte) (t1 : Terrain)
    (hT : ∀ k j, k < 256 → j < 16 → (t1.chunks_ k).tiles j = pmgTile data k (j / 4) (j % 4))
    (k tile_y tile_x : Nat) (hk : k < 256) (hy : tile_y < 4) (hx : tile_x < 4) :
    pmgTile (encodePmgBare (grid w) t1) k tile_y tile_x = pmgTile data k tile_y tile_x := by
  have hs : pmgChunkSize = 368 := rfl
  have hj : tile_x + tile_y * 4 < 16 := by omega
  have d1 : (tile_x + tile_y * 4) / 4 = tile_y := by omega
  have d2 : (tile_x + tile_y * 4) % 4 = tile_x := by omega
  have ht := hT k (tile_x + tile_y * 4) hk hj
  rw [d1, d2] at ht
  have hb : ∀ o, o < 16 →
      byteAt (encodePmgBare (grid w) t1)
          (pmgChunkSize * k + 112 + 16 * (tile_x + tile_y * 4) + o)
        = byteAt (encodeTile (pmgTile data k tile_y tile_x)) o := by
    intro o ho
    have a1 : pmgChunkSize * k + 112 + 16 * (tile_x + tile_y * 4) + o
        = pmgChunkSize * k + (112 + 16 * (tile_x + tile_y * 4) + o) := by omega
    rw [a1, byteAt_encodePmgBare w t1 k _ hk (by rw [hs]; omega),
      byteAt_encodeRecords_tile _ _ o hj ho, ht]
  have b6 : byteAt (encodePmgBare (grid w) t1)
        (pmgChunkSize * k + 112 + 16 * (tile_x + tile_y * 4) + 6)
      = byteAt data (pmgChunkSize * k + 112 + 16 * (tile_x + tile_y * 4) + 6) := by
    rw [hb 6 (by decide), byteAt_encodeTile_type]
    exact encodeType_decode _ (byteAt_lt data _)
  have b10 : byteAt (encodePmgBare (grid w) t1)
        (pmgChunkSize * k + 112 + 16 * (tile_x + tile_y * 4) + 10)
      = byteAt data (pmgChunkSize * k + 112 + 16 * (tile_x + tile_y * 4) + 10) := by
    rw [hb 10 (by decide), byteAt_encodeTile_rotation]
    exact Nat.mod_eq_of_lt (byteAt_lt data _)
  have b11 : leAt (encodePmgBare (grid w) t1)
        (pmgChunkSize * k + 112 + 16 * (tile_x + tile_y * 4) + 11) 4
      = leAt data (pmgChunkSize * k + 112 + 16 * (tile_x + tile_y * 4) + 11) 4 := by
    have e : leAt (encodePmgBare (grid w) t1)
        (pmgChunkSize * k + 112 + 16 * (tile_x + tile_y * 4) + 11) 4
        = leAt (encodeTile (pmgTile data k tile_y tile_x)) 11 4 := by
      apply leAt_congr
      intro o ho
      rw [Nat.add_assoc, hb (11 + o) (by omega)]
    rw [e, leAt_encodeTile_texture]
    exact Nat.mod_eq_of_lt (leAt_lt data 4 _)
  have v0 := encoded_vertex w data t1 hT k (tile_y * 5 + tile_x) hk (by omega)
  have v1 := encoded_vertex w data t1 hT k (tile_y * 5 + tile_x + 1) hk (by omega)
  have v2 := encoded_vertex w data t1 hT k ((tile_y + 1) * 5 + tile_x) hk (by omega)
  have v3 := encoded_vertex w data t1 hT k ((tile_y + 1) * 5 + tile_x + 1) hk (by omega)
  simp only [pmgTile, pmgTileAt, b6, b10, b11, v0.1, v1.1, v2.1, v3.1, v0.2, v1.2, v2.2, v3.2,
    Nat.mod_mod]

theorem spec_encoded_texture (w : Nat) (t1 : Terrain) :
    leAt (encodePmg (grid w) t1) 139 4 = ((t1.chunks_ 0).tiles 0).texture % 256 ^ 4 := by
  have hs : pmgChunkSize = 368 := rfl
  have e : leAt (encodePmg (grid w) t1) 139 4 = leAt (encodeTile ((t1.chunks_ 0).tiles 0)) 11 4 := by
    apply leAt_congr
    intro o ho
    have a1 : 139 + o = (16 + pmgChunkSize) * 0 + (16 + (112 + 16 * 0 + (11 + o))) := by
      rw [hs]; omega
    rw [a1, byteAt_encodePmg w t1 0 _ (by decide) (by rw [hs]; omega),
      byteAt_encodeRecords_tile _ 0 (11 + o) (by decide) (by omega)]
  rw [e, leAt_encodeTile_texture]

theorem spec_roundtrip_texture (w : Nat) (t t2 : Terrain) (data : List Byte)
    (hlen : pmgChunkSize * 256 ≤ data.length) :
    ∃ t1 t3, LoadPmg (grid w) t (some data) = .loaded t1
      ∧ LoadPmg (grid w) t2 (some (encodePmg (grid w) t1)) = .loaded t3
      ∧ ((t1.chunks_ 0).tiles (1 + 0 * 4)).texture = leAt data 139 4
      ∧ ((t3.chunks_ 0).tiles (1 + 0 * 4)).texture = leAt data 123 4 := by
  have hs : pmgChunkSize = 368 := rfl
  have hlen2 : pmgChunkSize * 256
      ≤ (encodePmg (grid w) (Update (pmgAfter data t 256))).length := by
    rw [encodePmg_length, hs]
    decide
  have i1 : pmgChunkSize * 0 + 112 + 16 * (1 + 0 * 4) + 11 = 139 := rfl
  have i0 : pmgChunkSize * 0 + 112 + 16 * (0 + 0 * 4) + 11 = 123 := rfl
  have h0 : ((Update (pmgAfter data t 256)).chunks_ 0).tiles 0 = pmgTile data 0 0 0 :=
    loaded_tile data t 0 0 0 (by decide) (by decide) (by decide)
  refine ⟨_, _, LoadPmg_ok w data t hlen, LoadPmg_ok w _ t2 hlen2, ?_, ?_⟩
  · rw [loaded_tile data t 0 0 1 (by decide) (by decide) (by decide)]
    simp only [pmgTile, pmgTileAt, i1]
  · rw [loaded_tile _ t2 0 0 1 (by decide) (by decide) (by decide)]
    simp only [pmgTile, pmgTileAt, i1]
    rw [spec_encoded_texture, h0]
    simp only [pmgTile, pmgTileAt, i0]
    exact Nat.mod_eq_of_lt (leAt_lt data 4 _)

theorem textureStream_length : pmgChunkSize * 256 ≤ textureStream.length := by
  simp only [textureStream, List.length_append, List.length_replicate, List.length_cons,
    List.length_nil]
  decide

theorem textureStream_texture :
    leAt textureStream 123 4 = 7 ∧ leAt textureStream 139 4 = 0 := by
  rw [leAt_four, leAt_four]
  decide

/-- C22, as stated, fails: with the encoder of the specification, which writes 16 unused
bytes before each chunk offset record, the bytes written do not decode to the tiles that
were encoded.  On a stream whose first tile has the texture index 7 and whose second tile
has the texture index 0, decoding, encoding and decoding again gives the second tile the
texture index 7. -/
theorem encodePmg_roundtrip_fails :
    ∃ t1 t3, LoadPmg (grid 512) rampTerrain (some textureStream) = .loaded t1
      ∧ LoadPmg (grid 512) rampTerrain (some (encodePmg (grid 512) t1)) = .loaded t3
      ∧ ((t1.chunks_ 0).tiles (1 + 0 * 4)).texture = 0
      ∧ ((t3.chunks_ 0).tiles (1 + 0 * 4)).texture = 7 := by
  obtain ⟨t1, t3, h1, h2, h3, h4⟩ :=
    spec_roundtrip_texture 512 rampTerrain rampTerrain textureStream textureStream_length
  rw [textureStream_texture.2] at h3
  rw [textureStream_texture.1] at h4
  exact ⟨t1, t3, h1, h2, h3, h4⟩

/-- C22, amended: round trip, for an encoder that writes the chunk records without the 16
unused bytes, in the layout the decoder reads.  Decoding a binary terrain stream, encoding
the chunk and tile records of the resulting terrain and decoding the bytes written again
succeeds and reproduces, for every tile of every chunk, the surface, the behaviour, the
rotation, the texture index and the four corner heights and shadings. -/
theorem LoadPmg_roundtrip (w : Nat) (t t2 : Terrain) (data : List Byte)
    (hlen : pmgChunkSize * 256 ≤ data.length) :
    ∃ t1 t3, LoadPmg (grid w) t (some data) = .loaded t1
      ∧ LoadPmg (grid w) t2 (some (encodePmgBare (grid w) t1)) = .loaded t3
      ∧ ∀ k tile_y tile_x, k < 256 → tile_y < 4 → tile_x < 4 →
        ((t3.chunks_ k).tiles (tile_x + tile_y * 4)).surface
            = ((t1.chunks_ k).tiles (tile_x + tile_y * 4)).surface
          ∧ ((t3.chunks_ k).tiles (tile_x + tile_y * 4)).behaviour
            = ((t1.chunks_ k).tiles (tile_x + tile_y * 4)).behaviour
          ∧ ((t3.chunks_ k).tiles (tile_x + tile_y * 4)).rotation
            = ((t1.chunks_ k).tiles (tile_x + tile_y * 4)).rotation
          ∧ ((t3.chunks_ k).tiles (tile_x + tile_y * 4)).texture
            = ((t1.chunks_ k).tiles (tile_x + tile_y * 4)).texture
          ∧ (∀ i : Fin 4, ((t3.chunks_ k).tiles (tile_x + tile_y * 4)).height i
            = ((t1.chunks_ k).tiles (tile_x + tile_y * 4)).height i)
          ∧ (∀ i : Fin 4, ((t3.chunks_ k).tiles (tile_x + tile_y * 4)).shading i
            = ((t1.chunks_ k).tiles (tile_x + tile_y * 4)).shading i) := by
  have hT : ∀ k j, k < 256 → j < 16 →
      ((Update (pmgAfter data t 256)).chunks_ k).tiles j = pmgTile data k (j / 4) (j % 4) := by
    intro k j hk hj
    have h := loaded_tile data t k (j / 4) (j % 4) hk (by omega) (by omega)
    have e : j % 4 + j / 4 * 4 = j := by omega
    rw [e] at h
    exact h
  refine ⟨_, _, LoadPmg_ok w data t hlen,
    LoadPmg_ok w _ t2 (le_of_eq (encodePmgBare_length w _).symm), ?_⟩
  intro k tile_y tile_x hk hy hx
  rw [loaded_tile _ t2 k tile_y tile_x hk hy hx, loaded_tile data t k tile_y tile_x hk hy hx,
    encoded_tile w data _ hT k tile_y tile_x hk hy hx]
  exact ⟨rfl, rfl, rfl, rfl, fun _ => rfl, fun _ => rfl⟩

theorem LoadPmg_roundtrip_witness :
    pmgChunkSize * 256 ≤ textureStream.length
      ∧ ∃ t1 t3, LoadPmg (grid 512) rampTerrain (some textureStream) = .loaded t1
        ∧ LoadPmg (grid 512) deepTerrain (some (encodePmgBare (grid 512) t1)) = .loaded t3
        ∧ ((t3.chunks_ 0).tiles (0 + 0 * 4)).texture
          = ((t1.chunks_ 0).tiles (0 + 0 * 4)).texture :=
  ⟨textureStream_length,
    match LoadPmg_roundtrip 512 rampTerrain deepTerrain textureStream textureStream_length with
    | ⟨t1, t3, h1, h2, h3⟩ =>
      ⟨t1, t3, h1, h2, (h3 0 0 0 (by decide) (by decide) (by decide)).2.2.2.1⟩⟩

end OpenHoW
